import Mathlib

/-!
# Fountain Scan: a shallow embedding of the risk-scoring code

The three scripts of the extension (`popup.js`, `background.js`, `content.js`)
are embedded as pure functions.

Conventions of the embedding.

* A JavaScript string is a list of characters (`Str`).  `toLowerCase` is the
  character-wise ASCII lower-casing; it agrees with JavaScript on every string
  of ASCII characters (hostnames returned by `new URL(..).hostname` are ASCII).
* `new URL(url)` belongs to the host runtime.  Its outcome is an input of the
  scan functions: `none` when the constructor throws, `some u` with the three
  fields the code reads (`hostname`, `protocol`, `port`) otherwise.
* Values read from `chrome.storage` (the two lists), the set of known scam
  domains and the outcome of the random domain-age probe are inputs as well.
* The `scanTime` field of a background result is a wall-clock reading and is
  left out of the result record.
* What the content script reads from the window and the document (the address,
  the page text, the inputs of the forms, the `href` of the links, the images
  and the scripts) and the readings of `Date.now()` are inputs.
* An anchored regular expression `/^r$/` is an expression tree `r` run by a
  derivative matcher (`JS.Regex.test`), which is proved to decide the language
  of `r` (`JS.Regex.test_iff_matches`).
-/

/-- A JavaScript string, as the list of its characters. -/
abbrev Str := List Char

namespace JS

/-- The method `String.prototype.toLowerCase`, on ASCII letters. -/
def toLowerCase (s : Str) : Str := s.map Char.toLower

/-- The method `String.prototype.startsWith(p)`. -/
def startsWith (s p : Str) : Bool := p.isPrefixOf s

/-- The method `String.prototype.endsWith(p)`. -/
def endsWith (s p : Str) : Bool := p.isSuffixOf s

/-- The method `String.prototype.includes(t)`: `t` occurs in `s` as a contiguous block. -/
def includes (s t : Str) : Bool := s.tails.any (fun u => t.isPrefixOf u)

/-- The method `Array.prototype.join(sep)` on an array of strings. -/
def join (sep : Str) (xs : List Str) : Str := sep.intercalate xs

/-- The method `String.prototype.split(c)` for a one-character separator. -/
def split (c : Char) : Str → List Str
  | [] => [[]]
  | x :: xs =>
    if x = c then [] :: split c xs
    else
      match split c xs with
      | [] => [[x]]
      | w :: ws => (x :: w) :: ws

/-- The call `s.replace(/^(www\.)?/, '')`: drop one leading `www.` when present. -/
def replaceWww (s : Str) : Str :=
  if startsWith s "www.".toList then s.drop 4 else s

/-- The optional group `(https?:\/\/)?` at the start of a string, removed. -/
def replaceScheme (s : Str) : Str :=
  if startsWith s "https://".toList then s.drop 8
  else if startsWith s "http://".toList then s.drop 7
  else s

/-- The call `s.replace(/^(https?:\/\/)?(www\.)?/, '')`: both groups are optional and
greedy, so the scheme is removed first and then one leading `www.`. -/
def replaceSchemeWww (s : Str) : Str := replaceWww (replaceScheme s)

/-- Line terminators, the characters `.` does not match in a regular
expression without the `s` flag. -/
def isLineTerminator (c : Char) : Bool :=
  c.toNat = 0x0A || c.toNat = 0x0D || c.toNat = 0x2028 || c.toNat = 0x2029

/-- Case-insensitive (`/i`) match of the literal `lit` at the start of `s`. -/
def litAt (lit s : Str) : Bool := (toLowerCase lit).isPrefixOf (toLowerCase s)

/-- Match `.*lit` followed by the continuation `k` on what is left: skip a run
of characters other than line terminators, then read `lit`. -/
def skipThenLit (lit : Str) (k : Str → Bool) : Str → Bool
  | [] => litAt lit [] && k []
  | c :: t =>
    (litAt lit (c :: t) && k ((c :: t).drop lit.length)) ||
      (!isLineTerminator c && skipThenLit lit k t)

/-- Match `.*l₁.*l₂ ...` at the start of a string. -/
def restMatches : List Str → Str → Bool
  | [], _ => true
  | lit :: lits, s => skipThenLit lit (restMatches lits) s

/-- The method `RegExp.prototype.test` for a pattern `/l₀.*l₁.* ... .*lₙ/i` given by its
literal pieces `l₀, l₁, ..., lₙ`: the pattern may start anywhere. -/
def regexTest (pieces : List Str) (s : Str) : Bool :=
  match pieces with
  | [] => true
  | lit :: lits =>
    s.tails.any (fun u => litAt lit u && restMatches lits (u.drop lit.length))

/-- The regular expressions needed for the anchored pattern of
`isValidBaseDomain`: character classes, sequence, alternative and star. -/
inductive Regex where
  | never : Regex
  | eps : Regex
  | cls : (Char → Bool) → Regex
  | seq : Regex → Regex → Regex
  | alt : Regex → Regex → Regex
  | star : Regex → Regex

/-- The group `(r)?`. -/
def Regex.opt (r : Regex) : Regex := Regex.alt r Regex.eps

/-- The bounded repetition `r{0,n}`. -/
def Regex.upTo : Nat → Regex → Regex
  | 0, _ => Regex.eps
  | n + 1, r => Regex.alt (Regex.seq r (Regex.upTo n r)) Regex.eps

/-- The repetition `r{2,}`. -/
def Regex.twoOrMore (r : Regex) : Regex := Regex.seq r (Regex.seq r (Regex.star r))

/-- Whether the expression matches the empty string. -/
def Regex.nullable : Regex → Bool
  | Regex.never => false
  | Regex.eps => true
  | Regex.cls _ => false
  | Regex.seq r₁ r₂ => r₁.nullable && r₂.nullable
  | Regex.alt r₁ r₂ => r₁.nullable || r₂.nullable
  | Regex.star _ => true

/-- The expression for what may follow after the character `c` was read. -/
def Regex.deriv (c : Char) : Regex → Regex
  | Regex.never => Regex.never
  | Regex.eps => Regex.never
  | Regex.cls p => if p c then Regex.eps else Regex.never
  | Regex.seq r₁ r₂ =>
    if r₁.nullable then Regex.alt (Regex.seq (r₁.deriv c) r₂) (r₂.deriv c)
    else Regex.seq (r₁.deriv c) r₂
  | Regex.alt r₁ r₂ => Regex.alt (r₁.deriv c) (r₂.deriv c)
  | Regex.star r => Regex.seq (r.deriv c) (Regex.star r)

/-- The method `RegExp.prototype.test` for an anchored pattern `/^r$/`: the
whole string has to match `r`. -/
def Regex.test (r : Regex) (s : Str) : Bool :=
  (s.foldl (fun r c => r.deriv c) r).nullable

/-- The strings an expression matches. -/
inductive Regex.Matches : Regex → Str → Prop
  | eps : Regex.Matches Regex.eps []
  | cls (p : Char → Bool) (c : Char) : p c = true → Regex.Matches (Regex.cls p) [c]
  | seq (r₁ r₂ : Regex) (s₁ s₂ : Str) :
    Regex.Matches r₁ s₁ → Regex.Matches r₂ s₂ → Regex.Matches (Regex.seq r₁ r₂) (s₁ ++ s₂)
  | altLeft (r₁ r₂ : Regex) (s : Str) : Regex.Matches r₁ s → Regex.Matches (Regex.alt r₁ r₂) s
  | altRight (r₁ r₂ : Regex) (s : Str) : Regex.Matches r₂ s → Regex.Matches (Regex.alt r₁ r₂) s
  | starNil (r : Regex) : Regex.Matches (Regex.star r) []
  | starCons (r : Regex) (s₁ s₂ : Str) :
    Regex.Matches r s₁ → Regex.Matches (Regex.star r) s₂ →
      Regex.Matches (Regex.star r) (s₁ ++ s₂)

/-- The method `Map.prototype.get` of a map with string keys, given by its
entries in insertion order. -/
def mapGet {β : Type} (m : List (Str × β)) (k : Str) : Option β :=
  match m with
  | [] => none
  | (k', v) :: rest => if k' = k then some v else mapGet rest k

/-- The method `Map.prototype.set`: an existing key keeps its place and gets the
new value, a new key goes to the end. -/
def mapSet {β : Type} (m : List (Str × β)) (k : Str) (v : β) : List (Str × β) :=
  match m with
  | [] => [(k, v)]
  | (k', v') :: rest => if k' = k then (k, v) :: rest else (k', v') :: mapSet rest k v

/-- The method `Map.prototype.delete`: the entry of the key is removed. -/
def mapDelete {β : Type} (m : List (Str × β)) (k : Str) : List (Str × β) :=
  m.filter (fun e => decide (e.1 ≠ k))

/-- The method `Set.prototype.add` on a set of strings, given by its elements
in insertion order. -/
def setAdd (s : List Str) (x : Str) : List Str :=
  if x ∈ s then s else s ++ [x]

/-- White space and line terminators, the characters `String.prototype.trim`
removes. -/
def isTrimChar (c : Char) : Bool :=
  c.toNat = 0x09 || c.toNat = 0x0A || c.toNat = 0x0B || c.toNat = 0x0C || c.toNat = 0x0D ||
  c.toNat = 0x20 || c.toNat = 0xA0 || c.toNat = 0x1680 ||
  (0x2000 ≤ c.toNat && c.toNat ≤ 0x200A) ||
  c.toNat = 0x2028 || c.toNat = 0x2029 || c.toNat = 0x202F || c.toNat = 0x205F ||
  c.toNat = 0x3000 || c.toNat = 0xFEFF

/-- The method `String.prototype.trim`. -/
def trim (s : Str) : Str :=
  ((s.dropWhile isTrimChar).reverse.dropWhile isTrimChar).reverse

/-- The call `s.replace(/\/$/, '')`: drop one trailing slash when present. -/
def replaceTrailingSlash (s : Str) : Str :=
  if endsWith s "/".toList then s.dropLast else s

/-- The expression `s.split(c)[0]`. -/
def splitFirst (c : Char) (s : Str) : Str :=
  match split c s with
  | [] => []
  | w :: _ => w

/-- The property `String.prototype.length`: the number of UTF-16 code units of
the string, two for a character above U+FFFF and one for any other. -/
def length (s : Str) : Nat :=
  (s.map (fun c => if c.toNat > 0xFFFF then 2 else 1)).sum

end JS

/-- The fields of a `URL` object that the scans read. -/
structure URL where
  hostname : Str
  protocol : Str
  port : Str
deriving DecidableEq

/-! ## popup.js -/

namespace FountainScan

open JS

/-- The `level` field of a popup scan result: `'safe'`, `'warning'` or
`'danger'`. -/
inductive Level where
  | safe
  | warning
  | danger
deriving DecidableEq

/-- The object returned by `performScan`. -/
structure ScanResult where
  status : Str
  level : Level
  issues : List Str
  score : Nat
deriving DecidableEq

/-- The function `domainMatches(currentDomain, listDomain)` of popup.js. -/
def domainMatches (currentDomain listDomain : Str) : Bool :=
  let cleanDomain := toLowerCase (replaceSchemeWww listDomain)
  let cleanCurrent := toLowerCase (replaceWww currentDomain)
  if cleanCurrent = cleanDomain then true
  else if endsWith cleanCurrent ('.' :: cleanDomain) then true
  else if startsWith cleanDomain "*.".toList then
    let baseDomain := cleanDomain.drop 2
    endsWith cleanCurrent ('.' :: baseDomain) || decide (cleanCurrent = baseDomain)
  else false

/-- One category of `getDetectionPatterns()`. -/
structure DetectionPattern where
  keywords : List Str
  score : Nat
  message : Str

/-- The category `scholarshipScams` of `getDetectionPatterns()`. -/
def scholarshipScams : DetectionPattern :=
  { keywords :=
      [ "free-scholarship", "guaranteed-scholarship", "instant-scholarship",
        "scholarship-winner", "congratulations-scholarship", "scholarship-alert",
        "urgent-scholarship", "limited-scholarship", "scholarship-opportunity",
        "scholarship-grant", "education-grant", "student-aid-program",
        "free scholarship", "instant money", "guaranteed loan",
        "easy cash", "work from home", "get rich quick",
        "no-experience-required", "make-money-fast",
        "nin", "bvn", "guaranteed", "National Identity Number",
        "free", "Bank Verification Number", "payment verification", "pin"
      ].map String.toList
    score := 4
    message := "Potential scholarship scam detected".toList }

/-- The table `getDetectionPatterns()`, as the list `Object.entries` walks: the
categories in insertion order, each with its key. -/
def getDetectionPatterns : List (Str × DetectionPattern) :=
  [ ("scholarshipScams".toList, scholarshipScams),
    ("financialFraud".toList,
      { keywords :=
          [ "instant-money", "guaranteed-loan", "easy-cash", "quick-loan",
            "no-collateral", "emergency-loan", "same-day-loan", "payday-loan",
            "cash-advance", "loan-approved", "credit-repair", "debt-relief"
          ].map String.toList
        score := 3
        message := "Financial fraud pattern detected".toList }),
    ("workScams".toList,
      { keywords :=
          [ "work-from-home", "make-money-online", "earn-from-home",
            "no-experience-required", "easy-job", "online-jobs",
            "part-time-income", "flexible-hours", "remote-work-opportunity"
          ].map String.toList
        score := 2
        message := "Work-from-home scam pattern detected".toList }),
    ("investmentScams".toList,
      { keywords :=
          [ "investment-opportunity", "crypto-trading", "forex-trading",
            "get-rich-quick", "guaranteed-returns", "high-yield",
            "bitcoin-investment", "trading-signals", "profit-guaranteed"
          ].map String.toList
        score := 3
        message := "Investment scam pattern detected".toList }),
    ("nigerianScams".toList,
      { keywords :=
          [ "npower", "jamb-result", "waec-result", "inec-recruitment",
            "nnpc-recruitment", "cbn-recruitment", "federal-government",
            "state-government", "local-government", "ministry-recruitment",
            "nddc-scholarship", "tetfund", "ptdf-scholarship"
          ].map String.toList
        score := 3
        message := "Nigerian institution impersonation detected".toList }),
    ("urgencyTactics".toList,
      { keywords :=
          [ "urgent", "limited-time", "expires-soon", "act-now",
            "dont-miss-out", "last-chance", "hurry", "immediate",
            "deadline-today", "offer-expires", "while-supplies-last"
          ].map String.toList
        score := 1
        message := "Urgency pressure tactic detected".toList }),
    ("phishingPatterns".toList,
      { keywords :=
          [ "verify-account", "update-information", "confirm-identity",
            "security-alert", "account-suspended", "login-required",
            "click-here", "download-now", "install-app"
          ].map String.toList
        score := 2
        message := "Phishing attempt detected".toList }) ]

/-- The two accumulators of `performScan`: `score` and `issues`. -/
structure Acc where
  score : Nat
  issues : List Str
deriving DecidableEq

/-- The pair `score += n; issues.push(msg)`. -/
def Acc.add (a : Acc) (n : Nat) (msg : Str) : Acc :=
  { score := a.score + n, issues := a.issues ++ [msg] }

/-- The `suspiciousTlds` array of `performScan`. -/
def suspiciousTlds : List Str :=
  [".tk", ".ml", ".ga", ".cf", ".pw", ".top", ".click"].map String.toList

/-- The `shorteners` array of `performScan`. -/
def shorteners : List Str :=
  ["bit.ly", "tinyurl.com", "goo.gl", "t.co", "short.link", "ow.ly"].map String.toList

/-- The ports `performScan` does not flag. -/
def standardPorts : List Str := ["80", "443", "8080", "8443"].map String.toList

/-- The heuristic part of `performScan` (from "Security checks" down to the
port check): the accumulators after all checks ran. -/
def heuristics (url : Str) (urlObj : URL) : Acc :=
  let domain := toLowerCase urlObj.hostname
  let fullUrl := toLowerCase url
  let a0 : Acc := { score := 0, issues := [] }
  let a1 :=
    if urlObj.protocol ≠ "https:".toList then a0.add 3 "No HTTPS encryption".toList else a0
  let a2 := getDetectionPatterns.foldl
    (fun a entry =>
      let pattern := entry.2
      let foundKeywords := pattern.keywords.filter
        (fun keyword => includes fullUrl keyword || includes domain keyword)
      if foundKeywords.length > 0 then
        a.add pattern.score (pattern.message ++ ": ".toList ++ join ", ".toList foundKeywords)
      else a)
    a1
  let a3 := suspiciousTlds.foldl
    (fun a tld =>
      if endsWith domain tld then
        a.add 2 ("Suspicious domain extension: ".toList ++ tld)
      else a)
    a2
  let a4 := shorteners.foldl
    (fun a shortener =>
      if includes domain shortener then a.add 1 "URL shortener detected".toList else a)
    a3
  let a5 :=
    if includes domain "xn--".toList then
      a4.add 2 "Internationalized domain (potential homograph attack)".toList
    else a4
  let subdomains := split '.' domain
  let a6 :=
    if subdomains.length > 4 then a5.add 1 "Excessive subdomains detected".toList else a5
  let a7 :=
    if urlObj.port ≠ [] ∧ urlObj.port ∉ standardPorts then
      a6.add 1 ("Suspicious port: ".toList ++ urlObj.port)
    else a6
  a7

/-- The "Determine risk level" step of `performScan`: status and level of a
score. -/
def determineRiskLevel (score : Nat) : Str × Level :=
  if score ≥ 6 then ("High Risk".toList, Level.danger)
  else if score ≥ 3 then ("Medium Risk".toList, Level.warning)
  else ("Safe".toList, Level.safe)

/-- The function `performScan(url)` of popup.js; `parsed` is the outcome of `new URL(url)`
and the two lists are `this.whitelist` and `this.blacklist`. -/
def performScan (whitelist blacklist : List Str) (url : Str) (parsed : Option URL) :
    ScanResult :=
  match parsed with
  | none =>
    { status := "Error".toList, level := Level.warning,
      issues := ["Unable to scan URL".toList], score := 0 }
  | some urlObj =>
    let domain := toLowerCase urlObj.hostname
    if whitelist.any (fun d => domainMatches domain (toLowerCase d)) then
      { status := "Trusted (Whitelisted)".toList, level := Level.safe, issues := [], score := 0 }
    else if blacklist.any (fun d => domainMatches domain (toLowerCase d)) then
      { status := "Blocked (Blacklisted)".toList, level := Level.danger,
        issues := ["Domain is blacklisted".toList], score := 10 }
    else
      let a := heuristics url urlObj
      let sl := determineRiskLevel a.score
      { status := sl.1, level := sl.2, issues := a.issues, score := a.score }

end FountainScan

/-! ## popup.js: list management -/

namespace FountainScan

open JS

/-- The class `[a-zA-Z0-9]`. -/
def alnum : Regex := Regex.cls Char.isAlphanum

/-- The class `[a-zA-Z0-9-]`. -/
def alnumHyphen : Regex := Regex.cls (fun c => c.isAlphanum || c = '-')

/-- The group `[a-zA-Z0-9]([a-zA-Z0-9-]{0,61}[a-zA-Z0-9])?` of `domainRegex`. -/
def labelRegex : Regex :=
  Regex.seq alnum (Regex.opt (Regex.seq (Regex.upTo 61 alnumHyphen) alnum))

/-- The escaped dot `\.` of `domainRegex`. -/
def dot : Regex := Regex.cls (fun c => c = '.')

/-- The constant `domainRegex` of `isValidBaseDomain`, between `^` and `$`:
`label(\.label)*\.[a-zA-Z]{2,}`. -/
def domainRegex : Regex :=
  Regex.seq labelRegex
    (Regex.seq (Regex.star (Regex.seq dot labelRegex))
      (Regex.seq dot (Regex.twoOrMore (Regex.cls Char.isAlpha))))

/-- The function `isValidBaseDomain(domain)` of popup.js.  The length test comes
after the pattern test, so it only sees ASCII strings, whose `length` is the
number of characters. -/
def isValidBaseDomain (domain : Str) : Bool :=
  if !domainRegex.test domain then false
  else if domain.length > 253 then false
  else if includes domain "..".toList then false
  else if startsWith domain "-".toList || endsWith domain "-".toList then false
  else true

/-- The function `isValidDomain(domain)` of popup.js. -/
def isValidDomain (domain : Str) : Bool :=
  let cleanDomain := toLowerCase (replaceSchemeWww domain)
  if startsWith cleanDomain "*.".toList then
    let baseDomain := cleanDomain.drop 2
    isValidBaseDomain baseDomain
  else isValidBaseDomain cleanDomain

/-- The function `normalizeDomain(input)` of popup.js. -/
def normalizeDomain (input : Str) : Str :=
  if input = [] then []
  else
    let domain := replaceTrailingSlash (replaceSchemeWww (toLowerCase input))
    let domain := splitFirst '#' (splitFirst '?' (splitFirst '/' domain))
    let domain := splitFirst ':' domain
    trim domain

/-- The argument `listType` of `addToList`: `'whitelist'` or `'blacklist'`. -/
inductive ListType where
  | whitelist
  | blacklist
deriving DecidableEq

/-- The two lists of the popup: `this.whitelist` and `this.blacklist`. -/
structure Lists where
  whitelist : List Str
  blacklist : List Str
deriving DecidableEq

/-- The function `addToList(listType)` of popup.js, as its effect on the two
lists; `inputValue` is the `value` of the input element of the list.  Messages,
storage and rendering are left out. -/
def addToList (st : Lists) (listType : ListType) (inputValue : Str) : Lists :=
  let rawDomain := trim inputValue
  if rawDomain = [] then st
  else
    let domain := normalizeDomain rawDomain
    if domain = [] then st
    else if !isValidDomain domain then st
    else
      let list := match listType with
        | ListType.whitelist => st.whitelist
        | ListType.blacklist => st.blacklist
      let otherList := match listType with
        | ListType.whitelist => st.blacklist
        | ListType.blacklist => st.whitelist
      if list.any (fun d => toLowerCase d = toLowerCase domain) then st
      else if otherList.any (fun d => toLowerCase d = toLowerCase domain) then st
      else
        match listType with
        | ListType.whitelist => { st with whitelist := st.whitelist ++ [domain] }
        | ListType.blacklist => { st with blacklist := st.blacklist ++ [domain] }

/-- The pair `findIndex(p)` and `splice(index, 1)` when an index was found: the
first element that passes `p` is removed. -/
def removeFirst (p : Str → Bool) : List Str → List Str
  | [] => []
  | d :: ds => if p d then ds else d :: removeFirst p ds

/-- The function `removeFromList(listType, domain)` of popup.js, as its effect
on the two lists; `confirmed` is what `confirm(...)` returned. -/
def removeFromList (st : Lists) (listType : ListType) (domain : Str) (confirmed : Bool) :
    Lists :=
  if confirmed then
    match listType with
    | ListType.whitelist =>
      { st with whitelist :=
          removeFirst (fun d => toLowerCase d = toLowerCase domain) st.whitelist }
    | ListType.blacklist =>
      { st with blacklist :=
          removeFirst (fun d => toLowerCase d = toLowerCase domain) st.blacklist }
  else st

/-- One call of a list function of the popup. -/
inductive ListCall where
  | add (listType : ListType) (inputValue : Str)
  | remove (listType : ListType) (domain : Str) (confirmed : Bool)

/-- The lists after one call. -/
def ListCall.run (st : Lists) : ListCall → Lists
  | ListCall.add listType inputValue => addToList st listType inputValue
  | ListCall.remove listType domain confirmed => removeFromList st listType domain confirmed

/-- The two facts of the list state: no two entries of one list are equal
ignoring case, and no entry of the whitelist equals an entry of the blacklist
ignoring case. -/
def Lists.Distinct (st : Lists) : Prop :=
  (st.whitelist.map toLowerCase).Nodup ∧ (st.blacklist.map toLowerCase).Nodup ∧
    ∀ a ∈ st.whitelist, ∀ b ∈ st.blacklist, toLowerCase a ≠ toLowerCase b

end FountainScan

/-! ## background.js -/

namespace FountainScanBackground

open JS

/-- The `riskLevel` field of a background scan result. -/
inductive RiskLevel where
  | safe
  | low
  | medium
  | high
  | unknown
deriving DecidableEq

/-- The object returned by `performBackgroundScan` (without `scanTime`). -/
structure BackgroundResult where
  riskLevel : RiskLevel
  riskScore : Nat
  status : Str
  issues : List Str
  warnings : List Str
deriving DecidableEq

/-- The domains `loadScamDatabase` puts into `knownScamDomains`. -/
def knownScams : List Str :=
  [ "fakescholarship.ng", "free-scholarship-nigeria.com", "guaranteed-admission.ng",
    "instant-scholarship.com", "easy-university-admission.ng", "scholarship-scam.com",
    "fake-education.ng" ].map String.toList

/-- The array `nigerianScamPatterns`, each regular expression by its literal
pieces (the pieces are separated by `.*`, the flag is `i`). -/
def nigerianScamPatterns : List (List Str) :=
  [ ["nigeria", "scholarship", "free"],
    ["guaranteed", "scholarship", "nigeria"],
    ["instant", "admission", "nigeria"],
    ["free", "university", "admission"],
    ["no", "exam", "required", "scholarship"],
    ["apply", "now", "scholarship", "nigeria"],
    ["100%", "scholarship", "guarantee"] ].map (fun p => p.map String.toList)

/-- The array `suspiciousKeywords`. -/
def suspiciousKeywords : List Str :=
  [ "free-money", "instant-cash", "guaranteed-loan",
    "work-from-home", "get-rich-quick", "easy-money",
    "no-experience-required", "make-money-fast",
    "scholarship-guaranteed", "admission-assured" ].map String.toList

/-- The array `suspiciousTlds` of the background scan. -/
def suspiciousTlds : List Str :=
  [".tk", ".ml", ".ga", ".cf", ".pw", ".top"].map String.toList

/-- The array `shorteners` of the background scan. -/
def shorteners : List Str :=
  [ "bit.ly", "tinyurl.com", "goo.gl", "t.co", "short.link",
    "tiny.cc", "ow.ly", "buff.ly" ].map String.toList

/-- The array `phishingPatterns`, each regular expression by its literal
pieces. -/
def phishingPatterns : List (List Str) :=
  [ ["login", "verify", "account"],
    ["suspended", "account", "verify"],
    ["urgent", "action", "required"],
    ["click", "here", "immediately"] ].map (fun p => p.map String.toList)

/-- The three accumulators of `performBackgroundScan`. -/
structure Acc where
  riskScore : Nat
  issues : List Str
  warnings : List Str
deriving DecidableEq

/-- The pair `riskScore += n; issues.push(msg)`. -/
def Acc.issue (a : Acc) (n : Nat) (msg : Str) : Acc :=
  { a with riskScore := a.riskScore + n, issues := a.issues ++ [msg] }

/-- The pair `riskScore += n; warnings.push(msg)`. -/
def Acc.warning (a : Acc) (n : Nat) (msg : Str) : Acc :=
  { a with riskScore := a.riskScore + n, warnings := a.warnings ++ [msg] }

/-- The two list checks that open `performBackgroundScan`: known scam domains
and the blacklist. -/
def listChecks (knownScamDomains blacklist : List Str) (domain : Str) : Acc :=
  let a0 : Acc := { riskScore := 0, issues := [], warnings := [] }
  let a1 := if domain ∈ knownScamDomains then a0.issue 10 "Known scam domain".toList else a0
  let a2 :=
    if blacklist.any (fun d => includes domain (toLowerCase d)) then
      a1.issue 10 "Blacklisted domain".toList
    else a1
  a2

/-- The checks of `performBackgroundScan` after the whitelist test, from
"Security checks" down to the phishing patterns, started from `a`;
`isNewDomain` is what `this.isNewDomain(domain)` resolved to. -/
def heuristics (a : Acc) (isNewDomain : Bool) (url : Str) (urlObj : URL) : Acc :=
  let domain := toLowerCase urlObj.hostname
  let a1 :=
    if urlObj.protocol ≠ "https:".toList then a.issue 3 "No HTTPS encryption".toList else a
  let a2 := nigerianScamPatterns.foldl
    (fun a pattern =>
      if regexTest pattern url || regexTest pattern domain then
        a.issue 4 "Nigerian scholarship scam pattern detected".toList
      else a)
    a1
  let urlLower := toLowerCase url
  let a3 := suspiciousKeywords.foldl
    (fun a keyword =>
      if includes urlLower keyword then
        a.warning 2 ("Suspicious keyword: ".toList ++ keyword)
      else a)
    a2
  let a4 := suspiciousTlds.foldl
    (fun a tld =>
      if endsWith domain tld then
        a.warning 3 ("Suspicious domain extension: ".toList ++ tld)
      else a)
    a3
  let a5 := shorteners.foldl
    (fun a shortener =>
      if includes domain shortener then a.warning 2 "URL shortener detected".toList else a)
    a4
  let a6 := if isNewDomain then a5.warning 2 "Recently registered domain".toList else a5
  let a7 := phishingPatterns.foldl
    (fun a pattern =>
      if regexTest pattern url then a.issue 3 "Phishing pattern detected".toList else a)
    a6
  a7

/-- The "Determine risk level" step of `performBackgroundScan`. -/
def determineRiskLevel (riskScore : Nat) : RiskLevel × Str :=
  if riskScore ≥ 8 then (RiskLevel.high, "High Risk - Potential Scam".toList)
  else if riskScore ≥ 5 then (RiskLevel.medium, "Medium Risk - Suspicious".toList)
  else if riskScore ≥ 2 then (RiskLevel.low, "Low Risk - Minor Concerns".toList)
  else (RiskLevel.safe, "Safe".toList)

/-- The function `performBackgroundScan(url)` of background.js.  `parsed` is the outcome of
`new URL(url)`, `knownScamDomains` the set of that name, `blacklist` and
`whitelist` what `getBlacklist()` and `getWhitelist()` resolved to, and
`isNewDomain` the outcome of the domain-age probe. -/
def performBackgroundScan (knownScamDomains blacklist whitelist : List Str)
    (isNewDomain : Bool) (url : Str) (parsed : Option URL) : BackgroundResult :=
  match parsed with
  | none =>
    { riskLevel := RiskLevel.unknown, riskScore := 0, status := "Scan Error".toList,
      issues := ["Unable to scan URL".toList], warnings := [] }
  | some urlObj =>
    let domain := toLowerCase urlObj.hostname
    let a := listChecks knownScamDomains blacklist domain
    if whitelist.any (fun d => includes domain (toLowerCase d)) then
      { riskLevel := RiskLevel.safe, riskScore := 0, status := "Whitelisted".toList,
        issues := [], warnings := [] }
    else
      let b := heuristics a isNewDomain url urlObj
      let ls := determineRiskLevel b.riskScore
      { riskLevel := ls.1, riskScore := b.riskScore, status := ls.2,
        issues := b.issues, warnings := b.warnings }

/-- A value of the map `scanCache`: a scan result and the time it was stored,
in milliseconds. -/
structure CacheEntry where
  result : BackgroundResult
  timestamp : Int
deriving DecidableEq

/-- The map `scanCache`, from URL to cache entry. -/
abbrev ScanCache := List (Str × CacheEntry)

/-- The method `shouldScanUrl(url)`; a missing URL is the empty string. -/
def shouldScanUrl (url : Str) : Bool :=
  if url = [] then false
  else if startsWith url "chrome://".toList ||
      startsWith url "chrome-extension://".toList ||
      startsWith url "about:".toList ||
      startsWith url "moz-extension://".toList then false
  else true

/-- The badge of a tab: the text and the background colour `updateBadge`
sets. -/
structure Badge where
  text : Str
  color : Str
deriving DecidableEq

/-- The method `updateBadge(tabId, scanResult)`, as the badge it sets. -/
def updateBadge (scanResult : BackgroundResult) : Badge :=
  match scanResult.riskLevel with
  | RiskLevel.high => { text := "!".toList, color := "#F44336".toList }
  | RiskLevel.medium => { text := "?".toList, color := "#FF9800".toList }
  | RiskLevel.low => { text := "~".toList, color := "#FFC107".toList }
  | _ => { text := [], color := "#4CAF50".toList }

/-- The fields of the background worker that the tab handlers use. -/
structure Worker where
  knownScamDomains : List Str
  scanCache : ScanCache

/-- The two lists in `chrome.storage.local`. -/
structure Storage where
  blacklist : List Str
  whitelist : List Str

/-- What a tab handler did: the cache it leaves, the badge it set (if any) and
the URLs it passed to `performBackgroundScan`, in order. -/
structure Outcome where
  scanCache : ScanCache
  badge : Option Badge
  scans : List Str
deriving DecidableEq

/-- The method `handleTabActivation(tab)` for `tab.url = url`.  `now` is what
`Date.now()` returns at the freshness test and `nowStored` what it returns when
the new entry is stored; `parsed` and `isNewDomain` are the inputs of the scan
of `url`. -/
def handleTabActivation (w : Worker) (storage : Storage) (isNewDomain : Bool)
    (parsed : Option URL) (now nowStored : Int) (url : Str) : Outcome :=
  if url = [] ∨ shouldScanUrl url = false then
    { scanCache := w.scanCache, badge := none, scans := [] }
  else
    let freshScan : Outcome :=
      let scanResult := performBackgroundScan w.knownScamDomains storage.blacklist
        storage.whitelist isNewDomain url parsed
      { scanCache := mapSet w.scanCache url { result := scanResult, timestamp := nowStored },
        badge := some (updateBadge scanResult), scans := [url] }
    match mapGet w.scanCache url with
    | some cached =>
      if now - cached.timestamp < 300000 then
        { scanCache := w.scanCache, badge := some (updateBadge cached.result), scans := [] }
      else freshScan
    | none => freshScan

/-- The fields of `this.settings` that the tab handlers read. -/
structure Settings where
  alertsEnabled : Bool := true
  blockingEnabled : Bool := false
  realTimeScanning : Bool := true

/-- What `handleTabUpdate` did: as `Outcome`, and whether `handleHighRiskSite`
created the alert notification and redirected the tab to the warning page. -/
structure UpdateOutcome where
  scanCache : ScanCache
  badge : Option Badge
  scans : List Str
  notified : Bool
  redirected : Bool
deriving DecidableEq

/-- The method `handleTabUpdate(tabId, tab)` for `tab.url = url`; `settings` is
`this.settings` and `nowStored` what `Date.now()` returns when the entry is
stored. -/
def handleTabUpdate (w : Worker) (settings : Settings) (storage : Storage)
    (isNewDomain : Bool) (parsed : Option URL) (nowStored : Int) (url : Str) : UpdateOutcome :=
  if settings.realTimeScanning = false then
    { scanCache := w.scanCache, badge := none, scans := [], notified := false,
      redirected := false }
  else if shouldScanUrl url = false then
    { scanCache := w.scanCache, badge := none, scans := [], notified := false,
      redirected := false }
  else
    let scanResult := performBackgroundScan w.knownScamDomains storage.blacklist
      storage.whitelist isNewDomain url parsed
    let highRisk := decide (scanResult.riskLevel = RiskLevel.high)
    { scanCache := mapSet w.scanCache url { result := scanResult, timestamp := nowStored },
      badge := some (updateBadge scanResult), scans := [url],
      notified := highRisk && settings.alertsEnabled,
      redirected := highRisk && settings.alertsEnabled && settings.blockingEnabled }

/-- What the `scanUrl` case of `handleMessage` did: the response it sent, the
cache it leaves and the URLs it passed to `performBackgroundScan`. -/
structure ScanUrlOutcome where
  success : Bool
  result : BackgroundResult
  scanCache : ScanCache
  scans : List Str
deriving DecidableEq

/-- The case `'scanUrl'` of `handleMessage(request, sender, sendResponse)` for
`request.url = url`. -/
def handleMessageScanUrl (w : Worker) (storage : Storage) (isNewDomain : Bool)
    (parsed : Option URL) (url : Str) : ScanUrlOutcome :=
  let scanResult := performBackgroundScan w.knownScamDomains storage.blacklist
    storage.whitelist isNewDomain url parsed
  { success := true, result := scanResult, scanCache := w.scanCache, scans := [url] }

/-- The method `addToWhitelist(domain)`: the worker and the storage it leaves. -/
def addToWhitelist (w : Worker) (storage : Storage) (domain : Str) : Worker × Storage :=
  if domain ∉ storage.whitelist then
    (w, { storage with whitelist := storage.whitelist ++ [domain] })
  else (w, storage)

/-- The method `addToBlacklist(domain)`: the worker and the storage it leaves. -/
def addToBlacklist (w : Worker) (storage : Storage) (domain : Str) : Worker × Storage :=
  if domain ∉ storage.blacklist then
    ({ w with knownScamDomains := setAdd w.knownScamDomains domain },
      { storage with blacklist := storage.blacklist ++ [domain] })
  else (w, storage)

/-- The method `cleanupCache()`; `now` is what `Date.now()` returns.  The loop
visits the entries the map held at the start and deletes the key of each entry
older than `maxAge`. -/
def cleanupCache (w : Worker) (now : Int) : Worker :=
  let maxAge : Int := 24 * 60 * 60 * 1000
  let swept := w.scanCache.foldl
    (fun m entry => if now - entry.2.timestamp > maxAge then mapDelete m entry.1 else m)
    w.scanCache
  { w with scanCache := swept }

end FountainScanBackground

/-! ## content.js -/

namespace FountainScanAnalyzer

/-- The string `getRiskLevel` returns: `'SAFE'`, `'LOW'`, `'MEDIUM'` or
`'HIGH'`. -/
inductive RiskLevel where
  | SAFE
  | LOW
  | MEDIUM
  | HIGH
deriving DecidableEq

/-- The shape of `CONFIG.RISK_THRESHOLDS`. -/
structure RiskThresholds where
  LOW : Nat
  MEDIUM : Nat
  HIGH : Nat

/-- The constant `CONFIG.RISK_THRESHOLDS` of content.js. -/
def CONFIG.RISK_THRESHOLDS : RiskThresholds := { LOW := 2, MEDIUM := 4, HIGH := 6 }

/-- The function `getRiskLevel()` of content.js, as a function of `this.riskScore`. -/
def getRiskLevel (riskScore : Nat) : RiskLevel :=
  if riskScore ≥ CONFIG.RISK_THRESHOLDS.HIGH then RiskLevel.HIGH
  else if riskScore ≥ CONFIG.RISK_THRESHOLDS.MEDIUM then RiskLevel.MEDIUM
  else if riskScore ≥ CONFIG.RISK_THRESHOLDS.LOW then RiskLevel.LOW
  else RiskLevel.SAFE

/-- Position of a level in the order SAFE < LOW < MEDIUM < HIGH, used to state
that the level never drops when the score grows. -/
def RiskLevel.rank : RiskLevel → Nat
  | RiskLevel.SAFE => 0
  | RiskLevel.LOW => 1
  | RiskLevel.MEDIUM => 2
  | RiskLevel.HIGH => 3


open JS

/-- The double-quote character of the issue messages. -/
def quote : Char := Char.ofNat 34

/-- The constant `CONFIG.FORM_RISKS` of content.js. -/
def CONFIG.FORM_RISKS : List Str :=
  [ "bank account", "credit card", "ssn", "social security",
    "passport number", "driver license", "nin", "bvn",
    "mothers maiden name", "place of birth", "blood type", "atm pin" ].map String.toList

/-- The constant `CONFIG.SUSPICIOUS_DOMAINS` of content.js. -/
def CONFIG.SUSPICIOUS_DOMAINS : List Str :=
  [ "bit.ly", "tinyurl.com", "goo.gl", "t.co", "ow.ly",
    "free-scholarship", "easy-money", "quick-cash",
    "government-grants", "federal-aid", "student-loans" ].map String.toList

/-- The two fields of the analyzer that the checks write: `riskScore` and
`detectedIssues`. -/
structure Analyzer where
  riskScore : Nat
  detectedIssues : List Str
deriving DecidableEq

/-- The method `addIssue(issue, score)`. -/
def addIssue (a : Analyzer) (issue : Str) (score : Nat) : Analyzer :=
  { riskScore := a.riskScore + score, detectedIssues := a.detectedIssues ++ [issue] }

/-- The array `nigerianPatterns` of `checkNigerianScamPatterns`. -/
def nigerianPatterns : List Str :=
  [ "nigerian government", "federal ministry", "nnpc scholarship",
    "petroleum trust fund", "ptf scholarship", "tetfund",
    "jamb scholarship", "waec scholarship", "neco scholarship",
    "lagos state scholarship", "kano state scholarship",
    "rivers state scholarship", "ogun state scholarship",
    "presidential scholarship", "governors scholarship",
    "dangote scholarship", "mtn scholarship", "gtbank scholarship",
    "shell scholarship", "chevron scholarship", "mobil scholarship",
    "atm pin" ].map String.toList

/-- The array `additionalRisks` of `checkForAdditionalRisks`. -/
def additionalRisks : List Str :=
  [ "processing fee", "registration fee", "application fee",
    "send money", "bank details", "urgent response" ].map String.toList

/-- The method `checkForAdditionalRisks(textLower)`. -/
def checkForAdditionalRisks (textLower : Str) : Bool :=
  additionalRisks.any (fun risk => includes textLower risk)

/-- The method `checkNigerianScamPatterns(textLower)`. -/
def checkNigerianScamPatterns (a : Analyzer) (textLower : Str) : Analyzer :=
  nigerianPatterns.foldl
    (fun a pattern =>
      if includes textLower pattern then
        let riskLevel := if checkForAdditionalRisks textLower then 2 else 1
        addIssue a ("Nigerian scholarship pattern: ".toList ++ quote :: pattern ++ [quote])
          riskLevel
      else a)
    a

/-- What `checkForms` reads of an `input`, `textarea` or `select` element: its
`name`, `placeholder` and `id`, each as the string the concatenation sees. -/
structure FormInput where
  name : Str
  placeholder : Str
  id : Str
deriving DecidableEq

/-- The body of `inputs.forEach` in `checkForms`: the checks of one input. -/
def checkFormInput (a : Analyzer) (input : FormInput) : Analyzer :=
  let inputText := toLowerCase (input.name ++ " ".toList ++ input.placeholder ++ " ".toList ++
    input.id)
  let a1 := CONFIG.FORM_RISKS.foldl
    (fun a risk =>
      if includes inputText risk then
        addIssue a ("Suspicious form field: ".toList ++ risk) 2
      else a)
    a
  if includes inputText "bank".toList || includes inputText "account".toList ||
      includes inputText "card".toList || includes inputText "payment".toList then
    addIssue a1 "Financial information requested".toList 3
  else a1

/-- The method `checkForms()`; `forms` lists, for every `form` of the document,
its inputs. -/
def checkForms (a : Analyzer) (forms : List (List FormInput)) : Analyzer :=
  forms.foldl (fun a form => form.foldl checkFormInput a) a

/-- The method `checkLinks()`; `links` lists the `href` of every `a[href]` of
the document.  The first component of the fold is `suspiciousLinks`. -/
def checkLinks (a : Analyzer) (links : List Str) : Analyzer :=
  let st := links.foldl
    (fun (st : Nat × Analyzer) link =>
      let href := toLowerCase link
      let suspiciousLinks := CONFIG.SUSPICIOUS_DOMAINS.foldl
        (fun n domain => if includes href domain then n + 1 else n)
        st.1
      let a :=
        if includes href "download".toList || includes href ".exe".toList ||
            includes href ".zip".toList || includes href ".rar".toList then
          addIssue st.2 "Suspicious download link detected".toList 1
        else st.2
      (suspiciousLinks, a))
    (0, a)
  if st.1 > 3 then
    addIssue st.2
      ("Multiple suspicious external links (".toList ++ (Nat.repr st.1).toList ++ ")".toList) 2
  else st.2

/-- The constant `CONFIG.SCAM_KEYWORDS` of content.js. -/
def CONFIG.SCAM_KEYWORDS : List Str :=
  [ "free scholarship", "guaranteed scholarship", "instant scholarship",
    "no application fee", "processing fee required", "registration fee",
    "urgent scholarship", "limited time offer", "act now",
    "government scholarship", "federal scholarship", "state scholarship",
    "university scholarship", "foreign scholarship", "international scholarship",
    "study abroad free", "full funding", "stipend included",
    "cash reward", "monetary prize", "financial assistance",
    "click here to apply", "apply now", "hurry up",
    "congratulations you have won", "you are selected",
    "final notice", "your application is approved", "atm pin" ].map String.toList

/-- The constant `CONFIG.SUSPICIOUS_PHRASES` of content.js. -/
def CONFIG.SUSPICIOUS_PHRASES : List Str :=
  [ "send money", "transfer funds", "pay processing fee",
    "bank details required", "account information needed",
    "western union", "money gram", "bitcoin payment",
    "gift card payment", "itunes card", "google play card",
    "social security number", "national insurance number",
    "passport copy required", "urgent response required",
    "confidential", "do not tell anyone", "keep secret" ].map String.toList

/-- The array `shorteners` of `checkUrl`. -/
def shorteners : List Str :=
  [ "bit.ly", "tinyurl.com", "goo.gl", "t.co", "ow.ly" ].map String.toList

/-- The array `suspiciousTlds` of `checkUrl`. -/
def suspiciousTlds : List Str :=
  [ ".tk", ".ml", ".ga", ".cf", ".pw" ].map String.toList

/-- The method `checkUrl(url, domain)`. -/
def checkUrl (a : Analyzer) (url domain : Str) : Analyzer :=
  let urlLower := toLowerCase url
  let a := if !startsWith url "https://".toList then
      addIssue a "No HTTPS encryption".toList 1
    else a
  let a := CONFIG.SUSPICIOUS_DOMAINS.foldl
    (fun a suspiciousDomain =>
      if includes domain suspiciousDomain then
        addIssue a ("Suspicious domain pattern: ".toList ++ suspiciousDomain) 2
      else a)
    a
  let a := shorteners.foldl
    (fun a shortener =>
      if includes domain shortener then addIssue a "URL shortener detected".toList 1 else a)
    a
  let a := suspiciousTlds.foldl
    (fun a tld =>
      if endsWith domain tld then
        addIssue a ("Suspicious domain extension: ".toList ++ tld) 2
      else a)
    a
  if includes urlLower "scholarship".toList || includes urlLower "grant".toList then
    if includes urlLower "free".toList || includes urlLower "guaranteed".toList then
      addIssue a "Potential scholarship scam URL pattern".toList 2
    else a
  else a

/-- The array `urgencyWords` of `checkPageContent`. -/
def urgencyWords : List Str :=
  [ "urgent", "hurry", "limited time", "expires soon", "act now", "immediate" ].map
    String.toList

/-- The array `moneyRequests` of `checkPageContent`. -/
def moneyRequests : List Str :=
  [ "send money", "transfer funds", "processing fee", "registration fee" ].map String.toList

/-- The method `checkPageContent(pageText)`. -/
def checkPageContent (a : Analyzer) (pageText : Str) : Analyzer :=
  let textLower := toLowerCase pageText
  let a := CONFIG.SCAM_KEYWORDS.foldl
    (fun a keyword =>
      if includes textLower keyword then
        addIssue a ("Scam keyword detected: ".toList ++ quote :: keyword ++ [quote]) 1
      else a)
    a
  let a := CONFIG.SUSPICIOUS_PHRASES.foldl
    (fun a phrase =>
      if includes textLower phrase then
        addIssue a ("Suspicious phrase detected: ".toList ++ quote :: phrase ++ [quote]) 2
      else a)
    a
  let a := urgencyWords.foldl
    (fun a word =>
      if includes textLower word then
        addIssue a ("Urgency pressure detected: ".toList ++ quote :: word ++ [quote]) 1
      else a)
    a
  let a := moneyRequests.foldl
    (fun a request =>
      if includes textLower request then
        addIssue a ("Money request detected: ".toList ++ quote :: request ++ [quote]) 3
      else a)
    a
  checkNigerianScamPatterns a textLower

/-- The calls `addIssue(issue, score)` that `checkPageContent` makes for a page
whose lower-cased text is `textLower`, in the order of the calls: for every
array of the method, one call per element contained in the text. -/
def pageContentCalls (textLower : Str) : List (Str × Nat) :=
  (CONFIG.SCAM_KEYWORDS.filter (fun keyword => includes textLower keyword)).map
      (fun keyword => ("Scam keyword detected: ".toList ++ quote :: keyword ++ [quote], 1)) ++
  (CONFIG.SUSPICIOUS_PHRASES.filter (fun phrase => includes textLower phrase)).map
      (fun phrase => ("Suspicious phrase detected: ".toList ++ quote :: phrase ++ [quote], 2)) ++
  (urgencyWords.filter (fun word => includes textLower word)).map
      (fun word => ("Urgency pressure detected: ".toList ++ quote :: word ++ [quote], 1)) ++
  (moneyRequests.filter (fun request => includes textLower request)).map
      (fun request => ("Money request detected: ".toList ++ quote :: request ++ [quote], 3)) ++
  (nigerianPatterns.filter (fun pattern => includes textLower pattern)).map
      (fun pattern => ("Nigerian scholarship pattern: ".toList ++ quote :: pattern ++ [quote],
        if checkForAdditionalRisks textLower then 2 else 1))

/-- What `checkImages` reads of an `img` element: `alt` and `src`. -/
structure Image where
  alt : Str
  src : Str
deriving DecidableEq

/-- The method `checkImages()`; `images` lists the `img` elements of the
document. -/
def checkImages (a : Analyzer) (images : List Image) : Analyzer :=
  images.foldl
    (fun a img =>
      let alt := toLowerCase img.alt
      let src := toLowerCase img.src
      let a :=
        if includes alt "government".toList || includes alt "official".toList ||
            includes alt "seal".toList || includes alt "logo".toList then
          addIssue a "Potentially fake official imagery".toList 1
        else a
      if includes src "fake".toList || includes src "scam".toList ||
          includes src "phishing".toList then
        addIssue a "Suspicious image source".toList 2
      else a)
    a

/-- What `checkScripts` reads of a `script` element: `src` and `textContent`. -/
structure Script where
  src : Str
  textContent : Str
deriving DecidableEq

/-- The array `obfuscationIndicators` of `checkScripts`. -/
def obfuscationIndicators : List Str :=
  [ "eval(", "unescape(", "fromCharCode(" ].map String.toList

/-- The method `checkScripts()`; `scripts` lists the `script` elements of the
document.  The fold computes `suspiciousScripts`. -/
def checkScripts (a : Analyzer) (scripts : List Script) : Analyzer :=
  let suspiciousScripts := scripts.foldl
    (fun (n : Nat) script =>
      let src := if script.src ≠ [] then toLowerCase script.src else []
      let n :=
        if includes src "malware".toList || includes src "phishing".toList ||
            includes src "scam".toList || includes src "fraud".toList then
          n + 1
        else n
      if script.textContent ≠ [] ∧ JS.length script.textContent > 1000 then
        obfuscationIndicators.foldl
          (fun n indicator => if includes script.textContent indicator then n + 1 else n)
          n
      else n)
    0
  if suspiciousScripts > 0 then
    addIssue a
      ("Suspicious scripts detected (".toList ++ (Nat.repr suspiciousScripts).toList ++
        ")".toList) 2
  else a

/-- The method `getPageText()`: the expression
`clone.textContent || clone.innerText || ''` on the clone of `document`.  The
arguments are the two properties of the clone, `none` for `null` and for
`undefined`; an empty string is falsy as well. -/
def getPageText (textContent innerText : Option Str) : Str :=
  match textContent with
  | some (c :: s) => c :: s
  | _ =>
    match innerText with
    | some (c :: s) => c :: s
    | _ => []

/-- What `analyzePage` reads of the window and the document: `location.href`,
`location.hostname`, the result of `getPageText()`, and the elements the checks
query. -/
structure Page where
  url : Str
  domain : Str
  pageText : Str
  forms : List (List FormInput)
  links : List Str
  images : List Image
  scripts : List Script

/-- An instance of the class `FountainScanAnalyzer`: the two fields the checks
write and the flag `pageAnalyzed`. -/
structure Instance where
  analyzer : Analyzer
  pageAnalyzed : Bool
deriving DecidableEq

/-- The method `analyzePage()`.  The call of `processResults()` sends a message
and may show a banner; it writes none of the fields and is left out. -/
def analyzePage (i : Instance) (page : Page) : Instance :=
  if i.pageAnalyzed then i
  else
    let a : Analyzer := { riskScore := 0, detectedIssues := [] }
    let a := checkUrl a page.url page.domain
    let a := checkPageContent a page.pageText
    let a := checkForms a page.forms
    let a := checkLinks a page.links
    let a := checkImages a page.images
    let a := checkScripts a page.scripts
    { analyzer := a, pageAnalyzed := true }

/-- The expression `new FountainScanAnalyzer()`: the constructor sets the
fields and calls `init()`, which calls `analyzePage()`. -/
def newFountainScanAnalyzer (page : Page) : Instance :=
  analyzePage { analyzer := { riskScore := 0, detectedIssues := [] }, pageAnalyzed := false } page

/-- The state the content script leaves behind: the instance it created and
the property `window.fountainScanAnalyzer` (`none` for `undefined`). -/
structure ContentScript where
  created : Instance
  windowFountainScanAnalyzer : Option Instance
deriving DecidableEq

/-- The body of the content script once the document is ready: the statement
`new FountainScanAnalyzer();` creates the instance and binds it to no name;
no statement of the extension writes `window.fountainScanAnalyzer`. -/
def contentScript (page : Page) : ContentScript :=
  { created := newFountainScanAnalyzer page, windowFountainScanAnalyzer := none }

/-- The object passed to `sendResponse` for a `getPageAnalysis` request. -/
structure PageAnalysis where
  url : Str
  domain : Str
  riskScore : Nat
  issues : List Str
  riskLevel : RiskLevel
deriving DecidableEq

/-- The reply of the message listener to `getPageAnalysis`; `w` is the value
of `window.fountainScanAnalyzer`.  Each field is `w?.field || fallback`. -/
def getPageAnalysis (w : Option Instance) (page : Page) : PageAnalysis :=
  { url := page.url,
    domain := page.domain,
    riskScore :=
      match w with
      | some i => i.analyzer.riskScore
      | none => 0,
    issues :=
      match w with
      | some i => i.analyzer.detectedIssues
      | none => [],
    riskLevel :=
      match w with
      | some i => getRiskLevel i.analyzer.riskScore
      | none => RiskLevel.SAFE }

end FountainScanAnalyzer

/-! ## Concrete inputs used in the examples -/

namespace Examples

/-- The URL `http://free-scholarship-nigeria.com/apply`. -/
def scholarshipUrl : Str := "http://free-scholarship-nigeria.com/apply".toList

/-- What `new URL('http://free-scholarship-nigeria.com/apply')` yields. -/
def scholarshipUrlObj : URL :=
  { hostname := "free-scholarship-nigeria.com".toList, protocol := "http:".toList, port := [] }

/-- The list entry `free-scholarship-nigeria.com`. -/
def scholarshipDomain : Str := "free-scholarship-nigeria.com".toList

/-- The URL `http://urgent.tk/`. -/
def urgentUrl : Str := "http://urgent.tk/".toList

/-- What `new URL('http://urgent.tk/')` yields. -/
def urgentUrlObj : URL :=
  { hostname := "urgent.tk".toList, protocol := "http:".toList, port := [] }

/-- The URL `http://a.tk/`. -/
def shortTkUrl : Str := "http://a.tk/".toList

/-- What `new URL('http://a.tk/')` yields. -/
def shortTkUrlObj : URL :=
  { hostname := "a.tk".toList, protocol := "http:".toList, port := [] }

/-- The URL `https://example.com.evil.tk/login`. -/
def lookalikeUrl : Str := "https://example.com.evil.tk/login".toList

/-- What `new URL('https://example.com.evil.tk/login')` yields. -/
def lookalikeUrlObj : URL :=
  { hostname := "example.com.evil.tk".toList, protocol := "https:".toList, port := [] }

/-- A form input with the given `name` and no `placeholder` and `id`. -/
def namedInput (name : String) : FountainScanAnalyzer.FormInput :=
  { name := name.toList, placeholder := [], id := [] }

/-- A form with inputs named `bank_account`, `ssn` and `card_number`. -/
def bankForm : List FountainScanAnalyzer.FormInput :=
  [namedInput "bank_account", namedInput "ssn", namedInput "card_number"]

/-- The `href` of a single link that contains four suspicious patterns. -/
def manyPatternsLink : Str := "http://bit.ly/free-scholarship-easy-money-quick-cash".toList

/-- The result of the background scan of `http://a.tk/` with empty lists. -/
def shortTkResult : FountainScanBackground.BackgroundResult :=
  FountainScanBackground.performBackgroundScan FountainScanBackground.knownScams [] [] false
    shortTkUrl (some shortTkUrlObj)

/-- A worker whose cache holds the result for `http://a.tk/`, stored at time
1000. -/
def cachedWorker : FountainScanBackground.Worker :=
  { knownScamDomains := FountainScanBackground.knownScams,
    scanCache := [(shortTkUrl, { result := shortTkResult, timestamp := 1000 })] }

/-- A storage with empty lists. -/
def emptyStorage : FountainScanBackground.Storage := { blacklist := [], whitelist := [] }

/-- The settings the background worker starts with. -/
def defaultSettings : FountainScanBackground.Settings := {}

/-- A page at `http://a.tk/` without forms, links, images and scripts.  The
node `getPageText()` clones is the document itself, whose `textContent` is
`null` and which has no `innerText`, so the page text is the empty string
whatever the body of the page says. -/
def tkPage : FountainScanAnalyzer.Page :=
  { url := "http://a.tk/".toList, domain := "a.tk".toList,
    pageText := FountainScanAnalyzer.getPageText none none,
    forms := [], links := [], images := [], scripts := [] }

end Examples

/-! ## Properties -/

section Helpers

open JS

/-- A fold whose step never lowers the background risk score never lowers it. -/
theorem FountainScanBackground.foldl_riskScore_le {α : Type}
    (f : FountainScanBackground.Acc → α → FountainScanBackground.Acc)
    (hf : ∀ a x, a.riskScore ≤ (f a x).riskScore) (l : List α)
    (a : FountainScanBackground.Acc) :
    a.riskScore ≤ (l.foldl f a).riskScore := by
  induction l generalizing a with
  | nil => exact Nat.le_refl _
  | cons x xs ih => exact Nat.le_trans (hf a x) (ih (f a x))

/-- A guarded `issues.push` never lowers the background risk score. -/
theorem FountainScanBackground.ite_issue_le (c : Bool) (a : FountainScanBackground.Acc)
    (n : Nat) (m : Str) : a.riskScore ≤ (if c then a.issue n m else a).riskScore := by
  cases c <;> simp [FountainScanBackground.Acc.issue]

/-- A guarded `warnings.push` never lowers the background risk score. -/
theorem FountainScanBackground.ite_warning_le (c : Bool) (a : FountainScanBackground.Acc)
    (n : Nat) (m : Str) : a.riskScore ≤ (if c then a.warning n m else a).riskScore := by
  cases c <;> simp [FountainScanBackground.Acc.warning]

/-- No check of the background scan lowers the risk score. -/
theorem FountainScanBackground.heuristics_riskScore_le
    (a : FountainScanBackground.Acc) (isNewDomain : Bool) (url : Str) (urlObj : URL) :
    a.riskScore ≤ (FountainScanBackground.heuristics a isNewDomain url urlObj).riskScore := by
  unfold FountainScanBackground.heuristics
  simp only []
  refine Nat.le_trans ?_ (foldl_riskScore_le _ (fun a x => ite_issue_le _ a _ _) _ _)
  refine Nat.le_trans ?_ (ite_warning_le _ _ _ _)
  refine Nat.le_trans ?_ (foldl_riskScore_le _ (fun a x => ite_warning_le _ a _ _) _ _)
  refine Nat.le_trans ?_ (foldl_riskScore_le _ (fun a x => ite_warning_le _ a _ _) _ _)
  refine Nat.le_trans ?_ (foldl_riskScore_le _ (fun a x => ite_warning_le _ a _ _) _ _)
  refine Nat.le_trans ?_ (foldl_riskScore_le _ (fun a x => ite_issue_le _ a _ _) _ _)
  split
  · simp [FountainScanBackground.Acc.issue]
  · exact Nat.le_refl _

end Helpers

section Matcher

open JS

/-- Lower-casing distributes over concatenation. -/
theorem JS.toLowerCase_append (s t : Str) :
    toLowerCase (s ++ t) = toLowerCase s ++ toLowerCase t := by
  simp [toLowerCase]

/-- Lower-casing acts character by character. -/
theorem JS.toLowerCase_cons (c : Char) (t : Str) :
    toLowerCase (c :: t) = c.toLower :: toLowerCase t := rfl

/-- An upper-case ASCII letter is moved up by 32. -/
theorem Char.toNat_toLower_of_upper (a : Char) (h : 65 ≤ a.toNat ∧ a.toNat ≤ 90) :
    a.toLower.toNat = a.toNat + 32 := by
  have ha : a = Char.ofNat a.toNat := (Char.ofNat_toNat a).symm
  obtain ⟨h1, h2⟩ := h
  generalize a.toNat = n at *
  subst ha
  interval_cases n <;> rfl

/-- Only a lower-case letter is the lower-casing of another character. -/
theorem Char.eq_of_toLower_eq (a c : Char) (h : a.toLower = c)
    (hc : c.toNat < 97 ∨ 122 < c.toNat) : a = c := by
  by_cases hu : 65 ≤ a.toNat ∧ a.toNat ≤ 90
  · have := Char.toNat_toLower_of_upper a hu
    rw [h] at this
    omega
  · rw [← h]
    unfold Char.toLower
    simp only [ge_iff_le]
    rw [if_neg hu]

/-- Removing a leading `www.` from `s.d` leaves `d` or some `s'.d`. -/
theorem JS.replaceWww_append_dot (s d : Str) :
    replaceWww (s ++ '.' :: d) = d ∨ ∃ s', replaceWww (s ++ '.' :: d) = s' ++ '.' :: d := by
  unfold replaceWww
  split
  · next h =>
    match s, h with
    | [], h => simp [startsWith] at h
    | [a], h => simp [startsWith] at h
    | [a, b], h => simp [startsWith] at h
    | [a, b, c], h => left; simp
    | a :: b :: c :: e :: s', h => right; exact ⟨s', by simp⟩
  · exact Or.inr ⟨s, rfl⟩

/-- The first two tests of `domainMatches`: equality and the `.`-suffix. -/
theorem FountainScan.domainMatches_of_eq_or_suffix (cur lst : Str)
    (h : toLowerCase (replaceWww cur) = toLowerCase (replaceSchemeWww lst) ∨
      endsWith (toLowerCase (replaceWww cur)) ('.' :: toLowerCase (replaceSchemeWww lst)) = true) :
    FountainScan.domainMatches cur lst = true := by
  unfold FountainScan.domainMatches
  simp only []
  split
  · rfl
  · next h1 =>
    rcases h with h | h
    · exact absurd h h1
    · simp [h]

/-- The pattern clean-up leaves a string without scheme and without leading
`www.` as it is. -/
theorem JS.replaceSchemeWww_bare (d : Str)
    (hhttp : startsWith d "http://".toList = false)
    (hhttps : startsWith d "https://".toList = false)
    (hwww : startsWith d "www.".toList = false) : replaceSchemeWww d = d := by
  simp only [replaceSchemeWww, replaceScheme, replaceWww, hhttp, hhttps, hwww,
    Bool.false_eq_true, if_false]

/-- The cleaned host name `s.d` is `d` or ends with `.d`, for lower-case `d`. -/
theorem JS.lower_current_subdomain (s d : Str) (hlow : toLowerCase d = d) :
    toLowerCase (replaceWww (s ++ '.' :: d)) = d ∨
      endsWith (toLowerCase (replaceWww (s ++ '.' :: d))) ('.' :: d) = true := by
  rcases replaceWww_append_dot s d with h | ⟨s', h⟩
  · left; rw [h, hlow]
  · right
    rw [h, toLowerCase_append, toLowerCase_cons, hlow]
    simp [endsWith]

/-- A prefix of `s ++ c :: d` that does not contain `c` lies inside `s`. -/
theorem JS.mem_of_startsWith_append_cons (p s d : Str) (c : Char)
    (h : startsWith (s ++ c :: d) p = true) (hc : c ∉ p) : ∀ x ∈ p, x ∈ s := by
  induction p generalizing s with
  | nil => intro x hx; cases hx
  | cons a p ih =>
    cases s with
    | nil =>
      simp [startsWith] at h
      simp at hc
      exact absurd h.1.symm hc.1
    | cons b s =>
      simp [startsWith] at h
      intro x hx
      rcases List.mem_cons.mp hx with hx | hx
      · subst hx; rw [h.1]; exact List.mem_cons_self _ _
      · have hc' : c ∉ p := fun hm => hc (List.mem_cons_of_mem _ hm)
        have := ih s (by simpa [startsWith] using h.2) hc' x hx
        exact List.mem_cons_of_mem _ this

/-- No scheme is removed from `s.d` when `s` has no slash. -/
theorem JS.replaceScheme_label (s d : Str) (hslash : '/' ∉ s) :
    replaceScheme (s ++ '.' :: d) = s ++ '.' :: d := by
  unfold replaceScheme
  split
  · next h =>
    exact absurd (mem_of_startsWith_append_cons _ s d '.' h (by decide) '/' (by decide)) hslash
  · split
    · next h =>
      exact absurd (mem_of_startsWith_append_cons _ s d '.' h (by decide) '/' (by decide)) hslash
    · rfl

/-- No `www.` is removed from `s.d` when `s` is a label other than `www`. -/
theorem JS.replaceWww_label (s d : Str) (hdot : '.' ∉ s) (hwww : s ≠ "www".toList) :
    replaceWww (s ++ '.' :: d) = s ++ '.' :: d := by
  unfold replaceWww
  split
  · next h =>
    exfalso
    match s, h, hdot, hwww with
    | [], h, _, _ => simp [startsWith] at h
    | [a], h, _, _ => simp [startsWith] at h
    | [a, b], h, _, _ => simp [startsWith] at h
    | [a, b, c], h, _, hwww =>
      simp [startsWith] at h
      obtain ⟨rfl, rfl, rfl⟩ := h
      exact hwww rfl
    | a :: b :: c :: e :: s', h, hdot, _ =>
      simp [startsWith] at h
      apply hdot
      rw [h.2.2.2]
      simp
  · rfl

/-- A string includes each of its suffixes. -/
theorem JS.includes_append (a b : Str) : includes (a ++ b) b = true := by
  unfold includes
  rw [List.any_eq_true]
  exact ⟨b, (List.mem_tails _ _).mpr (List.suffix_append a b), by simp⟩

/-- A lower-case entry without scheme and `www.` passes both list tests for the
host name equal to it and for every host name `s.d` below it. -/
theorem bare_entry_matches (d h : Str) (hlow : toLowerCase d = d)
    (hhttp : startsWith d "http://".toList = false)
    (hhttps : startsWith d "https://".toList = false)
    (hwww : startsWith d "www.".toList = false)
    (hh : h = d ∨ ∃ s, h = s ++ '.' :: d) :
    FountainScan.domainMatches (toLowerCase h) (toLowerCase d) = true ∧
    includes (toLowerCase h) (toLowerCase d) = true := by
  rw [hlow]
  rcases hh with rfl | ⟨s, rfl⟩
  · constructor
    · apply FountainScan.domainMatches_of_eq_or_suffix
      left
      rw [replaceSchemeWww_bare h hhttp hhttps hwww, hlow]
      simp only [replaceWww, hwww, hlow, Bool.false_eq_true, if_false]
    · rw [hlow]
      exact includes_append [] h
  · rw [toLowerCase_append, toLowerCase_cons, hlow]
    constructor
    · apply FountainScan.domainMatches_of_eq_or_suffix
      rw [replaceSchemeWww_bare d hhttp hhttps hwww, hlow]
      exact lower_current_subdomain (toLowerCase s) d hlow
    · have := includes_append (toLowerCase s ++ ['.'.toLower]) d
      simpa using this

/-- C3 (subdomain match).  For every bare domain `d` (lower-case, no scheme,
no leading `www.`) and every non-empty `s`, `domainMatches(s + '.' + d, d)` is
true; in particular `domainMatches('sub.example.com', 'example.com')`. -/
theorem domainMatches_subdomain (d s : Str) (hlow : toLowerCase d = d)
    (hhttp : startsWith d "http://".toList = false)
    (hhttps : startsWith d "https://".toList = false)
    (hwww : startsWith d "www.".toList = false) (_hs : s ≠ []) :
    FountainScan.domainMatches (s ++ '.' :: d) d = true ∧
    FountainScan.domainMatches "sub.example.com".toList "example.com".toList = true := by
  refine ⟨?_, by decide⟩
  apply FountainScan.domainMatches_of_eq_or_suffix
  rw [replaceSchemeWww_bare d hhttp hhttps hwww, hlow]
  exact lower_current_subdomain s d hlow

/-- Witness of C3 at `d = example.com`, `s = Mail.Sub`. -/
theorem domainMatches_subdomain_witness :
    toLowerCase "example.com".toList = "example.com".toList ∧
    "Mail.Sub".toList ≠ [] ∧
    FountainScan.domainMatches ("Mail.Sub".toList ++ '.' :: "example.com".toList)
      "example.com".toList = true :=
  ⟨by decide, by decide,
   (domainMatches_subdomain "example.com".toList "Mail.Sub".toList (by decide) (by decide)
      (by decide) (by decide) (by decide)).1⟩

/-- C4 as stated fails: `www` is a non-empty label, and the pattern
`www.example.com` matches its parent `example.com`. -/
theorem domainMatches_reverse_www :
    "www".toList ≠ [] ∧ '.' ∉ "www".toList ∧
    FountainScan.domainMatches "example.com".toList
      ("www".toList ++ '.' :: "example.com".toList) = true := by
  decide

/-- C4, amended.  For every bare domain `d` and every non-empty label `s`
(no dot, no slash) other than `www` and `*`, the pattern `s + '.' + d` does not
match the host name `d`; the pattern `www.` + `d` does match it, because the
matcher removes a leading `www.` from the pattern. -/
theorem domainMatches_no_reverse (d s : Str) (hlow : toLowerCase d = d)
    (hwww : startsWith d "www.".toList = false)
    (hs : s ≠ []) (hdot : '.' ∉ s) (hslash : '/' ∉ s)
    (hne : s ≠ "www".toList) (hstar : s ≠ "*".toList) :
    FountainScan.domainMatches d (s ++ '.' :: d) = false ∧
    FountainScan.domainMatches d ("www.".toList ++ d) = true := by
  constructor
  · have hclean : toLowerCase (replaceSchemeWww (s ++ '.' :: d)) =
        toLowerCase s ++ '.' :: d := by
      rw [replaceSchemeWww, replaceScheme_label s d hslash, replaceWww_label s d hdot hne,
        toLowerCase_append, toLowerCase_cons, hlow]
      rfl
    have hcur : toLowerCase (replaceWww d) = d := by
      simp only [replaceWww, hwww, hlow, Bool.false_eq_true, if_false]
    unfold FountainScan.domainMatches
    simp only [hclean, hcur]
    have hlen : d.length < (toLowerCase s ++ '.' :: d).length := by
      simp; omega
    have h1 : ¬ d = toLowerCase s ++ '.' :: d := by
      intro h
      rw [← h] at hlen
      exact Nat.lt_irrefl _ hlen
    have h2 : endsWith d ('.' :: (toLowerCase s ++ '.' :: d)) = false := by
      rw [← Bool.not_eq_true]
      intro h
      simp only [endsWith, List.isSuffixOf_iff_suffix] at h
      have := h.length_le
      simp at this
      omega
    have h3 : startsWith (toLowerCase s ++ '.' :: d) "*.".toList = false := by
      rw [← Bool.not_eq_true]
      intro h
      match s, hs, hdot, hstar, h with
      | [a], _, _, hstar, h =>
        simp [startsWith, toLowerCase] at h
        apply hstar
        rw [Char.eq_of_toLower_eq a '*' h.symm (by decide)]
        rfl
      | a :: b :: s', _, hdot, _, h =>
        simp [startsWith, toLowerCase] at h
        apply hdot
        rw [Char.eq_of_toLower_eq b '.' h.2.symm (by decide)]
        simp
    simp only [h1, h2, h3, Bool.false_eq_true, if_false]
  · have : replaceSchemeWww ("www.".toList ++ d) = d := by
      have h0 : replaceScheme ("www.".toList ++ d) = "www.".toList ++ d := by
        simp [replaceScheme, startsWith]
      rw [replaceSchemeWww, h0]
      simp [replaceWww, startsWith]
    apply FountainScan.domainMatches_of_eq_or_suffix
    left
    rw [this]
    simp only [replaceWww, hwww, hlow, Bool.false_eq_true, if_false]

/-- Witness of the amended C4 at `d = example.com`, `s = Sub`. -/
theorem domainMatches_no_reverse_witness :
    toLowerCase "example.com".toList = "example.com".toList ∧
    "Sub".toList ≠ "www".toList ∧
    FountainScan.domainMatches "example.com".toList
      ("Sub".toList ++ '.' :: "example.com".toList) = false :=
  ⟨by decide, by decide,
   (domainMatches_no_reverse "example.com".toList "Sub".toList (by decide) (by decide)
      (by decide) (by decide) (by decide) (by decide) (by decide)).1⟩

/-- C5 (wildcard match).  For every bare base domain `b` (lower-case, no
leading `www.`) the pattern `*.` + `b` matches `b` itself and `s + '.' + b` for
every non-empty `s`. -/
theorem domainMatches_wildcard (b s : Str) (hlow : toLowerCase b = b)
    (hwww : startsWith b "www.".toList = false) (_hs : s ≠ []) :
    FountainScan.domainMatches b ('*' :: '.' :: b) = true ∧
    FountainScan.domainMatches (s ++ '.' :: b) ('*' :: '.' :: b) = true := by
  have hclean : toLowerCase (replaceSchemeWww ('*' :: '.' :: b)) = '*' :: '.' :: b := by
    have : replaceSchemeWww ('*' :: '.' :: b) = '*' :: '.' :: b := by
      simp [replaceSchemeWww, replaceScheme, replaceWww, startsWith]
    rw [this, toLowerCase_cons, toLowerCase_cons, hlow]
    rfl
  have hcur : toLowerCase (replaceWww b) = b := by
    simp only [replaceWww, hwww, hlow, Bool.false_eq_true, if_false]
  constructor
  · unfold FountainScan.domainMatches
    simp only [hclean, hcur]
    simp [startsWith]
  · unfold FountainScan.domainMatches
    simp only [hclean]
    rcases lower_current_subdomain s b hlow with h | h
    · rw [h]; simp [startsWith]
    · simp [startsWith, h]

/-- Witness of C5 at `b = example.com`, `s = sub`. -/
theorem domainMatches_wildcard_witness :
    toLowerCase "example.com".toList = "example.com".toList ∧
    FountainScan.domainMatches "example.com".toList "*.example.com".toList = true ∧
    FountainScan.domainMatches "sub.example.com".toList "*.example.com".toList = true :=
  ⟨by decide,
   (domainMatches_wildcard "example.com".toList "sub".toList (by decide) (by decide)
      (by decide)).1,
   (domainMatches_wildcard "example.com".toList "sub".toList (by decide) (by decide)
      (by decide)).2⟩

end Matcher

section ListOverrides

open JS

/-- C1 (allow-list precedence).  Whenever the whitelist test of a scan succeeds
for the host name of a parsed URL, the scan returns its "safe" result with
score 0, whatever the blacklist, the known scam domains, the domain-age probe
and the heuristics say.  The popup tests `domainMatches`, the background worker
tests substring containment; both tests succeed when the host name equals a
bare whitelist entry or is a subdomain of it, and then both scans return the
"safe" result. -/
theorem allowList_precedence (whitelist blacklist knownScamDomains : List Str)
    (isNewDomain : Bool) (url : Str) (urlObj : URL) :
    ((∃ d ∈ whitelist,
        FountainScan.domainMatches (toLowerCase urlObj.hostname) (toLowerCase d) = true) →
      FountainScan.performScan whitelist blacklist url (some urlObj) =
        { status := "Trusted (Whitelisted)".toList, level := FountainScan.Level.safe,
          issues := [], score := 0 }) ∧
    ((∃ d ∈ whitelist, includes (toLowerCase urlObj.hostname) (toLowerCase d) = true) →
      FountainScanBackground.performBackgroundScan knownScamDomains blacklist whitelist
          isNewDomain url (some urlObj) =
        { riskLevel := FountainScanBackground.RiskLevel.safe, riskScore := 0,
          status := "Whitelisted".toList, issues := [], warnings := [] }) ∧
    ((∃ d ∈ whitelist, toLowerCase d = d ∧ startsWith d "http://".toList = false ∧
        startsWith d "https://".toList = false ∧ startsWith d "www.".toList = false ∧
        (urlObj.hostname = d ∨ ∃ s, urlObj.hostname = s ++ '.' :: d)) →
      FountainScan.performScan whitelist blacklist url (some urlObj) =
        { status := "Trusted (Whitelisted)".toList, level := FountainScan.Level.safe,
          issues := [], score := 0 } ∧
      FountainScanBackground.performBackgroundScan knownScamDomains blacklist whitelist
          isNewDomain url (some urlObj) =
        { riskLevel := FountainScanBackground.RiskLevel.safe, riskScore := 0,
          status := "Whitelisted".toList, issues := [], warnings := [] }) := by
  have popup : (∃ d ∈ whitelist,
        FountainScan.domainMatches (toLowerCase urlObj.hostname) (toLowerCase d) = true) →
      FountainScan.performScan whitelist blacklist url (some urlObj) =
        { status := "Trusted (Whitelisted)".toList, level := FountainScan.Level.safe,
          issues := [], score := 0 } := by
    intro h
    have hw : whitelist.any
        (fun d => FountainScan.domainMatches (toLowerCase urlObj.hostname) (toLowerCase d))
        = true := List.any_eq_true.mpr h
    simp only [FountainScan.performScan, hw, if_true]
  have background :
      (∃ d ∈ whitelist, includes (toLowerCase urlObj.hostname) (toLowerCase d) = true) →
      FountainScanBackground.performBackgroundScan knownScamDomains blacklist whitelist
          isNewDomain url (some urlObj) =
        { riskLevel := FountainScanBackground.RiskLevel.safe, riskScore := 0,
          status := "Whitelisted".toList, issues := [], warnings := [] } := by
    intro h
    have hw : whitelist.any (fun d => includes (toLowerCase urlObj.hostname) (toLowerCase d))
        = true := List.any_eq_true.mpr h
    simp only [FountainScanBackground.performBackgroundScan, hw, if_true]
  refine ⟨popup, background, ?_⟩
  rintro ⟨d, hd, hlow, hhttp, hhttps, hwww, hh⟩
  have hm := bare_entry_matches d urlObj.hostname hlow hhttp hhttps hwww hh
  exact ⟨popup ⟨d, hd, hm.1⟩, background ⟨d, hd, hm.2⟩⟩

/-- Witness of C1: `free-scholarship-nigeria.com` is whitelisted, blacklisted
and a known scam domain, and is served over plain HTTP. -/
theorem allowList_precedence_witness :
    (∃ d ∈ [Examples.scholarshipDomain],
        FountainScan.domainMatches (toLowerCase Examples.scholarshipUrlObj.hostname)
          (toLowerCase d) = true) ∧
    FountainScan.performScan [Examples.scholarshipDomain] [Examples.scholarshipDomain]
        Examples.scholarshipUrl (some Examples.scholarshipUrlObj) =
      { status := "Trusted (Whitelisted)".toList, level := FountainScan.Level.safe,
        issues := [], score := 0 } ∧
    FountainScanBackground.performBackgroundScan FountainScanBackground.knownScams
        [Examples.scholarshipDomain] [Examples.scholarshipDomain] true
        Examples.scholarshipUrl (some Examples.scholarshipUrlObj) =
      { riskLevel := FountainScanBackground.RiskLevel.safe, riskScore := 0,
        status := "Whitelisted".toList, issues := [], warnings := [] } :=
  ⟨⟨_, List.mem_singleton.mpr rfl, by decide⟩,
   (allowList_precedence [Examples.scholarshipDomain] [Examples.scholarshipDomain]
      FountainScanBackground.knownScams true Examples.scholarshipUrl
      Examples.scholarshipUrlObj).2.2
      ⟨_, List.mem_singleton.mpr rfl, by decide, by decide, by decide, by decide,
        Or.inl rfl⟩⟩

/-- C2 (deny-list override).  When the whitelist test of a scan fails and its
blacklist test succeeds for the host name of a parsed URL, the popup returns
level `danger`, score 10 and the single issue `Domain is blacklisted`, and the
background worker returns risk level `high`, whatever the heuristics find.
Both blacklist tests succeed when the host name equals a bare blacklist entry
or is a subdomain of it. -/
theorem denyList_override (whitelist blacklist knownScamDomains : List Str)
    (isNewDomain : Bool) (url : Str) (urlObj : URL) :
    ((¬ ∃ d ∈ whitelist,
        FountainScan.domainMatches (toLowerCase urlObj.hostname) (toLowerCase d) = true) →
      (∃ d ∈ blacklist,
        FountainScan.domainMatches (toLowerCase urlObj.hostname) (toLowerCase d) = true) →
      FountainScan.performScan whitelist blacklist url (some urlObj) =
        { status := "Blocked (Blacklisted)".toList, level := FountainScan.Level.danger,
          issues := ["Domain is blacklisted".toList], score := 10 }) ∧
    ((¬ ∃ d ∈ whitelist, includes (toLowerCase urlObj.hostname) (toLowerCase d) = true) →
      (∃ d ∈ blacklist, includes (toLowerCase urlObj.hostname) (toLowerCase d) = true) →
      (FountainScanBackground.performBackgroundScan knownScamDomains blacklist whitelist
          isNewDomain url (some urlObj)).riskLevel = FountainScanBackground.RiskLevel.high) ∧
    ((¬ ∃ d ∈ whitelist,
        FountainScan.domainMatches (toLowerCase urlObj.hostname) (toLowerCase d) = true) →
      (¬ ∃ d ∈ whitelist, includes (toLowerCase urlObj.hostname) (toLowerCase d) = true) →
      (∃ d ∈ blacklist, toLowerCase d = d ∧ startsWith d "http://".toList = false ∧
        startsWith d "https://".toList = false ∧ startsWith d "www.".toList = false ∧
        (urlObj.hostname = d ∨ ∃ s, urlObj.hostname = s ++ '.' :: d)) →
      FountainScan.performScan whitelist blacklist url (some urlObj) =
        { status := "Blocked (Blacklisted)".toList, level := FountainScan.Level.danger,
          issues := ["Domain is blacklisted".toList], score := 10 } ∧
      (FountainScanBackground.performBackgroundScan knownScamDomains blacklist whitelist
          isNewDomain url (some urlObj)).riskLevel = FountainScanBackground.RiskLevel.high) := by
  have popup : (¬ ∃ d ∈ whitelist,
        FountainScan.domainMatches (toLowerCase urlObj.hostname) (toLowerCase d) = true) →
      (∃ d ∈ blacklist,
        FountainScan.domainMatches (toLowerCase urlObj.hostname) (toLowerCase d) = true) →
      FountainScan.performScan whitelist blacklist url (some urlObj) =
        { status := "Blocked (Blacklisted)".toList, level := FountainScan.Level.danger,
          issues := ["Domain is blacklisted".toList], score := 10 } := by
    intro hw hb
    have hw' : whitelist.any
        (fun d => FountainScan.domainMatches (toLowerCase urlObj.hostname) (toLowerCase d))
        = false := by
      rw [← Bool.not_eq_true, List.any_eq_true]; exact hw
    have hb' : blacklist.any
        (fun d => FountainScan.domainMatches (toLowerCase urlObj.hostname) (toLowerCase d))
        = true := List.any_eq_true.mpr hb
    simp [FountainScan.performScan, hw', hb']
  have background :
      (¬ ∃ d ∈ whitelist, includes (toLowerCase urlObj.hostname) (toLowerCase d) = true) →
      (∃ d ∈ blacklist, includes (toLowerCase urlObj.hostname) (toLowerCase d) = true) →
      (FountainScanBackground.performBackgroundScan knownScamDomains blacklist whitelist
          isNewDomain url (some urlObj)).riskLevel =
        FountainScanBackground.RiskLevel.high := by
    intro hw hb
    have hw' : whitelist.any (fun d => includes (toLowerCase urlObj.hostname) (toLowerCase d))
        = false := by
      rw [← Bool.not_eq_true, List.any_eq_true]; exact hw
    have hb' : blacklist.any (fun d => includes (toLowerCase urlObj.hostname) (toLowerCase d))
        = true := List.any_eq_true.mpr hb
    have h10 : 10 ≤ (FountainScanBackground.listChecks knownScamDomains blacklist
        (toLowerCase urlObj.hostname)).riskScore := by
      simp [FountainScanBackground.listChecks, hb', FountainScanBackground.Acc.issue]
    have h := Nat.le_trans h10 (FountainScanBackground.heuristics_riskScore_le
      (FountainScanBackground.listChecks knownScamDomains blacklist
        (toLowerCase urlObj.hostname)) isNewDomain url urlObj)
    have h8 : (FountainScanBackground.heuristics
        (FountainScanBackground.listChecks knownScamDomains blacklist
          (toLowerCase urlObj.hostname)) isNewDomain url urlObj).riskScore ≥ 8 := by omega
    simp [FountainScanBackground.performBackgroundScan, hw',
      FountainScanBackground.determineRiskLevel, h8]
  refine ⟨popup, background, ?_⟩
  rintro hw1 hw2 ⟨d, hd, hlow, hhttp, hhttps, hwww, hh⟩
  have hm := bare_entry_matches d urlObj.hostname hlow hhttp hhttps hwww hh
  exact ⟨popup hw1 ⟨d, hd, hm.1⟩, background hw2 ⟨d, hd, hm.2⟩⟩

/-- Witness of C2: `free-scholarship-nigeria.com` is blacklisted and not
whitelisted. -/
theorem denyList_override_witness :
    (∃ d ∈ [Examples.scholarshipDomain],
        FountainScan.domainMatches (toLowerCase Examples.scholarshipUrlObj.hostname)
          (toLowerCase d) = true) ∧
    FountainScan.performScan [] [Examples.scholarshipDomain]
        Examples.scholarshipUrl (some Examples.scholarshipUrlObj) =
      { status := "Blocked (Blacklisted)".toList, level := FountainScan.Level.danger,
        issues := ["Domain is blacklisted".toList], score := 10 } ∧
    (FountainScanBackground.performBackgroundScan [] [Examples.scholarshipDomain] []
        false Examples.scholarshipUrl (some Examples.scholarshipUrlObj)).riskLevel =
      FountainScanBackground.RiskLevel.high :=
  ⟨⟨_, List.mem_singleton.mpr rfl, by decide⟩,
   (denyList_override [] [Examples.scholarshipDomain] [] false Examples.scholarshipUrl
      Examples.scholarshipUrlObj).2.2 (by simp) (by simp)
      ⟨_, List.mem_singleton.mpr rfl, by decide, by decide, by decide, by decide,
        Or.inl rfl⟩⟩

/-- C6, evaluated on the code: with the whitelist `['example.com']` the
background scan of `https://example.com.evil.tk/login` returns the
`Whitelisted` result, although the host name `example.com.evil.tk` is neither
`example.com` nor ends with `.example.com`; the popup matcher rejects the same
pair. -/
theorem background_whitelist_substring :
    Examples.lookalikeUrlObj.hostname ≠ "example.com".toList ∧
    endsWith Examples.lookalikeUrlObj.hostname ".example.com".toList = false ∧
    FountainScanBackground.performBackgroundScan FountainScanBackground.knownScams []
        ["example.com".toList] false Examples.lookalikeUrl (some Examples.lookalikeUrlObj) =
      { riskLevel := FountainScanBackground.RiskLevel.safe, riskScore := 0,
        status := "Whitelisted".toList, issues := [], warnings := [] } ∧
    FountainScan.domainMatches Examples.lookalikeUrlObj.hostname "example.com".toList = false := by
  decide

/-- C7 as stated fails: with `free-scholarship-nigeria.com` on the whitelist
the popup scan of `http://free-scholarship-nigeria.com/apply` returns no issue,
while with both lists empty it returns two. -/
theorem whitelisted_issues_differ :
    (∃ d ∈ [Examples.scholarshipDomain],
        FountainScan.domainMatches (toLowerCase Examples.scholarshipUrlObj.hostname)
          (toLowerCase d) = true) ∧
    (FountainScan.performScan [Examples.scholarshipDomain] [] Examples.scholarshipUrl
        (some Examples.scholarshipUrlObj)).issues = [] ∧
    (FountainScan.performScan [] [] Examples.scholarshipUrl
        (some Examples.scholarshipUrlObj)).issues =
      [ "No HTTPS encryption".toList,
        "Potential scholarship scam detected: free-scholarship, free".toList ] ∧
    (FountainScan.performScan [Examples.scholarshipDomain] [] Examples.scholarshipUrl
        (some Examples.scholarshipUrlObj)).issues ≠
      (FountainScan.performScan [] [] Examples.scholarshipUrl
        (some Examples.scholarshipUrlObj)).issues := by
  refine ⟨⟨_, List.mem_singleton.mpr rfl, by decide⟩, by decide, by decide, by decide⟩

/-- C7, amended.  When the host name of a parsed URL matches a whitelist entry,
the popup scan returns an empty issues list together with level `safe` and
score 0; the issues the same URL yields with both lists empty are those of the
heuristic checks, and they are not attached to the whitelisted result. -/
theorem whitelisted_issues_empty (whitelist blacklist : List Str) (url : Str) (urlObj : URL)
    (h : ∃ d ∈ whitelist,
      FountainScan.domainMatches (toLowerCase urlObj.hostname) (toLowerCase d) = true) :
    (FountainScan.performScan whitelist blacklist url (some urlObj)).issues = [] ∧
    (FountainScan.performScan whitelist blacklist url (some urlObj)).level =
      FountainScan.Level.safe ∧
    (FountainScan.performScan whitelist blacklist url (some urlObj)).score = 0 ∧
    (FountainScan.performScan [] [] url (some urlObj)).issues =
      (FountainScan.heuristics url urlObj).issues := by
  have hw : whitelist.any
      (fun d => FountainScan.domainMatches (toLowerCase urlObj.hostname) (toLowerCase d))
      = true := List.any_eq_true.mpr h
  simp [FountainScan.performScan, hw]

/-- Witness of the amended C7 on the scholarship URL. -/
theorem whitelisted_issues_empty_witness :
    (∃ d ∈ [Examples.scholarshipDomain],
        FountainScan.domainMatches (toLowerCase Examples.scholarshipUrlObj.hostname)
          (toLowerCase d) = true) ∧
    (FountainScan.performScan [Examples.scholarshipDomain] [] Examples.scholarshipUrl
        (some Examples.scholarshipUrlObj)).issues = [] :=
  ⟨⟨_, List.mem_singleton.mpr rfl, by decide⟩,
   (whitelisted_issues_empty [Examples.scholarshipDomain] [] Examples.scholarshipUrl
      Examples.scholarshipUrlObj ⟨_, List.mem_singleton.mpr rfl, by decide⟩).1⟩

/-- Two lists with the same members give the same answer to `some`. -/
theorem any_eq_of_mem_iff {α : Type} (p : α → Bool) (l l' : List α)
    (h : ∀ d, d ∈ l ↔ d ∈ l') : l.any p = l'.any p := by
  rw [Bool.eq_iff_iff, List.any_eq_true, List.any_eq_true]
  constructor
  · rintro ⟨d, hd, hp⟩
    exact ⟨d, (h d).mp hd, hp⟩
  · rintro ⟨d, hd, hp⟩
    exact ⟨d, (h d).mpr hd, hp⟩

/-- The popup scan depends on each list only through its set of members. -/
theorem FountainScan.performScan_congr (whitelist whitelist' blacklist blacklist' : List Str)
    (url : Str) (parsed : Option URL)
    (hw : ∀ d, d ∈ whitelist ↔ d ∈ whitelist')
    (hb : ∀ d, d ∈ blacklist ↔ d ∈ blacklist') :
    FountainScan.performScan whitelist blacklist url parsed =
      FountainScan.performScan whitelist' blacklist' url parsed := by
  cases parsed with
  | none => rfl
  | some urlObj =>
    simp only [FountainScan.performScan]
    rw [any_eq_of_mem_iff _ whitelist whitelist' hw, any_eq_of_mem_iff _ blacklist blacklist' hb]

/-- C8 (set semantics of list resolution).  For every URL, parsed or not, the
popup scan returns the same result for whitelists that are permutations of
each other and blacklists that are permutations of each other, and more
generally for lists that have the same members (repeated entries included). -/
theorem performScan_list_set_semantics (whitelist whitelist' blacklist blacklist' : List Str)
    (url : Str) (parsed : Option URL) :
    (whitelist.Perm whitelist' → blacklist.Perm blacklist' →
      FountainScan.performScan whitelist blacklist url parsed =
        FountainScan.performScan whitelist' blacklist' url parsed) ∧
    ((∀ d, d ∈ whitelist ↔ d ∈ whitelist') →
      (∀ d, d ∈ blacklist ↔ d ∈ blacklist') →
      FountainScan.performScan whitelist blacklist url parsed =
        FountainScan.performScan whitelist' blacklist' url parsed) :=
  ⟨fun hw hb => FountainScan.performScan_congr _ _ _ _ url parsed
      (fun _ => hw.mem_iff) (fun _ => hb.mem_iff),
   fun hw hb => FountainScan.performScan_congr _ _ _ _ url parsed hw hb⟩

/-- Witness of C8: the whitelist `[a.tk, free-scholarship-nigeria.com]` against
its reversal with a repeated entry, and likewise for the blacklist. -/
theorem performScan_list_set_semantics_witness :
    ["a.tk".toList, Examples.scholarshipDomain].Perm
      [Examples.scholarshipDomain, "a.tk".toList] ∧
    FountainScan.performScan ["a.tk".toList, Examples.scholarshipDomain]
        ["urgent.tk".toList, "b.ml".toList] Examples.scholarshipUrl
        (some Examples.scholarshipUrlObj) =
      FountainScan.performScan [Examples.scholarshipDomain, "a.tk".toList]
        ["b.ml".toList, "urgent.tk".toList] Examples.scholarshipUrl
        (some Examples.scholarshipUrlObj) ∧
    FountainScan.performScan ["a.tk".toList] ["urgent.tk".toList, "b.ml".toList]
        Examples.urgentUrl (some Examples.urgentUrlObj) =
      FountainScan.performScan ["a.tk".toList, "a.tk".toList]
        ["b.ml".toList, "urgent.tk".toList, "b.ml".toList]
        Examples.urgentUrl (some Examples.urgentUrlObj) :=
  ⟨List.Perm.swap _ _ _,
   (performScan_list_set_semantics _ _ _ _ Examples.scholarshipUrl
      (some Examples.scholarshipUrlObj)).1 (List.Perm.swap _ _ _) (List.Perm.swap _ _ _),
   (performScan_list_set_semantics _ _ _ _ Examples.urgentUrl
      (some Examples.urgentUrlObj)).2 (by intro d; simp) (by intro d; simp [or_comm])⟩

end ListOverrides

section Thresholds

open FountainScanAnalyzer

/-- C9 (classification by the content script).  For every score `s`,
`getRiskLevel` returns SAFE iff `s < 2`, LOW iff `2 ≤ s < 4`, MEDIUM iff
`4 ≤ s < 6` and HIGH iff `6 ≤ s`; and a score `t ≥ s` never gets a lower level
than `s`. -/
theorem getRiskLevel_partition (s t : Nat) (hst : s ≤ t) :
    (getRiskLevel s = RiskLevel.SAFE ↔ s < 2) ∧
    (getRiskLevel s = RiskLevel.LOW ↔ 2 ≤ s ∧ s < 4) ∧
    (getRiskLevel s = RiskLevel.MEDIUM ↔ 4 ≤ s ∧ s < 6) ∧
    (getRiskLevel s = RiskLevel.HIGH ↔ 6 ≤ s) ∧
    (getRiskLevel s).rank ≤ (getRiskLevel t).rank := by
  simp only [getRiskLevel, CONFIG.RISK_THRESHOLDS]
  refine ⟨?_, ?_, ?_, ?_, ?_⟩ <;> repeat' split
  all_goals simp [RiskLevel.rank]
  all_goals omega

/-- Witness of C9 at the scores 3 and 5. -/
theorem getRiskLevel_partition_witness :
    3 ≤ 5 ∧ getRiskLevel 3 = RiskLevel.LOW ∧ getRiskLevel 5 = RiskLevel.MEDIUM :=
  ⟨by decide,
   (getRiskLevel_partition 3 5 (by decide)).2.1.mpr ⟨by decide, by decide⟩,
   (getRiskLevel_partition 5 5 (Nat.le_refl 5)).2.2.1.mpr ⟨by decide, by decide⟩⟩

/-- C10 (inconsistent cutoffs).  The score 6 is HIGH for the content script
and `danger` for the popup, but `medium` for the background worker, whose
`high` level starts at 8.  Both scans reach the score 6 on a real input:
the popup on `http://urgent.tk/`, the background worker on `http://a.tk/`. -/
theorem inconsistent_cutoffs :
    getRiskLevel 6 = RiskLevel.HIGH ∧
    (FountainScan.determineRiskLevel 6).2 = FountainScan.Level.danger ∧
    (FountainScanBackground.determineRiskLevel 6).1 = FountainScanBackground.RiskLevel.medium ∧
    (∀ s, (FountainScanBackground.determineRiskLevel s).1 = FountainScanBackground.RiskLevel.high
      ↔ 8 ≤ s) ∧
    FountainScan.performScan [] [] Examples.urgentUrl (some Examples.urgentUrlObj) =
      { status := "High Risk".toList, level := FountainScan.Level.danger,
        issues := [ "No HTTPS encryption".toList,
                    "Urgency pressure tactic detected: urgent".toList,
                    "Suspicious domain extension: .tk".toList ],
        score := 6 } ∧
    FountainScanBackground.performBackgroundScan FountainScanBackground.knownScams [] [] false
        Examples.shortTkUrl (some Examples.shortTkUrlObj) =
      { riskLevel := FountainScanBackground.RiskLevel.medium, riskScore := 6,
        status := "Medium Risk - Suspicious".toList,
        issues := ["No HTTPS encryption".toList],
        warnings := ["Suspicious domain extension: .tk".toList] } := by
  refine ⟨by decide, by decide, by decide, ?_, by decide, by decide⟩
  intro s
  simp only [FountainScanBackground.determineRiskLevel]
  repeat' split
  all_goals simp
  all_goals omega

end Thresholds

section PopupHeuristics

open JS

/-- A fold whose step keeps the score and the issues keeps them. -/
theorem FountainScan.foldl_keeps {α : Type} (f : FountainScan.Acc → α → FountainScan.Acc)
    (hf : ∀ a x, a.score ≤ (f a x).score ∧ a.issues ⊆ (f a x).issues) (l : List α)
    (a : FountainScan.Acc) :
    a.score ≤ (l.foldl f a).score ∧ a.issues ⊆ (l.foldl f a).issues := by
  induction l generalizing a with
  | nil => exact ⟨Nat.le_refl _, List.Subset.refl _⟩
  | cons x xs ih =>
    have h1 := hf a x
    have h2 := ih (f a x)
    exact ⟨Nat.le_trans h1.1 h2.1, List.Subset.trans h1.2 h2.2⟩

/-- A guarded `score += n; issues.push(msg)` keeps the score and the issues. -/
theorem FountainScan.ite_add_keeps (c : Prop) [Decidable c] (a : FountainScan.Acc) (n : Nat)
    (m : Str) :
    a.score ≤ (if c then a.add n m else a).score ∧
      a.issues ⊆ (if c then a.add n m else a).issues := by
  split
  · exact ⟨Nat.le_add_right _ _, List.subset_append_left _ _⟩
  · exact ⟨Nat.le_refl _, List.Subset.refl _⟩

/-- Facts about score and issues pass along a chain of checks. -/
theorem FountainScan.keeps_bound (a b : FountainScan.Acc) (n : Nat) (x y : Str)
    (h : a.score ≤ b.score ∧ a.issues ⊆ b.issues)
    (ha : n ≤ a.score ∧ x ∈ a.issues ∧ y ∈ a.issues) :
    n ≤ b.score ∧ x ∈ b.issues ∧ y ∈ b.issues :=
  ⟨Nat.le_trans ha.1 h.1, h.2 ha.2.1, h.2 ha.2.2⟩

/-- Over plain HTTP and with a scholarship keyword in the URL, the popup
heuristics reach the score 7 and record both findings. -/
theorem FountainScan.heuristics_scholarship (url : Str) (urlObj : URL)
    (hproto : urlObj.protocol ≠ "https:".toList)
    (hk : ∃ k ∈ FountainScan.scholarshipScams.keywords, includes (toLowerCase url) k = true) :
    7 ≤ (FountainScan.heuristics url urlObj).score ∧
    "No HTTPS encryption".toList ∈ (FountainScan.heuristics url urlObj).issues ∧
    ("Potential scholarship scam detected: ".toList ++ join ", ".toList
        (FountainScan.scholarshipScams.keywords.filter (fun keyword =>
          includes (toLowerCase url) keyword ||
            includes (toLowerCase urlObj.hostname) keyword))) ∈
      (FountainScan.heuristics url urlObj).issues := by
  unfold FountainScan.heuristics
  simp only []
  refine FountainScan.keeps_bound _ _ _ _ _ (FountainScan.ite_add_keeps _ _ _ _) ?_
  refine FountainScan.keeps_bound _ _ _ _ _ (FountainScan.ite_add_keeps _ _ _ _) ?_
  refine FountainScan.keeps_bound _ _ _ _ _ (FountainScan.ite_add_keeps _ _ _ _) ?_
  refine FountainScan.keeps_bound _ _ _ _ _
    (FountainScan.foldl_keeps _ (fun a x => FountainScan.ite_add_keeps _ a _ _) _ _) ?_
  refine FountainScan.keeps_bound _ _ _ _ _
    (FountainScan.foldl_keeps _ (fun a x => FountainScan.ite_add_keeps _ a _ _) _ _) ?_
  rw [FountainScan.getDetectionPatterns, List.foldl_cons]
  refine FountainScan.keeps_bound _ _ _ _ _
    (FountainScan.foldl_keeps _ (fun a x => FountainScan.ite_add_keeps _ a _ _) _ _) ?_
  obtain ⟨k, hk1, hk2⟩ := hk
  have hfound : 0 < (FountainScan.scholarshipScams.keywords.filter (fun keyword =>
      includes (toLowerCase url) keyword ||
        includes (toLowerCase urlObj.hostname) keyword)).length := by
    apply List.length_pos_of_mem (a := k)
    rw [List.mem_filter]
    exact ⟨hk1, by simp [hk2]⟩
  simp only [hproto, hfound, gt_iff_lt, if_true, ne_eq, not_false_eq_true,
    FountainScan.Acc.add]
  have hm : "Potential scholarship scam detected: ".toList =
      FountainScan.scholarshipScams.message ++ ": ".toList := by decide
  rw [hm]
  refine ⟨by decide, ?_, ?_⟩
  · exact List.mem_append_left _ (List.mem_append_right _ (List.mem_singleton.mpr rfl))
  · exact List.mem_append_right _ (List.mem_singleton.mpr rfl)

/-- C11 (scholarship scam over HTTP).  For every parsed URL on neither list,
whose protocol is not `https:` and whose lower-cased URL contains a keyword of
the `scholarshipScams` category, the popup scan reports `No HTTPS encryption`
and the scholarship-scam issue (the message followed by the keywords found),
a score of at least 7 and the level `danger`; for
`http://free-scholarship-nigeria.com/apply` with empty lists the score is 7. -/
theorem scholarship_scam_over_http (whitelist blacklist : List Str) (url : Str) (urlObj : URL)
    (hw : ¬ ∃ d ∈ whitelist,
      FountainScan.domainMatches (toLowerCase urlObj.hostname) (toLowerCase d) = true)
    (hb : ¬ ∃ d ∈ blacklist,
      FountainScan.domainMatches (toLowerCase urlObj.hostname) (toLowerCase d) = true)
    (hproto : urlObj.protocol ≠ "https:".toList)
    (hk : ∃ k ∈ FountainScan.scholarshipScams.keywords, includes (toLowerCase url) k = true) :
    "No HTTPS encryption".toList ∈
      (FountainScan.performScan whitelist blacklist url (some urlObj)).issues ∧
    ("Potential scholarship scam detected: ".toList ++ join ", ".toList
        (FountainScan.scholarshipScams.keywords.filter (fun keyword =>
          includes (toLowerCase url) keyword ||
            includes (toLowerCase urlObj.hostname) keyword))) ∈
      (FountainScan.performScan whitelist blacklist url (some urlObj)).issues ∧
    7 ≤ (FountainScan.performScan whitelist blacklist url (some urlObj)).score ∧
    (FountainScan.performScan whitelist blacklist url (some urlObj)).level =
      FountainScan.Level.danger ∧
    (FountainScan.performScan [] [] Examples.scholarshipUrl
      (some Examples.scholarshipUrlObj)).score = 7 := by
  have hw' : whitelist.any
      (fun d => FountainScan.domainMatches (toLowerCase urlObj.hostname) (toLowerCase d))
      = false := by
    rw [← Bool.not_eq_true, List.any_eq_true]; exact hw
  have hb' : blacklist.any
      (fun d => FountainScan.domainMatches (toLowerCase urlObj.hostname) (toLowerCase d))
      = false := by
    rw [← Bool.not_eq_true, List.any_eq_true]; exact hb
  have h := FountainScan.heuristics_scholarship url urlObj hproto hk
  have h6 : (FountainScan.heuristics url urlObj).score ≥ 6 := by omega
  simp only [FountainScan.performScan, hw', hb', Bool.false_eq_true, if_false,
    FountainScan.determineRiskLevel, h6, if_true]
  exact ⟨h.2.1, h.2.2, h.1, trivial, by decide⟩


/-- Witness of C11 on `http://free-scholarship-nigeria.com/apply`. -/
theorem scholarship_scam_over_http_witness :
    Examples.scholarshipUrlObj.protocol ≠ "https:".toList ∧
    (FountainScan.performScan [] [] Examples.scholarshipUrl
      (some Examples.scholarshipUrlObj)).level = FountainScan.Level.danger :=
  ⟨by decide,
   (scholarship_scam_over_http [] [] Examples.scholarshipUrl Examples.scholarshipUrlObj
      (by simp) (by simp) (by decide)
      ⟨"free-scholarship".toList, by decide, by decide⟩).2.2.2.1⟩

end PopupHeuristics

section ContentChecks

open JS FountainScanAnalyzer

/-- A `forEach` of guarded `addIssue` calls adds one issue per element that
passes the guard, in order, each with the same weight. -/
theorem FountainScanAnalyzer.foldl_addIssue (p : Str → Bool) (msg : Str → Str) (w : Nat)
    (l : List Str) (a : Analyzer) :
    l.foldl (fun a x => if p x = true then addIssue a (msg x) w else a) a =
      { riskScore := a.riskScore + w * (l.filter p).length,
        detectedIssues := a.detectedIssues ++ (l.filter p).map msg } := by
  induction l generalizing a with
  | nil => simp
  | cons x xs ih =>
    rw [List.foldl_cons, ih]
    by_cases hx : p x = true
    · simp [hx, addIssue, Nat.mul_add]
      omega
    · simp [hx]

/-- In a list without repetition an element occurs once or not at all. -/
theorem length_filter_eq_of_nodup {α : Type} [DecidableEq α] (l : List α) (hl : l.Nodup)
    (y : α) : (l.filter (fun i => decide (i = y))).length = if y ∈ l then 1 else 0 := by
  induction l with
  | nil => simp
  | cons a l ih =>
    have hnd := List.nodup_cons.mp hl
    by_cases hay : a = y
    · subst hay
      have h0 := ih hnd.2
      simp only [hnd.1, if_false] at h0
      simp [List.filter_cons, h0]
    · have h0 := ih hnd.2
      have hya : ¬ y = a := fun h => hay h.symm
      simp [List.filter_cons, hay, hya, h0]

/-- In a list without repetition, mapped by an injective function, an image
occurs once if its source passes the filter and not at all otherwise. -/
theorem occurrences_map_filter (p : Str → Bool) (msg : Str → Str)
    (hinj : ∀ x y, msg x = msg y → x = y) (l : List Str) (hl : l.Nodup) (x : Str)
    (hx : x ∈ l) :
    (((l.filter p).map msg).filter (fun i => decide (i = msg x))).length =
      if p x = true then 1 else 0 := by
  have hnd : ((l.filter p).map msg).Nodup :=
    (hl.filter _).map (fun a b h => hinj a b h)
  rw [length_filter_eq_of_nodup _ hnd]
  by_cases hp : p x = true
  · have : msg x ∈ (l.filter p).map msg :=
      List.mem_map.mpr ⟨x, List.mem_filter.mpr ⟨hx, hp⟩, rfl⟩
    simp only [this, hp, if_true]
  · have : ¬ msg x ∈ (l.filter p).map msg := by
      intro h
      obtain ⟨y, hy, hxy⟩ := List.mem_map.mp h
      have := hinj _ _ hxy
      subst this
      exact hp (List.mem_filter.mp hy).2
    simp [this, hp]

/-- C12 (form extractor).  For every form input, `checkForms` adds one weight-2
`Suspicious form field` issue per `FORM_RISKS` term contained in the lower-cased
text `name placeholder id`, in the order of `FORM_RISKS`, and then one weight-3
`Financial information requested` issue exactly when that text contains `bank`,
`account`, `card` or `payment`.  A form with inputs named `bank_account`, `ssn`
and `card_number` yields three issues, two of them the financial one. -/
theorem form_extractor (a : Analyzer) (input : FormInput) :
    let inputText := toLowerCase (input.name ++ " ".toList ++ input.placeholder ++
      " ".toList ++ input.id)
    let risks := CONFIG.FORM_RISKS.filter (fun risk => includes inputText risk)
    let financial := includes inputText "bank".toList || includes inputText "account".toList ||
      includes inputText "card".toList || includes inputText "payment".toList
    (checkFormInput a input).detectedIssues =
      a.detectedIssues ++ risks.map (fun risk => "Suspicious form field: ".toList ++ risk) ++
        (if financial then ["Financial information requested".toList] else []) ∧
    (checkFormInput a input).riskScore =
      a.riskScore + 2 * risks.length + (if financial then 3 else 0) ∧
    (checkForms { riskScore := 0, detectedIssues := [] } [Examples.bankForm]) =
      { riskScore := 8,
        detectedIssues :=
          [ "Financial information requested".toList,
            "Suspicious form field: ssn".toList,
            "Financial information requested".toList ] } := by
  intro inputText risks financial
  have hfold := FountainScanAnalyzer.foldl_addIssue (fun risk => includes inputText risk)
    (fun risk => "Suspicious form field: ".toList ++ risk) 2 CONFIG.FORM_RISKS a
  refine ⟨?_, ?_, by decide⟩
  · unfold checkFormInput
    simp only []
    rw [hfold]
    split <;> rename_i h <;> simp [addIssue, financial, risks, inputText, h]
  · unfold checkFormInput
    simp only []
    rw [hfold]
    split <;> rename_i h <;> simp [addIssue, financial, risks, inputText, h]

/-- C13, evaluated on the code: for a page whose only link is
`http://bit.ly/free-scholarship-easy-money-quick-cash`, `checkLinks` counts four
pattern hits on that one link and reports
`Multiple suspicious external links (4)`. -/
theorem checkLinks_counts_pattern_hits :
    [Examples.manyPatternsLink].length = 1 ∧
    checkLinks { riskScore := 0, detectedIssues := [] } [Examples.manyPatternsLink] =
      { riskScore := 2,
        detectedIssues := ["Multiple suspicious external links (4)".toList] } := by
  decide

/-- The message of a Nigerian-pattern issue determines the pattern. -/
theorem FountainScanAnalyzer.nigerian_message_injective (x y : Str)
    (h : "Nigerian scholarship pattern: ".toList ++ quote :: x ++ [quote] =
      "Nigerian scholarship pattern: ".toList ++ quote :: y ++ [quote]) : x = y := by
  have h1 := List.append_cancel_right h
  have h2 := List.append_cancel_left h1
  exact (List.cons.inj h2).2

/-- C14 (combined-risk escalation).  `checkNigerianScamPatterns` adds, for the
Nigerian-institution patterns contained in the text and in the order of the
array, one issue each (a pattern in the text gets exactly one issue, a pattern
not in the text none), every one with weight 2 if the text contains an
additional-risk phrase and weight 1 otherwise; nothing else is added. -/
theorem nigerian_pattern_escalation (a : Analyzer) (textLower : Str) :
    let found := nigerianPatterns.filter (fun pattern => includes textLower pattern)
    let message := fun (pattern : Str) =>
      "Nigerian scholarship pattern: ".toList ++ quote :: pattern ++ [quote]
    let weight := if checkForAdditionalRisks textLower then 2 else 1
    (checkNigerianScamPatterns a textLower).detectedIssues =
      a.detectedIssues ++ found.map message ∧
    (checkNigerianScamPatterns a textLower).riskScore = a.riskScore + weight * found.length ∧
    (∀ pattern ∈ nigerianPatterns,
      ((found.map message).filter (fun i => decide (i = message pattern))).length =
        if includes textLower pattern then 1 else 0) ∧
    (checkForAdditionalRisks textLower = true ↔
      ∃ risk ∈ additionalRisks, includes textLower risk = true) := by
  intro found message weight
  have hfold := FountainScanAnalyzer.foldl_addIssue
    (fun pattern => includes textLower pattern) message weight nigerianPatterns a
  have heq : checkNigerianScamPatterns a textLower =
      { riskScore := a.riskScore + weight * found.length,
        detectedIssues := a.detectedIssues ++ found.map message } := by
    rw [← hfold]
    rfl
  refine ⟨by rw [heq], by rw [heq], ?_, ?_⟩
  · intro pattern hp
    exact occurrences_map_filter (fun pattern => includes textLower pattern) message
      FountainScanAnalyzer.nigerian_message_injective nigerianPatterns (by decide) pattern hp
  · unfold checkForAdditionalRisks
    rw [List.any_eq_true]

/-- Witness of C14: a text with `tetfund` and `processing fee`. -/
theorem nigerian_pattern_escalation_witness :
    "tetfund".toList ∈ nigerianPatterns ∧
    checkNigerianScamPatterns { riskScore := 0, detectedIssues := [] }
        "the tetfund asks for a processing fee".toList =
      { riskScore := 2,
        detectedIssues :=
          ["Nigerian scholarship pattern: ".toList ++ quote :: "tetfund".toList ++ [quote]] } ∧
    ((((nigerianPatterns.filter
          (fun pattern => includes "the tetfund asks for a processing fee".toList pattern)).map
        (fun (pattern : Str) =>
          "Nigerian scholarship pattern: ".toList ++ quote :: pattern ++ [quote])).filter
      (fun i => decide (i =
        "Nigerian scholarship pattern: ".toList ++ quote :: "tetfund".toList ++ [quote]))).length =
      if includes "the tetfund asks for a processing fee".toList "tetfund".toList then 1 else 0) :=
  ⟨by decide, by decide,
   (nigerian_pattern_escalation { riskScore := 0, detectedIssues := [] }
      "the tetfund asks for a processing fee".toList).2.2.1 "tetfund".toList (by decide)⟩

end ContentChecks

section RegexCorrect
open JS

/-- An expression that matches the empty string is nullable. -/
theorem JS.Regex.nullable_of_matches_nil (r : Regex) (s : Str) (h : Regex.Matches r s)
    (hs : s = []) : r.nullable = true := by
  induction h with
  | eps => rfl
  | cls p c hp => cases hs
  | seq r₁ r₂ s₁ s₂ _ _ ih₁ ih₂ =>
    have h := List.append_eq_nil.mp hs
    simp [Regex.nullable, ih₁ h.1, ih₂ h.2]
  | altLeft r₁ r₂ s _ ih => simp [Regex.nullable, ih hs]
  | altRight r₁ r₂ s _ ih => simp [Regex.nullable, ih hs]
  | starNil r => rfl
  | starCons r s₁ s₂ _ _ _ _ => rfl

/-- A nullable expression matches the empty string. -/
theorem JS.Regex.matches_nil_of_nullable (r : Regex) (h : r.nullable = true) :
    Regex.Matches r [] := by
  induction r with
  | never => cases h
  | eps => exact Regex.Matches.eps
  | cls p => cases h
  | seq r₁ r₂ ih₁ ih₂ =>
    simp [Regex.nullable] at h
    exact Regex.Matches.seq r₁ r₂ [] [] (ih₁ h.1) (ih₂ h.2)
  | alt r₁ r₂ ih₁ ih₂ =>
    simp [Regex.nullable] at h
    rcases h with h | h
    · exact Regex.Matches.altLeft _ _ _ (ih₁ h)
    · exact Regex.Matches.altRight _ _ _ (ih₂ h)
  | star r _ => exact Regex.Matches.starNil r

/-- After reading `c`, the derivative matches the rest of a matched string. -/
theorem JS.Regex.matches_deriv_of_cons (r : Regex) (w : Str) (h : Regex.Matches r w) :
    ∀ c s, w = c :: s → Regex.Matches (r.deriv c) s := by
  induction h with
  | eps => intro c s hw; cases hw
  | cls p c' hp =>
    intro c s hw
    cases hw
    simp [Regex.deriv, hp]
    exact Regex.Matches.eps
  | seq r₁ r₂ s₁ s₂ h₁ h₂ ih₁ ih₂ =>
    intro c s hw
    cases s₁ with
    | nil =>
      have hn := Regex.nullable_of_matches_nil r₁ [] h₁ rfl
      simp only [Regex.deriv, hn, if_true]
      exact Regex.Matches.altRight _ _ _ (ih₂ c s hw)
    | cons a s₁ =>
      simp only [List.cons_append, List.cons.injEq] at hw
      obtain ⟨rfl, rfl⟩ := hw
      have hd := Regex.Matches.seq _ r₂ _ _ (ih₁ a s₁ rfl) h₂
      simp only [Regex.deriv]
      split
      · exact Regex.Matches.altLeft _ _ _ hd
      · exact hd
  | altLeft r₁ r₂ s _ ih =>
    intro c s' hw
    exact Regex.Matches.altLeft _ _ _ (ih c s' hw)
  | altRight r₁ r₂ s _ ih =>
    intro c s' hw
    exact Regex.Matches.altRight _ _ _ (ih c s' hw)
  | starNil r => intro c s hw; cases hw
  | starCons r s₁ s₂ h₁ h₂ ih₁ ih₂ =>
    intro c s hw
    cases s₁ with
    | nil => exact ih₂ c s hw
    | cons a s₁ =>
      simp only [List.cons_append, List.cons.injEq] at hw
      obtain ⟨rfl, rfl⟩ := hw
      exact Regex.Matches.seq _ _ _ _ (ih₁ a s₁ rfl) h₂

/-- What the derivative by `c` matches, the expression matches after `c`. -/
theorem JS.Regex.matches_cons_of_deriv (r : Regex) (c : Char) (s : Str)
    (h : Regex.Matches (r.deriv c) s) : Regex.Matches r (c :: s) := by
  induction r generalizing s with
  | never => cases h
  | eps => cases h
  | cls p =>
    simp only [Regex.deriv] at h
    split at h
    · next hp =>
      cases h
      exact Regex.Matches.cls p c hp
    · cases h
  | seq r₁ r₂ ih₁ ih₂ =>
    simp only [Regex.deriv] at h
    split at h
    · next hn =>
      cases h with
      | altLeft _ _ _ h =>
        cases h with
        | seq _ _ s₁ s₂ h₁ h₂ => exact Regex.Matches.seq _ _ (c :: s₁) s₂ (ih₁ s₁ h₁) h₂
      | altRight _ _ _ h =>
        exact Regex.Matches.seq _ _ [] (c :: s) (Regex.matches_nil_of_nullable r₁ hn) (ih₂ s h)
    · cases h with
      | seq _ _ s₁ s₂ h₁ h₂ => exact Regex.Matches.seq _ _ (c :: s₁) s₂ (ih₁ s₁ h₁) h₂
  | alt r₁ r₂ ih₁ ih₂ =>
    simp only [Regex.deriv] at h
    cases h with
    | altLeft _ _ _ h => exact Regex.Matches.altLeft _ _ _ (ih₁ s h)
    | altRight _ _ _ h => exact Regex.Matches.altRight _ _ _ (ih₂ s h)
  | star r ih =>
    simp only [Regex.deriv] at h
    cases h with
    | seq _ _ s₁ s₂ h₁ h₂ => exact Regex.Matches.starCons r (c :: s₁) s₂ (ih s₁ h₁) h₂

/-- The derivative matcher decides the language of the expression. -/
theorem JS.Regex.test_iff_matches (r : Regex) (s : Str) :
    r.test s = true ↔ Regex.Matches r s := by
  induction s generalizing r with
  | nil =>
    exact ⟨Regex.matches_nil_of_nullable r, fun h => Regex.nullable_of_matches_nil r [] h rfl⟩
  | cons c s ih =>
    have h := ih (r.deriv c)
    simp only [Regex.test, List.foldl_cons] at h ⊢
    rw [h]
    exact ⟨Regex.matches_cons_of_deriv r c s,
      fun hm => Regex.matches_deriv_of_cons r (c :: s) hm c s rfl⟩

end RegexCorrect

section DomainSyntax
open JS FountainScan

/-- A starred expression matches a concatenation of pieces it matches. -/
theorem JS.Regex.star_pieces (r : Regex) (r' : Regex) (w : Str) (h : Regex.Matches r' w)
    (hr : r' = Regex.star r) :
    ∃ ws : List Str, w = ws.flatten ∧ ∀ x ∈ ws, Regex.Matches r x := by
  induction h with
  | eps => cases hr
  | cls p c hp => cases hr
  | seq r₁ r₂ s₁ s₂ _ _ _ _ => cases hr
  | altLeft r₁ r₂ s _ _ => cases hr
  | altRight r₁ r₂ s _ _ => cases hr
  | starNil r₀ => exact ⟨[], rfl, by simp⟩
  | starCons r₀ s₁ s₂ h₁ _ _ ih₂ =>
    cases hr
    obtain ⟨ws, hws, hall⟩ := ih₂ rfl
    refine ⟨s₁ :: ws, by simp [hws], ?_⟩
    intro x hx
    rcases List.mem_cons.mp hx with rfl | hx
    · exact h₁
    · exact hall x hx

/-- A class matches exactly the one-character strings of the class. -/
theorem JS.Regex.cls_matches (p : Char → Bool) (w : Str) (h : Regex.Matches (Regex.cls p) w) :
    ∃ c, w = [c] ∧ p c = true := by
  cases h with
  | cls _ c hp => exact ⟨c, rfl, hp⟩

/-- The repetition `[p]{0,n}` matches at most `n` characters, all of the class. -/
theorem JS.Regex.upTo_cls_matches (p : Char → Bool) (n : Nat) (w : Str)
    (h : Regex.Matches (Regex.upTo n (Regex.cls p)) w) :
    w.length ≤ n ∧ ∀ c ∈ w, p c = true := by
  induction n generalizing w with
  | zero =>
    cases h
    simp
  | succ n ih =>
    simp only [Regex.upTo] at h
    cases h with
    | altLeft _ _ _ h =>
      cases h with
      | seq _ _ s₁ s₂ h₁ h₂ =>
        obtain ⟨c, rfl, hc⟩ := Regex.cls_matches p s₁ h₁
        have := ih s₂ h₂
        refine ⟨by simp; omega, ?_⟩
        intro x hx
        simp at hx
        rcases hx with rfl | hx
        · exact hc
        · exact this.2 x hx
    | altRight _ _ _ h =>
      cases h
      simp

/-- The star of a class matches strings of characters of the class. -/
theorem JS.Regex.star_cls_matches (p : Char → Bool) (w : Str)
    (h : Regex.Matches (Regex.star (Regex.cls p)) w) : ∀ c ∈ w, p c = true := by
  obtain ⟨ws, rfl, hall⟩ := Regex.star_pieces (Regex.cls p) _ w h rfl
  intro c hc
  obtain ⟨x, hx, hcx⟩ := List.mem_flatten.mp hc
  obtain ⟨c', rfl, hp⟩ := Regex.cls_matches p x (hall x hx)
  simp at hcx
  subst hcx
  exact hp

/-- What the label group of `domainRegex` matches: 1 to 63 letters, digits and
hyphens, the first and the last not a hyphen. -/
theorem FountainScan.labelRegex_matches (w : Str) (h : Regex.Matches labelRegex w) :
    1 ≤ w.length ∧ w.length ≤ 63 ∧ (∀ c ∈ w, c.isAlphanum = true ∨ c = '-') ∧
    (∃ a, w.head? = some a ∧ a.isAlphanum = true) ∧
    (∃ b, w.getLast? = some b ∧ b.isAlphanum = true) := by
  unfold labelRegex Regex.opt alnum alnumHyphen at h
  cases h with
  | seq _ _ s₁ s₂ h₁ h₂ =>
    obtain ⟨a, rfl, ha⟩ := Regex.cls_matches _ s₁ h₁
    cases h₂ with
    | altLeft _ _ _ h =>
      cases h with
      | seq _ _ t₁ t₂ g₁ g₂ =>
        obtain ⟨b, rfl, hb⟩ := Regex.cls_matches _ t₂ g₂
        have hmid := Regex.upTo_cls_matches _ 61 t₁ g₁
        refine ⟨by simp, by simp; omega, ?_, ⟨a, by simp, ha⟩, ⟨b, ?_, hb⟩⟩
        · intro c hc
          simp at hc
          rcases hc with rfl | hc | rfl
          · exact Or.inl ha
          · have := hmid.2 c hc
            simpa using this
          · exact Or.inl hb
        · rw [← List.append_assoc, List.getLast?_concat]
    | altRight _ _ _ h =>
      cases h
      exact ⟨by simp, by simp, by simp [ha], ⟨a, by simp, ha⟩, ⟨a, by simp, ha⟩⟩

/-- What the final group `[a-zA-Z]{2,}` matches: two or more letters. -/
theorem FountainScan.tld_matches (w : Str)
    (h : Regex.Matches (Regex.twoOrMore (Regex.cls Char.isAlpha)) w) :
    2 ≤ w.length ∧ ∀ c ∈ w, c.isAlpha = true := by
  unfold Regex.twoOrMore at h
  cases h with
  | seq _ _ s₁ s₂ h₁ h₂ =>
    obtain ⟨a, rfl, ha⟩ := Regex.cls_matches _ s₁ h₁
    cases h₂ with
    | seq _ _ t₁ t₂ g₁ g₂ =>
      obtain ⟨b, rfl, hb⟩ := Regex.cls_matches _ t₁ g₁
      have hrest := Regex.star_cls_matches _ t₂ g₂
      refine ⟨by simp, ?_⟩
      intro c hc
      simp at hc
      rcases hc with rfl | rfl | hc
      · exact ha
      · exact hb
      · exact hrest c hc

/-- Splitting a string without separator gives the string itself. -/
theorem JS.split_of_not_mem (c : Char) (a : Str) (h : c ∉ a) : split c a = [a] := by
  induction a with
  | nil => rfl
  | cons x xs ih =>
    have hx : x ≠ c := fun e => h (e ▸ List.mem_cons_self _ _)
    have hxs : c ∉ xs := fun e => h (List.mem_cons_of_mem _ e)
    simp [split, hx, ih hxs]

/-- Splitting cuts at the first separator. -/
theorem JS.split_append_sep (c : Char) (a b : Str) (h : c ∉ a) :
    split c (a ++ c :: b) = a :: split c b := by
  induction a with
  | nil => simp [split]
  | cons x xs ih =>
    have hx : x ≠ c := fun e => h (e ▸ List.mem_cons_self _ _)
    have hxs : c ∉ xs := fun e => h (List.mem_cons_of_mem _ e)
    simp [split, hx, ih hxs]

/-- Splitting a dotted sequence of dot-free labels gives the labels back. -/
theorem JS.split_dotted (ls : List Str) (hls : ∀ l ∈ ls, '.' ∉ l) (a t : Str)
    (ha : '.' ∉ a) (ht : '.' ∉ t) :
    split '.' (a ++ ((ls.map (fun l => '.' :: l)).flatten ++ '.' :: t)) = a :: (ls ++ [t]) := by
  induction ls generalizing a with
  | nil =>
    simp only [List.map_nil, List.flatten_nil, List.nil_append]
    rw [split_append_sep '.' a t ha, split_of_not_mem '.' t ht]
  | cons l ls ih =>
    have hl : '.' ∉ l := hls l (List.mem_cons_self _ _)
    have hrest : ∀ x ∈ ls, '.' ∉ x := fun x hx => hls x (List.mem_cons_of_mem _ hx)
    simp only [List.map_cons, List.flatten_cons, List.cons_append, List.append_assoc]
    rw [split_append_sep '.' a _ ha, ih hrest l hl]

/-- A label of `domainRegex` contains no dot. -/
theorem FountainScan.dot_not_mem_label (w : Str) (h : Regex.Matches labelRegex w) :
    '.' ∉ w := by
  intro hm
  rcases (labelRegex_matches w h).2.2.1 '.' hm with h' | h'
  · exact absurd h' (by decide)
  · exact absurd h' (by decide)

/-- The shape of a string that `domainRegex` matches: a label, further labels
each after a dot, and a final dot with two or more letters. -/
theorem FountainScan.domainRegex_shape (s : Str) (h : Regex.Matches domainRegex s) :
    ∃ (l₀ : Str) (ls : List Str) (tld : Str),
      s = l₀ ++ ((ls.map (fun l => '.' :: l)).flatten ++ '.' :: tld) ∧
      Regex.Matches labelRegex l₀ ∧ (∀ l ∈ ls, Regex.Matches labelRegex l) ∧
      Regex.Matches (Regex.twoOrMore (Regex.cls Char.isAlpha)) tld := by
  unfold domainRegex at h
  cases h with
  | seq _ _ l₀ s₂ h₀ h₂ =>
    cases h₂ with
    | seq _ _ m s₃ hm h₃ =>
      cases h₃ with
      | seq _ _ d tld hd htld =>
        obtain ⟨c, rfl, hc⟩ := Regex.cls_matches _ d hd
        have hc' : c = '.' := by simpa using hc
        subst hc'
        obtain ⟨ws, rfl, hall⟩ := Regex.star_pieces _ _ m hm rfl
        have hpieces : ∃ ls : List Str, ws = ls.map (fun l => '.' :: l) ∧
            ∀ l ∈ ls, Regex.Matches labelRegex l := by
          clear hm
          induction ws with
          | nil => exact ⟨[], rfl, by simp⟩
          | cons x ws ih =>
            obtain ⟨ls, hls, hlab⟩ := ih (fun y hy => hall y (List.mem_cons_of_mem _ hy))
            have hx := hall x (List.mem_cons_self _ _)
            cases hx with
            | seq _ _ d l hd hl =>
              obtain ⟨c, rfl, hc⟩ := Regex.cls_matches _ d hd
              have hc' : c = '.' := by simpa [dot] using hc
              subst hc'
              refine ⟨l :: ls, by simp [hls], ?_⟩
              intro y hy
              rcases List.mem_cons.mp hy with rfl | hy
              · exact hl
              · exact hlab y hy
        obtain ⟨ls, rfl, hlab⟩ := hpieces
        exact ⟨l₀, ls, tld, by simp, h₀, hlab, htld⟩

/-- The checks of `isValidBaseDomain`, one by one. -/
theorem FountainScan.isValidBaseDomain_iff (s : Str) :
    isValidBaseDomain s = true ↔
      Regex.Matches domainRegex s ∧ s.length ≤ 253 ∧ includes s "..".toList = false ∧
        startsWith s "-".toList = false ∧ endsWith s "-".toList = false := by
  rw [← Regex.test_iff_matches]
  unfold isValidBaseDomain
  cases h1 : domainRegex.test s <;> simp

/-- The first or last element of a list is not a character the list avoids. -/
theorem head?_getLast?_ne_of_not_mem (l : Str) (c : Char) (h : c ∉ l) :
    l.head? ≠ some c ∧ l.getLast? ≠ some c := by
  constructor
  · intro e
    exact h (List.mem_of_mem_head? (by rw [e]; rfl))
  · intro e
    exact h (List.mem_of_mem_getLast? (by rw [e]; rfl))

set_option maxRecDepth 100000 in
/-- C15 as stated fails: `isValidBaseDomain` accepts `a.` followed by 64
letters `a`, whose final label has 64 characters. -/
theorem isValidBaseDomain_long_final_label :
    isValidBaseDomain ("a.".toList ++ List.replicate 64 'a') = true ∧
    split '.' ("a.".toList ++ List.replicate 64 'a') = ["a".toList, List.replicate 64 'a'] ∧
    ¬ (List.replicate 64 'a').length ≤ 63 := by
  decide

/-- C15, amended.  Every string accepted by `isValidBaseDomain` splits on `.`
into two or more labels that are each at least 1 character long, consist only
of ASCII letters, digits and hyphens, and neither begin nor end with a hyphen;
every label but the final one is at most 63 characters long, and the final
label is at most 251 characters long. -/
theorem isValidBaseDomain_labels (s : Str) (h : isValidBaseDomain s = true) :
    ∃ (labels : List Str) (tld : Str), split '.' s = labels ++ [tld] ∧ labels ≠ [] ∧
      (∀ l ∈ labels ++ [tld], 1 ≤ l.length ∧ (∀ c ∈ l, c.isAlphanum = true ∨ c = '-') ∧
        l.head? ≠ some '-' ∧ l.getLast? ≠ some '-') ∧
      (∀ l ∈ labels, l.length ≤ 63) ∧ tld.length ≤ 251 := by
  have hv := (isValidBaseDomain_iff s).mp h
  obtain ⟨l₀, ls, tld, hs, h₀, hls, htld⟩ := domainRegex_shape s hv.1
  have htld' := tld_matches tld htld
  have hdot_tld : '.' ∉ tld := fun hm => absurd (htld'.2 '.' hm) (by decide)
  have hsplit : split '.' s = (l₀ :: ls) ++ [tld] := by
    rw [hs, split_dotted ls (fun l hl => dot_not_mem_label l (hls l hl)) l₀ tld
      (dot_not_mem_label l₀ h₀) hdot_tld]
    rfl
  have hlabel : ∀ l ∈ l₀ :: ls, Regex.Matches labelRegex l := by
    intro l hl
    rcases List.mem_cons.mp hl with rfl | hl
    · exact h₀
    · exact hls l hl
  refine ⟨l₀ :: ls, tld, hsplit, by simp, ?_, ?_, ?_⟩
  · intro l hl
    rcases List.mem_append.mp hl with hl | hl
    · have hf := labelRegex_matches l (hlabel l hl)
      obtain ⟨a, ha, haa⟩ := hf.2.2.2.1
      obtain ⟨b, hb, hbb⟩ := hf.2.2.2.2
      refine ⟨hf.1, hf.2.2.1, ?_, ?_⟩
      · rw [ha]
        intro e
        cases e
        exact absurd haa (by decide)
      · rw [hb]
        intro e
        cases e
        exact absurd hbb (by decide)
    · have hl' : l = tld := by simpa using hl
      subst hl'
      have hhy : '-' ∉ l := fun hm => absurd (htld'.2 '-' hm) (by decide)
      have hne := head?_getLast?_ne_of_not_mem l '-' hhy
      refine ⟨by omega, ?_, hne.1, hne.2⟩
      intro c hc
      left
      have := htld'.2 c hc
      simp [Char.isAlphanum, this]
  · intro l hl
    exact (labelRegex_matches l (hlabel l hl)).2.1
  · have h0 := (labelRegex_matches l₀ h₀).1
    have hlen : s.length = l₀.length +
        (((ls.map (fun l => '.' :: l)).flatten).length + (tld.length + 1)) := by
      rw [hs]
      simp only [List.length_append, List.length_cons]
    have := hv.2.1
    omega

/-- Witness of the amended C15 on `sub.example.com`. -/
theorem isValidBaseDomain_labels_witness :
    isValidBaseDomain "sub.example.com".toList = true ∧
    ∃ (labels : List Str) (tld : Str),
      split '.' "sub.example.com".toList = labels ++ [tld] ∧ labels ≠ [] ∧
      (∀ l ∈ labels ++ [tld], 1 ≤ l.length ∧ (∀ c ∈ l, c.isAlphanum = true ∨ c = '-') ∧
        l.head? ≠ some '-' ∧ l.getLast? ≠ some '-') ∧
      (∀ l ∈ labels, l.length ≤ 63) ∧ tld.length ≤ 251 :=
  ⟨by decide, isValidBaseDomain_labels "sub.example.com".toList (by decide)⟩

/-- C16 (length and final label).  Every string accepted by `isValidBaseDomain`
has at most 253 characters, no empty label (no `..`, no dot at either end) and
a final label of two or more letters; a string that violates one of these is
rejected. -/
theorem isValidBaseDomain_length_final (s : Str) :
    (isValidBaseDomain s = true →
      s.length ≤ 253 ∧ [] ∉ split '.' s ∧ includes s "..".toList = false ∧
      s.head? ≠ some '.' ∧ s.getLast? ≠ some '.' ∧
      ∃ tld, (split '.' s).getLast? = some tld ∧ 2 ≤ tld.length ∧
        ∀ c ∈ tld, c.isAlpha = true) ∧
    ((253 < s.length ∨ [] ∈ split '.' s ∨ includes s "..".toList = true ∨
        s.head? = some '.' ∨ s.getLast? = some '.' ∨
        ∀ tld, (split '.' s).getLast? = some tld →
          ¬ (2 ≤ tld.length ∧ ∀ c ∈ tld, c.isAlpha = true)) →
      isValidBaseDomain s = false) := by
  have accepted : isValidBaseDomain s = true →
      s.length ≤ 253 ∧ [] ∉ split '.' s ∧ includes s "..".toList = false ∧
      s.head? ≠ some '.' ∧ s.getLast? ≠ some '.' ∧
      ∃ tld, (split '.' s).getLast? = some tld ∧ 2 ≤ tld.length ∧
        ∀ c ∈ tld, c.isAlpha = true := by
    intro h
    have hv := (isValidBaseDomain_iff s).mp h
    obtain ⟨l₀, ls, tld, hs, h₀, hls, htld⟩ := domainRegex_shape s hv.1
    have htld' := tld_matches tld htld
    have hdot_tld : '.' ∉ tld := fun hm => absurd (htld'.2 '.' hm) (by decide)
    have hsplit : split '.' s = l₀ :: (ls ++ [tld]) := by
      rw [hs, split_dotted ls (fun l hl => dot_not_mem_label l (hls l hl)) l₀ tld
        (dot_not_mem_label l₀ h₀) hdot_tld]
    have htne : tld ≠ [] := by
      intro e
      rw [e] at htld'
      simp at htld'
    refine ⟨hv.2.1, ?_, hv.2.2.1, ?_, ?_, tld, ?_, htld'.1, htld'.2⟩
    · rw [hsplit]
      intro hm
      rcases List.mem_cons.mp hm with e | hm
      · have := (labelRegex_matches l₀ h₀).1
        rw [← e] at this
        simp at this
      · rcases List.mem_append.mp hm with hm | hm
        · have := (labelRegex_matches [] (hls [] hm)).1
          simp at this
        · simp at hm
          exact htne hm
    · obtain ⟨a, ha, haa⟩ := (labelRegex_matches l₀ h₀).2.2.2.1
      rw [hs, List.head?_append, ha]
      intro e
      simp at e
      subst e
      exact absurd haa (by decide)
    · rw [hs, ← List.append_assoc, ← List.singleton_append (l := tld), ← List.append_assoc,
        List.getLast?_append_of_ne_nil _ htne]
      exact (head?_getLast?_ne_of_not_mem tld '.' hdot_tld).2
    · rw [hsplit, ← List.cons_append, List.getLast?_concat]
  refine ⟨accepted, ?_⟩
  intro hbad
  cases hv : isValidBaseDomain s
  · rfl
  · exfalso
    obtain ⟨h1, h2, h3, h4, h5, tld, h6, h7⟩ := accepted hv
    rcases hbad with h | h | h | h | h | h
    · omega
    · exact h2 h
    · rw [h3] at h; cases h
    · exact h4 h
    · exact h5 h
    · exact h tld h6 h7

/-- Witness of C16 on `sub.example.com`. -/
theorem isValidBaseDomain_length_final_witness :
    isValidBaseDomain "sub.example.com".toList = true ∧
    "sub.example.com".toList.length ≤ 253 ∧
    isValidBaseDomain "sub.example.c".toList = false :=
  ⟨by decide,
   ((isValidBaseDomain_length_final "sub.example.com".toList).1 (by decide)).1,
   (isValidBaseDomain_length_final "sub.example.c".toList).2
     (Or.inr (Or.inr (Or.inr (Or.inr (Or.inr (by
       intro tld h
       have ht : tld = "c".toList := by
         have : split '.' "sub.example.c".toList =
             ["sub".toList, "example".toList, "c".toList] := by decide
         rw [this] at h
         simpa using h.symm
       subst ht
       decide))))))⟩

/-- C17 as stated fails in both directions: `http://example.com` is accepted by
`isValidDomain` but `*.http://example.com` is not, and `www.com` is rejected
but `*.www.com` is accepted. -/
theorem isValidDomain_wildcard_differs :
    isValidDomain "http://example.com".toList = true ∧
    isValidDomain ("*.".toList ++ "http://example.com".toList) = false ∧
    isValidDomain "www.com".toList = false ∧
    isValidDomain ("*.".toList ++ "www.com".toList) = true := by
  decide

/-- C17, amended.  For every string `d`, `isValidDomain('*.' + d)` is
`isValidBaseDomain` of the lower-cased remainder `d`; it equals
`isValidDomain(d)` for every `d` that does not start with `http://`,
`https://`, `www.` or `*.`. -/
theorem isValidDomain_wildcard (d : Str) :
    isValidDomain ('*' :: '.' :: d) = isValidBaseDomain (toLowerCase d) ∧
    (startsWith d "http://".toList = false → startsWith d "https://".toList = false →
      startsWith d "www.".toList = false → startsWith d "*.".toList = false →
      isValidDomain ('*' :: '.' :: d) = isValidDomain d) := by
  have hwild : isValidDomain ('*' :: '.' :: d) = isValidBaseDomain (toLowerCase d) := by
    have hclean : toLowerCase (replaceSchemeWww ('*' :: '.' :: d)) =
        '*' :: '.' :: toLowerCase d := by
      have : replaceSchemeWww ('*' :: '.' :: d) = '*' :: '.' :: d := by
        simp [replaceSchemeWww, replaceScheme, replaceWww, startsWith]
      rw [this]
      rfl
    unfold isValidDomain
    simp only [hclean]
    simp [startsWith]
  refine ⟨hwild, ?_⟩
  intro hhttp hhttps hwww hstar
  rw [hwild]
  unfold isValidDomain
  simp only [replaceSchemeWww_bare d hhttp hhttps hwww]
  have hno : startsWith (toLowerCase d) "*.".toList = false := by
    rw [← Bool.not_eq_true]
    intro h
    rw [← Bool.not_eq_true] at hstar
    apply hstar
    match d, h with
    | [], h => simp [startsWith, toLowerCase] at h
    | [a], h => simp [startsWith, toLowerCase] at h
    | a :: b :: d', h =>
      simp [startsWith, toLowerCase] at h
      rw [Char.eq_of_toLower_eq a '*' h.1.symm (by decide),
        Char.eq_of_toLower_eq b '.' h.2.symm (by decide)]
      simp [startsWith]
  simp only [hno, Bool.false_eq_true, if_false]

/-- Witness of the amended C17 on `example.com`. -/
theorem isValidDomain_wildcard_witness :
    startsWith "example.com".toList "www.".toList = false ∧
    isValidDomain "*.example.com".toList = isValidDomain "example.com".toList :=
  ⟨by decide,
   (isValidDomain_wildcard "example.com".toList).2 (by decide) (by decide) (by decide)
     (by decide)⟩

end DomainSyntax

section Normalize
open JS FountainScan


theorem Char.alnum_range (c : Char) (h : c.isAlphanum = true ∨ c = '-' ∨ c = '.') :
    45 ≤ c.toNat ∧ c.toNat ≤ 122 := by
  rcases h with h | rfl | rfl
  · simp [Char.isAlphanum, Char.isAlpha, Char.isUpper, Char.isLower, Char.isDigit,
      UInt32.le_def, BitVec.le_def] at h
    have : c.toNat = c.val.toBitVec.toNat := rfl
    omega
  · decide
  · decide

theorem Char.alpha_alnum (c : Char) (h : c.isAlpha = true) : c.isAlphanum = true := by
  simp [Char.isAlphanum, h]

/-- A character of a lower-cased string that is not a lower-case letter is a
character of the string. -/
theorem JS.mem_of_mem_toLowerCase (d : Str) (c : Char) (h : c ∈ toLowerCase d)
    (hc : c.toNat < 97 ∨ 122 < c.toNat) : c ∈ d := by
  unfold toLowerCase at h
  obtain ⟨c', hc', e⟩ := List.mem_map.mp h
  rw [Char.eq_of_toLower_eq c' c e hc] at hc'
  exact hc'

/-- A trim character is not a lower-case letter. -/
theorem JS.isTrimChar_range (c : Char) (h : isTrimChar c = true) :
    c.toNat ≤ 32 ∨ 160 ≤ c.toNat := by
  simp [isTrimChar] at h
  omega

/-- The expression `s.split(c)[0]` is the part of `s` before the first `c`. -/
theorem JS.splitFirst_eq_takeWhile (c : Char) (s : Str) :
    splitFirst c s = s.takeWhile (fun x => decide (x ≠ c)) := by
  have key : ∀ s : Str, ∃ ws, split c s = s.takeWhile (fun x => decide (x ≠ c)) :: ws := by
    intro s
    induction s with
    | nil => exact ⟨[], rfl⟩
    | cons x xs ih =>
      obtain ⟨ws, hws⟩ := ih
      by_cases hx : x = c
      · exact ⟨split c xs, by simp [split, hx]⟩
      · exact ⟨ws, by simp [split, hx, hws]⟩
  obtain ⟨ws, hws⟩ := key s
  simp [splitFirst, hws]

/-- Taking a prefix by a test that all of `x` passes keeps `x`. -/
theorem takeWhile_append_of_all (p : Char → Bool) (x r : Str) (h : ∀ c ∈ x, p c = true) :
    (x ++ r).takeWhile p = x ++ r.takeWhile p := by
  induction x with
  | nil => rfl
  | cons a x ih =>
    have ha := h a (List.mem_cons_self _ _)
    simp [List.takeWhile_cons, ha, ih (fun c hc => h c (List.mem_cons_of_mem _ hc))]

/-- Trimming leaves a string without trim characters as it is. -/
theorem JS.trim_of_no_trimChar (x : Str) (h : ∀ c ∈ x, isTrimChar c = false) : trim x = x := by
  have hdrop : ∀ y : Str, (∀ c ∈ y, isTrimChar c = false) → y.dropWhile isTrimChar = y := by
    intro y hy
    cases y with
    | nil => rfl
    | cons a y => simp [List.dropWhile_cons, hy a (List.mem_cons_self _ _)]
  unfold trim
  rw [hdrop x h, hdrop x.reverse (fun c hc => h c (List.mem_reverse.mp hc)), List.reverse_reverse]

/-- A suffix that starts with `:`, `/`, `?` or `#` is cut off entirely by the
four splits of `normalizeDomain`. -/
theorem JS.splits_cut_suffix (x r : Str)
    (hx : ∀ c ∈ x, c ≠ '/' ∧ c ≠ '?' ∧ c ≠ '#' ∧ c ≠ ':')
    (hr : r = [] ∨ ∃ c t, r = c :: t ∧ (c = ':' ∨ c = '/' ∨ c = '?' ∨ c = '#')) :
    splitFirst ':' (splitFirst '#' (splitFirst '?' (splitFirst '/' (x ++ r)))) = x := by
  simp only [splitFirst_eq_takeWhile]
  rw [takeWhile_append_of_all _ x _ (fun c hc => by simpa using (hx c hc).1),
    takeWhile_append_of_all _ x _ (fun c hc => by simpa using (hx c hc).2.1),
    takeWhile_append_of_all _ x _ (fun c hc => by simpa using (hx c hc).2.2.1),
    takeWhile_append_of_all _ x _ (fun c hc => by simpa using (hx c hc).2.2.2)]
  rcases hr with rfl | ⟨c, t, rfl, hc⟩
  · simp
  · rcases hc with rfl | rfl | rfl | rfl <;> simp [List.takeWhile_cons]

/-- Removing a trailing slash keeps a slash-free `x` and a suffix of the same
kind behind it. -/
theorem JS.replaceTrailingSlash_append (x r : Str) (hx : '/' ∉ x)
    (hr : r = [] ∨ ∃ c t, r = c :: t ∧ (c = ':' ∨ c = '/' ∨ c = '?' ∨ c = '#')) :
    ∃ r', replaceTrailingSlash (x ++ r) = x ++ r' ∧
      (r' = [] ∨ ∃ c t, r' = c :: t ∧ (c = ':' ∨ c = '/' ∨ c = '?' ∨ c = '#')) := by
  unfold replaceTrailingSlash
  split
  · next h =>
    rcases hr with rfl | ⟨c, t, rfl, hc⟩
    · exfalso
      simp only [endsWith, List.isSuffixOf_iff_suffix, List.append_nil] at h
      exact hx (h.subset (by simp))
    · refine ⟨(c :: t).dropLast, List.dropLast_append_of_ne_nil _ (by simp), ?_⟩
      cases t with
      | nil => left; rfl
      | cons b t => right; exact ⟨c, (b :: t).dropLast, rfl, hc⟩
  · exact ⟨r, rfl, hr⟩

/-- The clean-up of `normalizeDomain` after the prefix is removed: suffix cut
off, nothing trimmed. -/
theorem JS.normalize_core (x r : Str)
    (hx : ∀ c ∈ x, c ≠ '/' ∧ c ≠ '?' ∧ c ≠ '#' ∧ c ≠ ':' ∧ isTrimChar c = false)
    (hr : r = [] ∨ ∃ c t, r = c :: t ∧ (c = ':' ∨ c = '/' ∨ c = '?' ∨ c = '#')) :
    trim (splitFirst ':' (splitFirst '#' (splitFirst '?' (splitFirst '/'
      (replaceTrailingSlash (x ++ r)))))) = x := by
  obtain ⟨r', hr', hkind⟩ := replaceTrailingSlash_append x r (fun h => (hx '/' h).1 rfl) hr
  rw [hr', splits_cut_suffix x r' (fun c hc => ⟨(hx c hc).1, (hx c hc).2.1, (hx c hc).2.2.1,
    (hx c hc).2.2.2.1⟩) hkind]
  exact trim_of_no_trimChar x (fun c hc => (hx c hc).2.2.2.2)

/-- An accepted base domain consists of letters, digits, hyphens and dots and
contains a dot. -/
theorem FountainScan.isValidBaseDomain_chars (d : Str) (h : isValidBaseDomain d = true) :
    (∀ c ∈ d, c.isAlphanum = true ∨ c = '-' ∨ c = '.') ∧ '.' ∈ d := by
  have hv := (isValidBaseDomain_iff d).mp h
  obtain ⟨l₀, ls, tld, hs, h₀, hls, htld⟩ := domainRegex_shape d hv.1
  have htld' := tld_matches tld htld
  subst hs
  constructor
  · intro c hc
    simp only [List.mem_append, List.mem_flatten, List.mem_map, List.mem_cons] at hc
    rcases hc with hc | ⟨x, ⟨l, hl, rfl⟩, hcx⟩ | rfl | hc
    · rcases (labelRegex_matches l₀ h₀).2.2.1 c hc with h' | h'
      · exact Or.inl h'
      · exact Or.inr (Or.inl h')
    · rcases List.mem_cons.mp hcx with rfl | hcl
      · exact Or.inr (Or.inr rfl)
      · rcases (labelRegex_matches l (hls l hl)).2.2.1 c hcl with h' | h'
        · exact Or.inl h'
        · exact Or.inr (Or.inl h')
    · exact Or.inr (Or.inr rfl)
    · exact Or.inl (Char.alpha_alnum c (htld'.2 c hc))
  · simp

/-- The lower-cased form of an accepted base domain has none of the characters
`/`, `?`, `#`, `:` and no trim character, and it contains a dot. -/
theorem FountainScan.lower_valid_chars (d : Str) (h : isValidBaseDomain d = true) :
    (∀ c ∈ toLowerCase d,
      c ≠ '/' ∧ c ≠ '?' ∧ c ≠ '#' ∧ c ≠ ':' ∧ isTrimChar c = false) ∧
    '.' ∈ toLowerCase d := by
  have hch := isValidBaseDomain_chars d h
  have hno : ∀ x : Char, (x.toNat < 97 ∨ 122 < x.toNat) →
      ¬ (x.isAlphanum = true ∨ x = '-' ∨ x = '.') → x ∉ toLowerCase d := by
    intro x hx hnot hm
    exact hnot (hch.1 x (mem_of_mem_toLowerCase d x hm hx))
  constructor
  · intro c hc
    refine ⟨?_, ?_, ?_, ?_, ?_⟩
    · rintro rfl; exact hno '/' (by decide) (by decide) hc
    · rintro rfl; exact hno '?' (by decide) (by decide) hc
    · rintro rfl; exact hno '#' (by decide) (by decide) hc
    · rintro rfl; exact hno ':' (by decide) (by decide) hc
    · rw [← Bool.not_eq_true]
      intro ht
      have hr := isTrimChar_range c ht
      have hm := mem_of_mem_toLowerCase d c hc (by omega)
      have := Char.alnum_range c (hch.1 c hm)
      omega
  · unfold toLowerCase
    exact List.mem_map.mpr ⟨'.', hch.2, rfl⟩

/-- A string that starts with `x` starts with a prefix `p` only if `p` lies in
`x` or `x` lies in `p`. -/
theorem JS.startsWith_append_cases (x y p : Str) (h : startsWith (x ++ y) p = true) :
    startsWith x p = true ∨ x <+: p := by
  simp only [startsWith, List.isPrefixOf_iff_prefix] at h ⊢
  exact List.prefix_or_prefix_of_prefix h (List.prefix_append x y)

/-- Behind a string with a dot, without colon and without leading `www.`,
nothing makes the whole start with a scheme or with `www.`. -/
theorem JS.no_prefix_of_domain (x y : Str) (hdot : '.' ∈ x) (hcolon : ':' ∉ x)
    (hwww : startsWith x "www.".toList = false) :
    startsWith (x ++ y) "https://".toList = false ∧
    startsWith (x ++ y) "http://".toList = false ∧
    startsWith (x ++ y) "www.".toList = false := by
  refine ⟨?_, ?_, ?_⟩
  · rw [← Bool.not_eq_true]
    intro h
    rcases startsWith_append_cases x y _ h with h' | h'
    · simp only [startsWith, List.isPrefixOf_iff_prefix] at h'
      exact hcolon (h'.subset (by decide))
    · exact absurd (h'.subset hdot) (by decide)
  · rw [← Bool.not_eq_true]
    intro h
    rcases startsWith_append_cases x y _ h with h' | h'
    · simp only [startsWith, List.isPrefixOf_iff_prefix] at h'
      exact hcolon (h'.subset (by decide))
    · exact absurd (h'.subset hdot) (by decide)
  · rw [← Bool.not_eq_true]
    intro h
    rcases startsWith_append_cases x y _ h with h' | h'
    · rw [hwww] at h'; cases h'
    · have hlen := h'.length_le
      have h4 : x.length = 4 ∨ x.length < 4 := by
        have : "www.".toList.length = 4 := by decide
        omega
      rcases h4 with h4 | h4
      · have : x = "www.".toList := h'.eq_of_length (by rw [h4]; decide)
        rw [this] at hwww
        exact absurd hwww (by decide)
      · obtain ⟨t, ht⟩ := h'
        match x, hdot, h4, ht with
        | [], hdot, _, _ => cases hdot
        | [a], hdot, _, ht =>
          simp at ht hdot
          rw [ht.1] at hdot
          exact absurd hdot (by decide)
        | [a, b], hdot, _, ht =>
          simp at ht hdot
          rw [ht.1, ht.2.1] at hdot
          exact absurd hdot (by decide)
        | [a, b, c], hdot, _, ht =>
          simp at ht hdot
          rw [ht.1, ht.2.1, ht.2.2.1] at hdot
          exact absurd hdot (by decide)
        | a :: b :: c :: e :: x', _, h4, _ => simp at h4; omega

/-- The scheme `http://` is removed. -/
theorem JS.replaceScheme_http (z : Str) : replaceScheme ("http://".toList ++ z) = z := by
  simp [replaceScheme, startsWith]

/-- The scheme `https://` is removed. -/
theorem JS.replaceScheme_https (z : Str) : replaceScheme ("https://".toList ++ z) = z := by
  simp [replaceScheme, startsWith]

/-- A string that starts with `www.` has no scheme to remove. -/
theorem JS.replaceScheme_www (z : Str) :
    replaceScheme ("www.".toList ++ z) = "www.".toList ++ z := by
  simp [replaceScheme, startsWith]

/-- A leading `www.` is removed. -/
theorem JS.replaceWww_www (z : Str) : replaceWww ("www.".toList ++ z) = z := by
  simp [replaceWww, startsWith]

/-- The prefix clean-up removes an optional scheme and an optional `www.` in
front of a domain. -/
theorem JS.replaceSchemeWww_wrapped (s w x y : Str) (hdot : '.' ∈ x) (hcolon : ':' ∉ x)
    (hwww : startsWith x "www.".toList = false)
    (hs : s = [] ∨ s = "http://".toList ∨ s = "https://".toList)
    (hw : w = [] ∨ w = "www.".toList) :
    replaceSchemeWww (s ++ w ++ x ++ y) = x ++ y := by
  have hno := no_prefix_of_domain x y hdot hcolon hwww
  have hplain : replaceScheme (x ++ y) = x ++ y := by
    simp only [replaceScheme, hno.1, hno.2.1, Bool.false_eq_true, if_false]
  have hplainW : replaceWww (x ++ y) = x ++ y := by
    simp only [replaceWww, hno.2.2, Bool.false_eq_true, if_false]
  unfold replaceSchemeWww
  rcases hs with rfl | rfl | rfl <;> rcases hw with rfl | rfl
  · simp only [List.nil_append, hplain, hplainW]
  · simp only [List.nil_append, List.append_assoc, replaceScheme_www, replaceWww_www]
  · simp only [List.append_nil, List.append_assoc, replaceScheme_http, hplainW]
  · simp only [List.append_assoc, replaceScheme_http, replaceWww_www]
  · simp only [List.append_nil, List.append_assoc, replaceScheme_https, hplainW]
  · simp only [List.append_assoc, replaceScheme_https, replaceWww_www]

/-- C18 (normalisation).  For every base domain `d` that `isValidBaseDomain`
accepts, in any letter case and not starting with `www.`, `normalizeDomain`
applied to `d` behind an optional `http://` or `https://` scheme and an optional
`www.` (in any letter case), and followed by nothing or by a suffix that starts
with `:`, `/`, `?` or `#` (port, path, query, fragment), returns the lower-cased
`d`; in particular for `HTTPS://WWW.Example.COM:8080/a/b?x=1#y`. -/
theorem normalizeDomain_wrapped (d scheme www rest : Str)
    (hd : isValidBaseDomain d = true)
    (hwww : startsWith (toLowerCase d) "www.".toList = false)
    (hscheme : scheme = [] ∨ toLowerCase scheme = "http://".toList ∨
      toLowerCase scheme = "https://".toList)
    (hw : www = [] ∨ toLowerCase www = "www.".toList)
    (hrest : rest = [] ∨ ∃ c t, rest = c :: t ∧ (c = ':' ∨ c = '/' ∨ c = '?' ∨ c = '#')) :
    normalizeDomain (scheme ++ www ++ d ++ rest) = toLowerCase d ∧
    normalizeDomain "HTTPS://WWW.Example.COM:8080/a/b?x=1#y".toList =
      "example.com".toList := by
  refine ⟨?_, by decide⟩
  have hx := lower_valid_chars d hd
  have hdne : d ≠ [] := by
    intro e
    rw [e] at hx
    exact absurd hx.2 (by simp [toLowerCase])
  have hne : scheme ++ www ++ d ++ rest ≠ [] := by simp [hdne]
  have hrest' : toLowerCase rest = [] ∨
      ∃ c t, toLowerCase rest = c :: t ∧ (c = ':' ∨ c = '/' ∨ c = '?' ∨ c = '#') := by
    rcases hrest with rfl | ⟨c, t, rfl, hc⟩
    · left; rfl
    · right
      refine ⟨c, toLowerCase t, ?_, hc⟩
      rcases hc with rfl | rfl | rfl | rfl <;> rfl
  have hs' : toLowerCase scheme = [] ∨ toLowerCase scheme = "http://".toList ∨
      toLowerCase scheme = "https://".toList := by
    rcases hscheme with rfl | h | h
    · left; rfl
    · exact Or.inr (Or.inl h)
    · exact Or.inr (Or.inr h)
  have hw' : toLowerCase www = [] ∨ toLowerCase www = "www.".toList := by
    rcases hw with rfl | h
    · left; rfl
    · exact Or.inr h
  unfold normalizeDomain
  rw [if_neg hne]
  simp only [toLowerCase_append]
  rw [replaceSchemeWww_wrapped (toLowerCase scheme) (toLowerCase www) (toLowerCase d)
    (toLowerCase rest) hx.2 (fun h => (hx.1 ':' h).2.2.2.1 rfl) hwww hs' hw']
  exact normalize_core (toLowerCase d) (toLowerCase rest) hx.1 hrest'

/-- Witness of C18: `Example.COM` behind `HTTP://` and `WWW.`, followed by a
port and a path. -/
theorem normalizeDomain_wrapped_witness :
    isValidBaseDomain "Example.COM".toList = true ∧
    normalizeDomain ("HTTP://".toList ++ "WWW.".toList ++ "Example.COM".toList ++
      ":8080/a/b".toList) = "example.com".toList :=
  ⟨by decide,
   (normalizeDomain_wrapped "Example.COM".toList "HTTP://".toList "WWW.".toList
      ":8080/a/b".toList (by decide) (by decide) (Or.inr (Or.inl (by decide)))
      (Or.inr (by decide)) (Or.inr ⟨':', "8080/a/b".toList, rfl, Or.inl rfl⟩)).1⟩

end Normalize

section ListMutation
open JS FountainScan

/-- C19 (rejected list mutations store nothing).  When the trimmed, normalised
input of `addToList` is empty or fails `isValidDomain`, or already occurs
(ignoring case) in the whitelist or in the blacklist, both lists are left
unchanged, whichever list is the target.  For an input that is its own
normalised form this covers every input that occurs in one of the lists. -/
theorem addToList_rejected (st : Lists) (listType : ListType) (inputValue : Str) :
    ((normalizeDomain (trim inputValue) = [] ∨
        isValidDomain (normalizeDomain (trim inputValue)) = false ∨
        ∃ d ∈ st.whitelist ++ st.blacklist,
          toLowerCase d = toLowerCase (normalizeDomain (trim inputValue))) →
      addToList st listType inputValue = st) ∧
    (normalizeDomain (trim inputValue) = inputValue →
      (∃ d ∈ st.whitelist ++ st.blacklist, toLowerCase d = toLowerCase inputValue) →
      addToList st listType inputValue = st) := by
  have main : (normalizeDomain (trim inputValue) = [] ∨
        isValidDomain (normalizeDomain (trim inputValue)) = false ∨
        ∃ d ∈ st.whitelist ++ st.blacklist,
          toLowerCase d = toLowerCase (normalizeDomain (trim inputValue))) →
      addToList st listType inputValue = st := by
    intro h
    unfold addToList
    simp only []
    split
    · rfl
    · split
      · rfl
      · next hne =>
        split
        · rfl
        · next hvalid =>
          split
          · rfl
          · next hlist =>
            split
            · rfl
            · next hother =>
              exfalso
              rcases h with h | h | ⟨d, hd, hdl⟩
              · exact hne h
              · rw [h] at hvalid
                exact hvalid rfl
              · have hl : ¬ ∃ x ∈ (match listType with
                    | ListType.whitelist => st.whitelist
                    | ListType.blacklist => st.blacklist),
                    toLowerCase x = toLowerCase (normalizeDomain (trim inputValue)) := by
                  intro ⟨x, hx, hxe⟩
                  exact hlist (List.any_eq_true.mpr ⟨x, hx, by simpa using hxe⟩)
                have ho : ¬ ∃ x ∈ (match listType with
                    | ListType.whitelist => st.blacklist
                    | ListType.blacklist => st.whitelist),
                    toLowerCase x = toLowerCase (normalizeDomain (trim inputValue)) := by
                  intro ⟨x, hx, hxe⟩
                  exact hother (List.any_eq_true.mpr ⟨x, hx, by simpa using hxe⟩)
                rcases List.mem_append.mp hd with hd | hd
                · cases listType
                  · exact hl ⟨d, hd, hdl⟩
                  · exact ho ⟨d, hd, hdl⟩
                · cases listType
                  · exact ho ⟨d, hd, hdl⟩
                  · exact hl ⟨d, hd, hdl⟩
  refine ⟨main, ?_⟩
  intro hnorm ⟨d, hd, hdl⟩
  exact main (Or.inr (Or.inr ⟨d, hd, by rw [hnorm]; exact hdl⟩))

/-- Witness of C19: `HTTP://Example.com/` is offered to the whitelist while
`example.com` is on the blacklist, and `not a domain` is offered to it. -/
theorem addToList_rejected_witness :
    (∃ d ∈ ([] : List Str) ++ ["example.com".toList],
      toLowerCase d = toLowerCase (normalizeDomain (trim "HTTP://Example.com/".toList))) ∧
    addToList { whitelist := [], blacklist := ["example.com".toList] } ListType.whitelist
        "HTTP://Example.com/".toList =
      { whitelist := [], blacklist := ["example.com".toList] } ∧
    isValidDomain (normalizeDomain (trim "not a domain".toList)) = false ∧
    addToList { whitelist := [], blacklist := ["example.com".toList] } ListType.whitelist
        "not a domain".toList =
      { whitelist := [], blacklist := ["example.com".toList] } :=
  ⟨⟨"example.com".toList, by simp, by decide⟩,
   (addToList_rejected { whitelist := [], blacklist := ["example.com".toList] }
      ListType.whitelist "HTTP://Example.com/".toList).1
      (Or.inr (Or.inr ⟨"example.com".toList, by simp, by decide⟩)),
   by decide,
   (addToList_rejected { whitelist := [], blacklist := ["example.com".toList] }
      ListType.whitelist "not a domain".toList).1 (Or.inr (Or.inl (by decide)))⟩

end ListMutation

section Cache
open JS FountainScanBackground

/-- After `set`, `get` of the same key returns the value set. -/
theorem JS.mapGet_mapSet_self {β : Type} (m : List (Str × β)) (k : Str) (v : β) :
    mapGet (mapSet m k v) k = some v := by
  induction m with
  | nil => simp [mapSet, mapGet]
  | cons e rest ih =>
    obtain ⟨k', v'⟩ := e
    by_cases h : k' = k
    · simp [mapSet, mapGet, h]
    · simp [mapSet, mapGet, h, ih]

/-- After `set`, `get` of another key returns what it returned before. -/
theorem JS.mapGet_mapSet_other {β : Type} (m : List (Str × β)) (k k₂ : Str) (v : β)
    (hk : k₂ ≠ k) : mapGet (mapSet m k v) k₂ = mapGet m k₂ := by
  have hk' : ¬ k = k₂ := fun h => hk h.symm
  induction m with
  | nil => simp [mapSet, mapGet, hk']
  | cons e rest ih =>
    obtain ⟨k', v'⟩ := e
    by_cases h : k' = k
    · subst h
      simp [mapSet, mapGet, hk']
    · by_cases h₂ : k' = k₂
      · subst h₂
        simp [mapSet, mapGet, h]
      · simp [mapSet, mapGet, h, h₂, ih]

/-- C20 (cache freshness on tab activation).  For a URL that `shouldScanUrl`
accepts, `handleTabActivation` reuses the cached result (no scan, cache
unchanged, badge of the cached result) if and only if the cache has an entry
for that URL with `now - timestamp < 300000`; otherwise it scans once and sets
the entry of the URL to the new result with the current time as timestamp,
leaving the entries of other URLs as they were. -/
theorem handleTabActivation_freshness (w : Worker) (storage : Storage) (isNewDomain : Bool)
    (parsed : Option URL) (now nowStored : Int) (url : Str)
    (hscan : shouldScanUrl url = true) :
    let scanResult := performBackgroundScan w.knownScamDomains storage.blacklist
      storage.whitelist isNewDomain url parsed
    let out := handleTabActivation w storage isNewDomain parsed now nowStored url
    (∀ cached, mapGet w.scanCache url = some cached → now - cached.timestamp < 300000 →
      out = { scanCache := w.scanCache, badge := some (updateBadge cached.result),
              scans := [] }) ∧
    ((¬ ∃ cached, mapGet w.scanCache url = some cached ∧ now - cached.timestamp < 300000) →
      out = { scanCache := mapSet w.scanCache url
                { result := scanResult, timestamp := nowStored },
              badge := some (updateBadge scanResult), scans := [url] }) ∧
    (out.scans = [] ↔
      ∃ cached, mapGet w.scanCache url = some cached ∧ now - cached.timestamp < 300000) ∧
    mapGet (mapSet w.scanCache url { result := scanResult, timestamp := nowStored }) url =
      some { result := scanResult, timestamp := nowStored } ∧
    (∀ other, other ≠ url →
      mapGet (mapSet w.scanCache url { result := scanResult, timestamp := nowStored }) other =
        mapGet w.scanCache other) := by
  intro scanResult out
  have hne : url ≠ [] := by
    intro e
    rw [e] at hscan
    simp [shouldScanUrl] at hscan
  have hguard : ¬ (url = [] ∨ shouldScanUrl url = false) := by
    intro h
    rcases h with h | h
    · exact hne h
    · rw [hscan] at h; cases h
  have hout : out = match mapGet w.scanCache url with
      | some cached =>
        if now - cached.timestamp < 300000 then
          { scanCache := w.scanCache, badge := some (updateBadge cached.result), scans := [] }
        else
          { scanCache := mapSet w.scanCache url
              { result := scanResult, timestamp := nowStored },
            badge := some (updateBadge scanResult), scans := [url] }
      | none =>
        { scanCache := mapSet w.scanCache url
            { result := scanResult, timestamp := nowStored },
          badge := some (updateBadge scanResult), scans := [url] } := by
    show handleTabActivation w storage isNewDomain parsed now nowStored url = _
    unfold handleTabActivation
    rw [if_neg hguard]
  refine ⟨?_, ?_, ?_, mapGet_mapSet_self _ _ _, fun other ho => mapGet_mapSet_other _ _ _ _ ho⟩
  · intro cached hc hfresh
    rw [hout, hc]
    simp only [hfresh, if_true]
  · intro hstale
    rw [hout]
    cases hc : mapGet w.scanCache url with
    | none => rfl
    | some cached =>
      have : ¬ now - cached.timestamp < 300000 := fun h => hstale ⟨cached, hc, h⟩
      simp only [this, if_false]
  · rw [hout]
    cases hc : mapGet w.scanCache url with
    | none => simp
    | some cached =>
      by_cases hf : now - cached.timestamp < 300000
      · simp [hf]
      · simp [hf]

/-- Witness of C20: an entry stored at time 1000 is reused at time 200000 and
replaced at time 400000. -/
theorem handleTabActivation_freshness_witness :
    shouldScanUrl Examples.shortTkUrl = true ∧
    handleTabActivation Examples.cachedWorker Examples.emptyStorage false
        (some Examples.shortTkUrlObj) 200000 200001 Examples.shortTkUrl =
      { scanCache := Examples.cachedWorker.scanCache,
        badge := some (updateBadge Examples.shortTkResult), scans := [] } ∧
    (handleTabActivation Examples.cachedWorker Examples.emptyStorage false
        (some Examples.shortTkUrlObj) 400000 400001 Examples.shortTkUrl).scanCache =
      [(Examples.shortTkUrl, { result := Examples.shortTkResult, timestamp := 400001 })] :=
  ⟨by decide,
   (handleTabActivation_freshness Examples.cachedWorker Examples.emptyStorage false
      (some Examples.shortTkUrlObj) 200000 200001 Examples.shortTkUrl (by decide)).1
      { result := Examples.shortTkResult, timestamp := 1000 } (by decide) (by decide),
   congrArg Outcome.scanCache
     ((handleTabActivation_freshness Examples.cachedWorker Examples.emptyStorage false
        (some Examples.shortTkUrlObj) 400000 400001 Examples.shortTkUrl (by decide)).2.1
        (by decide))⟩

end Cache

section BackgroundHandlers
open JS FountainScanBackground

/-- C21, evaluated on the code: with an entry for `http://a.tk/` stored at time
1000, `handleTabUpdate` at time 2000 and the `scanUrl` message both call
`performBackgroundScan` again (and `handleTabUpdate` overwrites the entry with
the new, different result), while `handleTabActivation` reuses the entry. -/
theorem handlers_rescan_fresh_entry :
    mapGet Examples.cachedWorker.scanCache Examples.shortTkUrl =
      some { result := Examples.shortTkResult, timestamp := 1000 } ∧
    (2000 : Int) - 1000 < 300000 ∧
    (handleTabUpdate Examples.cachedWorker Examples.defaultSettings Examples.emptyStorage true
      (some Examples.shortTkUrlObj) 2000 Examples.shortTkUrl).scans = [Examples.shortTkUrl] ∧
    mapGet (handleTabUpdate Examples.cachedWorker Examples.defaultSettings
      Examples.emptyStorage true (some Examples.shortTkUrlObj) 2000
      Examples.shortTkUrl).scanCache Examples.shortTkUrl ≠
      some { result := Examples.shortTkResult, timestamp := 1000 } ∧
    (handleMessageScanUrl Examples.cachedWorker Examples.emptyStorage true
      (some Examples.shortTkUrlObj) Examples.shortTkUrl).scans = [Examples.shortTkUrl] ∧
    (handleMessageScanUrl Examples.cachedWorker Examples.emptyStorage true
      (some Examples.shortTkUrlObj) Examples.shortTkUrl).result ≠ Examples.shortTkResult ∧
    (handleTabActivation Examples.cachedWorker Examples.emptyStorage true
      (some Examples.shortTkUrlObj) 2000 2000 Examples.shortTkUrl).scans = [] := by
  decide

/-- C25, evaluated on the code: the badge `updateBadge` sets for the error
result of `performBackgroundScan` (risk level `unknown`) is the badge it sets
for a result with risk level `safe`: empty text on green. -/
theorem updateBadge_unknown_as_safe :
    (performBackgroundScan knownScams [] [] false "not a url".toList none).riskLevel =
      RiskLevel.unknown ∧
    updateBadge (performBackgroundScan knownScams [] [] false "not a url".toList none) =
      { text := [], color := "#4CAF50".toList } ∧
    updateBadge { riskLevel := RiskLevel.safe, riskScore := 0, status := "Safe".toList,
                  issues := [], warnings := [] } =
      { text := [], color := "#4CAF50".toList } := by
  decide

/-- C24 as stated fails: for a string that does not parse, both scans return an
issues list with one entry. -/
theorem error_result_has_issue :
    (FountainScan.performScan [] [] "not a url".toList none).issues =
      ["Unable to scan URL".toList] ∧
    (FountainScan.performScan [] [] "not a url".toList none).issues ≠ [] ∧
    (performBackgroundScan knownScams [] [] false "not a url".toList none).issues =
      ["Unable to scan URL".toList] ∧
    (performBackgroundScan knownScams [] [] false "not a url".toList none).issues ≠ [] := by
  decide

/-- C24, amended.  For every string for which `new URL` throws, the popup scan
returns status `Error`, level `warning`, score 0 and the single issue
`Unable to scan URL`, and the background scan returns risk level `unknown`,
score 0, status `Scan Error`, the single issue `Unable to scan URL` and no
warning; neither throws. -/
theorem error_result_of_unparsable (whitelist blacklist knownScamDomains : List Str)
    (isNewDomain : Bool) (url : Str) :
    FountainScan.performScan whitelist blacklist url none =
      { status := "Error".toList, level := FountainScan.Level.warning,
        issues := ["Unable to scan URL".toList], score := 0 } ∧
    performBackgroundScan knownScamDomains blacklist whitelist isNewDomain url none =
      { riskLevel := RiskLevel.unknown, riskScore := 0, status := "Scan Error".toList,
        issues := ["Unable to scan URL".toList], warnings := [] } :=
  ⟨rfl, rfl⟩

/-- With a fresh entry for the URL, `handleTabActivation` reuses it. -/
theorem FountainScanBackground.handleTabActivation_of_fresh (w : Worker) (storage : Storage)
    (isNewDomain : Bool) (parsed : Option URL) (now nowStored : Int) (url : Str)
    (cached : CacheEntry) (hscan : shouldScanUrl url = true)
    (hget : mapGet w.scanCache url = some cached)
    (hfresh : now - cached.timestamp < 300000) :
    handleTabActivation w storage isNewDomain parsed now nowStored url =
      { scanCache := w.scanCache, badge := some (updateBadge cached.result), scans := [] } := by
  have hne : url ≠ [] := by
    intro e
    rw [e] at hscan
    simp [shouldScanUrl] at hscan
  have hguard : ¬ (url = [] ∨ shouldScanUrl url = false) := by
    intro h
    rcases h with h | h
    · exact hne h
    · rw [hscan] at h; cases h
  unfold handleTabActivation
  rw [if_neg hguard]
  simp only [hget, hfresh, if_true]

/-- C22 as stated fails: after `addToWhitelist('a.tk')` the cache still holds the
entry for `http://a.tk/` stored at time 1000, and `handleTabActivation` at time
2000 shows the cached `medium` result without scanning, although a scan against
the new whitelist returns `Whitelisted`. -/
theorem list_edit_keeps_cache :
    (addToWhitelist Examples.cachedWorker Examples.emptyStorage "a.tk".toList).2.whitelist =
      ["a.tk".toList] ∧
    (addToWhitelist Examples.cachedWorker Examples.emptyStorage "a.tk".toList).1.scanCache =
      [(Examples.shortTkUrl, { result := Examples.shortTkResult, timestamp := 1000 })] ∧
    handleTabActivation
        (addToWhitelist Examples.cachedWorker Examples.emptyStorage "a.tk".toList).1
        (addToWhitelist Examples.cachedWorker Examples.emptyStorage "a.tk".toList).2
        false (some Examples.shortTkUrlObj) 2000 2000 Examples.shortTkUrl =
      { scanCache :=
          [(Examples.shortTkUrl, { result := Examples.shortTkResult, timestamp := 1000 })],
        badge := some { text := "?".toList, color := "#FF9800".toList }, scans := [] } ∧
    Examples.shortTkResult.riskLevel = RiskLevel.medium ∧
    (performBackgroundScan knownScams [] ["a.tk".toList] false Examples.shortTkUrl
      (some Examples.shortTkUrlObj)).status = "Whitelisted".toList := by
  decide

/-- C22, amended.  `addToWhitelist` and `addToBlacklist` leave the scan cache as
it is: every entry stored before the edit is still there, and the next
`handleTabActivation` for a URL whose entry is younger than 5 minutes shows the
cached result without scanning against the new lists. -/
theorem list_edit_cache_unchanged (w : Worker) (storage : Storage) (domain : Str)
    (isNewDomain : Bool) (parsed : Option URL) (now nowStored : Int) (url : Str)
    (cached : CacheEntry) (hscan : shouldScanUrl url = true)
    (hget : mapGet w.scanCache url = some cached)
    (hfresh : now - cached.timestamp < 300000) :
    (addToWhitelist w storage domain).1.scanCache = w.scanCache ∧
    (addToBlacklist w storage domain).1.scanCache = w.scanCache ∧
    handleTabActivation (addToWhitelist w storage domain).1 (addToWhitelist w storage domain).2
        isNewDomain parsed now nowStored url =
      { scanCache := w.scanCache, badge := some (updateBadge cached.result), scans := [] } ∧
    handleTabActivation (addToBlacklist w storage domain).1 (addToBlacklist w storage domain).2
        isNewDomain parsed now nowStored url =
      { scanCache := w.scanCache, badge := some (updateBadge cached.result), scans := [] } := by
  have hw : (addToWhitelist w storage domain).1.scanCache = w.scanCache := by
    unfold addToWhitelist
    split <;> rfl
  have hb : (addToBlacklist w storage domain).1.scanCache = w.scanCache := by
    unfold addToBlacklist
    split <;> rfl
  refine ⟨hw, hb, ?_, ?_⟩
  · rw [handleTabActivation_of_fresh _ _ isNewDomain parsed now nowStored url cached hscan
      (by rw [hw]; exact hget) hfresh, hw]
  · rw [handleTabActivation_of_fresh _ _ isNewDomain parsed now nowStored url cached hscan
      (by rw [hb]; exact hget) hfresh, hb]

/-- Witness of the amended C22 on the cached entry for `http://a.tk/`. -/
theorem list_edit_cache_unchanged_witness :
    shouldScanUrl Examples.shortTkUrl = true ∧
    (addToBlacklist Examples.cachedWorker Examples.emptyStorage "a.tk".toList).1.scanCache =
      Examples.cachedWorker.scanCache :=
  ⟨by decide,
   (list_edit_cache_unchanged Examples.cachedWorker Examples.emptyStorage "a.tk".toList false
      (some Examples.shortTkUrlObj) 2000 2000 Examples.shortTkUrl
      { result := Examples.shortTkResult, timestamp := 1000 } (by decide) (by decide)
      (by decide)).2.1⟩

/-- A sweep over the entries `l` removes from `m` the keys of the entries of `l`
that are too old. -/
theorem FountainScanBackground.sweep_eq_filter (now maxAge : Int) (l m : ScanCache) :
    l.foldl (fun m entry => if now - entry.2.timestamp > maxAge then mapDelete m entry.1 else m)
        m =
      m.filter (fun x => l.all (fun e =>
        !(decide (now - e.2.timestamp > maxAge) && decide (e.1 = x.1)))) := by
  induction l generalizing m with
  | nil => simp
  | cons e l ih =>
    rw [List.foldl_cons, ih]
    by_cases hs : now - e.2.timestamp > maxAge
    · simp only [hs, if_true, mapDelete, List.filter_filter, List.all_cons, decide_True,
        Bool.true_and]
      apply List.filter_congr
      intro x _
      by_cases hx : e.1 = x.1
      · simp [hx]
      · have hx' : ¬ x.1 = e.1 := fun h => hx h.symm
        simp [hx, hx']
    · simp only [hs, if_false, List.all_cons, decide_False, Bool.false_and, Bool.not_false,
        Bool.true_and]

/-- C23 (hard-expiry sweep).  After `cleanupCache` runs at time `now`, the scan
cache holds exactly the entries it held before whose age `now - timestamp` is at
most 86400000 ms, unchanged and in the same order; older entries are gone and
nothing is added. -/
theorem cleanupCache_sweep (w : Worker) (now : Int)
    (hkeys : (w.scanCache.map Prod.fst).Nodup) :
    (cleanupCache w now).scanCache =
      w.scanCache.filter (fun e => decide (now - e.2.timestamp ≤ 86400000)) ∧
    (∀ e, e ∈ (cleanupCache w now).scanCache ↔
      e ∈ w.scanCache ∧ now - e.2.timestamp ≤ 86400000) ∧
    (cleanupCache w now).knownScamDomains = w.knownScamDomains := by
  have hinj := List.inj_on_of_nodup_map hkeys
  have hmain : (cleanupCache w now).scanCache =
      w.scanCache.filter (fun e => decide (now - e.2.timestamp ≤ 86400000)) := by
    unfold cleanupCache
    simp only []
    rw [sweep_eq_filter]
    apply List.filter_congr
    intro x hx
    by_cases hold : now - x.2.timestamp ≤ 86400000
    · have : (w.scanCache.all (fun e =>
          !(decide (now - e.2.timestamp > 24 * 60 * 60 * 1000) && decide (e.1 = x.1)))) =
          true := by
        rw [List.all_eq_true]
        intro e he
        by_cases hk : e.1 = x.1
        · have hex := hinj he hx hk
          subst hex
          have hnot : ¬ now - e.2.timestamp > 24 * 60 * 60 * 1000 := by omega
          rw [decide_eq_false hnot]
          rfl
        · rw [decide_eq_false hk, Bool.and_false]
          rfl
      rw [this, decide_eq_true hold]
    · have : (w.scanCache.all (fun e =>
          !(decide (now - e.2.timestamp > 24 * 60 * 60 * 1000) && decide (e.1 = x.1)))) =
          false := by
        rw [← Bool.not_eq_true, List.all_eq_true]
        intro h
        have hx' := h x hx
        have hgt : now - x.2.timestamp > 24 * 60 * 60 * 1000 := by omega
        rw [decide_eq_true hgt, decide_eq_true (rfl : x.1 = x.1)] at hx'
        exact absurd hx' (by decide)
      rw [this, decide_eq_false hold]
  refine ⟨hmain, ?_, rfl⟩
  intro e
  rw [hmain, List.mem_filter, decide_eq_true_iff]

/-- Witness of C23: the entry stored at time 1000 survives a sweep at time
86401000 (age exactly 24 hours) and is removed by a sweep one millisecond
later. -/
theorem cleanupCache_sweep_witness :
    (Examples.cachedWorker.scanCache.map Prod.fst).Nodup ∧
    (cleanupCache Examples.cachedWorker 86401000).scanCache = Examples.cachedWorker.scanCache ∧
    (cleanupCache Examples.cachedWorker 86401001).scanCache = [] :=
  ⟨by decide,
   by rw [(cleanupCache_sweep Examples.cachedWorker 86401000 (by decide)).1]; decide,
   by rw [(cleanupCache_sweep Examples.cachedWorker 86401001 (by decide)).1]; decide⟩

/-- A property of the accumulators that every step keeps holds after a fold. -/
theorem FountainScanBackground.foldl_invariant {α : Type} (P : Acc → Prop) (f : Acc → α → Acc)
    (hf : ∀ a x, P a → P (f a x)) (l : List α) (a : Acc) (ha : P a) : P (l.foldl f a) := by
  induction l generalizing a with
  | nil => exact ha
  | cons x xs ih => exact ih (f a x) (hf a x ha)

/-- A property kept by every `issues.push` and `warnings.push` of weight 2 or
more is kept by the checks of the background scan. -/
theorem FountainScanBackground.heuristics_keeps (P : Acc → Prop)
    (hissue : ∀ a n m, 2 ≤ n → P a → P (a.issue n m))
    (hwarning : ∀ a n m, 2 ≤ n → P a → P (a.warning n m))
    (a : Acc) (isNewDomain : Bool) (url : Str) (urlObj : URL) (ha : P a) :
    P (heuristics a isNewDomain url urlObj) := by
  unfold heuristics
  simp only []
  refine foldl_invariant P _ (fun a x h => ?_) _ _ ?_
  · split
    · exact hissue _ _ _ (by decide) h
    · exact h
  cases isNewDomain
  · simp only [Bool.false_eq_true, if_false]
    refine foldl_invariant P _ (fun a x h => ?_) _ _ ?_
    · split
      · exact hwarning _ _ _ (by decide) h
      · exact h
    refine foldl_invariant P _ (fun a x h => ?_) _ _ ?_
    · split
      · exact hwarning _ _ _ (by decide) h
      · exact h
    refine foldl_invariant P _ (fun a x h => ?_) _ _ ?_
    · split
      · exact hwarning _ _ _ (by decide) h
      · exact h
    refine foldl_invariant P _ (fun a x h => ?_) _ _ ?_
    · split
      · exact hissue _ _ _ (by decide) h
      · exact h
    split
    · exact hissue _ _ _ (by decide) ha
    · exact ha
  · simp only [if_true]
    apply hwarning _ _ _ (by decide)
    refine foldl_invariant P _ (fun a x h => ?_) _ _ ?_
    · split
      · exact hwarning _ _ _ (by decide) h
      · exact h
    refine foldl_invariant P _ (fun a x h => ?_) _ _ ?_
    · split
      · exact hwarning _ _ _ (by decide) h
      · exact h
    refine foldl_invariant P _ (fun a x h => ?_) _ _ ?_
    · split
      · exact hwarning _ _ _ (by decide) h
      · exact h
    refine foldl_invariant P _ (fun a x h => ?_) _ _ ?_
    · split
      · exact hissue _ _ _ (by decide) h
      · exact h
    split
    · exact hissue _ _ _ (by decide) ha
    · exact ha

/-- In the accumulators of the background scan the score is 0 when nothing was
found and at least 2 otherwise. -/
theorem FountainScanBackground.findings_count (knownScamDomains blacklist : List Str)
    (isNewDomain : Bool) (url : Str) (urlObj : URL) :
    let b := heuristics (listChecks knownScamDomains blacklist (toLowerCase urlObj.hostname))
      isNewDomain url urlObj
    (b.issues = [] ∧ b.warnings = [] → b.riskScore = 0) ∧
    (b.issues ≠ [] ∨ b.warnings ≠ [] → 2 ≤ b.riskScore) := by
  intro b
  have hissue : ∀ (a : Acc) n m, 2 ≤ n →
      ((a.issues = [] ∧ a.warnings = [] → a.riskScore = 0) ∧
        (a.issues ≠ [] ∨ a.warnings ≠ [] → 2 ≤ a.riskScore)) →
      (((a.issue n m).issues = [] ∧ (a.issue n m).warnings = [] → (a.issue n m).riskScore = 0) ∧
        ((a.issue n m).issues ≠ [] ∨ (a.issue n m).warnings ≠ [] →
          2 ≤ (a.issue n m).riskScore)) := by
    intro a n m hn _
    constructor
    · intro h
      simp [Acc.issue] at h
    · intro _
      simp only [Acc.issue]
      omega
  have hwarning : ∀ (a : Acc) n m, 2 ≤ n →
      ((a.issues = [] ∧ a.warnings = [] → a.riskScore = 0) ∧
        (a.issues ≠ [] ∨ a.warnings ≠ [] → 2 ≤ a.riskScore)) →
      (((a.warning n m).issues = [] ∧ (a.warning n m).warnings = [] →
          (a.warning n m).riskScore = 0) ∧
        ((a.warning n m).issues ≠ [] ∨ (a.warning n m).warnings ≠ [] →
          2 ≤ (a.warning n m).riskScore)) := by
    intro a n m hn _
    constructor
    · intro h
      simp [Acc.warning] at h
    · intro _
      simp only [Acc.warning]
      omega
  have hzero : ∀ (a : Acc), a = { riskScore := 0, issues := [], warnings := [] } →
      ((a.issues = [] ∧ a.warnings = [] → a.riskScore = 0) ∧
        (a.issues ≠ [] ∨ a.warnings ≠ [] → 2 ≤ a.riskScore)) := by
    intro a ha
    subst ha
    simp
  apply heuristics_keeps (fun a => (a.issues = [] ∧ a.warnings = [] → a.riskScore = 0) ∧
    (a.issues ≠ [] ∨ a.warnings ≠ [] → 2 ≤ a.riskScore)) hissue hwarning
  unfold listChecks
  simp only []
  split
  · apply hissue _ _ _ (by decide)
    split
    · exact hissue _ _ _ (by decide) (hzero _ rfl)
    · exact hzero _ rfl
  · split
    · exact hissue _ _ _ (by decide) (hzero _ rfl)
    · exact hzero _ rfl

/-- C28 (every finding counts).  For every parsed URL that fails the whitelist
test of the background scan, and for either outcome of the domain-age probe,
`performBackgroundScan` returns risk level `safe` exactly when its issues and
warnings are both empty, which is exactly when the score is 0; with an issue or
a warning the score is at least 2 and the level is not `safe`. -/
theorem background_every_finding_counts (knownScamDomains blacklist whitelist : List Str)
    (isNewDomain : Bool) (url : Str) (urlObj : URL)
    (hw : ¬ ∃ d ∈ whitelist, includes (toLowerCase urlObj.hostname) (toLowerCase d) = true) :
    ((performBackgroundScan knownScamDomains blacklist whitelist isNewDomain url
        (some urlObj)).riskLevel = RiskLevel.safe ↔
      (performBackgroundScan knownScamDomains blacklist whitelist isNewDomain url
        (some urlObj)).issues = [] ∧
      (performBackgroundScan knownScamDomains blacklist whitelist isNewDomain url
        (some urlObj)).warnings = []) ∧
    ((performBackgroundScan knownScamDomains blacklist whitelist isNewDomain url
        (some urlObj)).issues = [] ∧
      (performBackgroundScan knownScamDomains blacklist whitelist isNewDomain url
        (some urlObj)).warnings = [] ↔
      (performBackgroundScan knownScamDomains blacklist whitelist isNewDomain url
        (some urlObj)).riskScore = 0) ∧
    ((performBackgroundScan knownScamDomains blacklist whitelist isNewDomain url
        (some urlObj)).issues ≠ [] ∨
      (performBackgroundScan knownScamDomains blacklist whitelist isNewDomain url
        (some urlObj)).warnings ≠ [] →
      2 ≤ (performBackgroundScan knownScamDomains blacklist whitelist isNewDomain url
        (some urlObj)).riskScore ∧
      (performBackgroundScan knownScamDomains blacklist whitelist isNewDomain url
        (some urlObj)).riskLevel ≠ RiskLevel.safe) := by
  have hw' : whitelist.any (fun d => includes (toLowerCase urlObj.hostname) (toLowerCase d))
      = false := by
    rw [← Bool.not_eq_true, List.any_eq_true]; exact hw
  have hf := findings_count knownScamDomains blacklist isNewDomain url urlObj
  simp only [] at hf
  simp only [performBackgroundScan, hw', Bool.false_eq_true, if_false]
  generalize heuristics (listChecks knownScamDomains blacklist (toLowerCase urlObj.hostname))
    isNewDomain url urlObj = b at hf
  have hlevel : (determineRiskLevel b.riskScore).1 = RiskLevel.safe ↔ b.riskScore < 2 := by
    simp only [determineRiskLevel]
    repeat' split
    all_goals simp
    all_goals omega
  have hempty : b.issues = [] ∧ b.warnings = [] ↔ b.riskScore = 0 := by
    constructor
    · exact hf.1
    · intro h0
      by_contra hne
      have : b.issues ≠ [] ∨ b.warnings ≠ [] := by
        by_contra hboth
        apply hne
        constructor
        · by_contra h1; exact hboth (Or.inl h1)
        · by_contra h2; exact hboth (Or.inr h2)
      have := hf.2 this
      omega
  refine ⟨?_, hempty, ?_⟩
  · rw [hlevel, hempty]
    constructor
    · intro h
      by_contra h0
      have hne : b.issues ≠ [] ∨ b.warnings ≠ [] := by
        by_contra hboth
        apply h0
        apply hf.1
        constructor
        · by_contra h1; exact hboth (Or.inl h1)
        · by_contra h2; exact hboth (Or.inr h2)
      have := hf.2 hne
      omega
    · intro h; omega
  · intro hne
    have h2 := hf.2 hne
    refine ⟨h2, ?_⟩
    intro hs
    have := hlevel.mp hs
    omega

/-- Witness of C28: `http://a.tk/` with empty lists has findings and is not
`safe`. -/
theorem background_every_finding_counts_witness :
    (¬ ∃ d ∈ ([] : List Str),
      includes (toLowerCase Examples.shortTkUrlObj.hostname) (toLowerCase d) = true) ∧
    2 ≤ (performBackgroundScan knownScams [] [] false Examples.shortTkUrl
      (some Examples.shortTkUrlObj)).riskScore :=
  ⟨by simp,
   ((background_every_finding_counts knownScams [] [] false Examples.shortTkUrl
      Examples.shortTkUrlObj (by simp)).2.2 (Or.inl (by decide))).1⟩

end BackgroundHandlers

section ListState
open JS FountainScan

/-- Lower-casing a character twice is lower-casing it once. -/
theorem Char.toLower_toLower (c : Char) : c.toLower.toLower = c.toLower := by
  by_cases hu : 65 ≤ c.toNat ∧ c.toNat ≤ 90
  · have h := Char.toNat_toLower_of_upper c hu
    have hnot : ¬ (65 ≤ c.toLower.toNat ∧ c.toLower.toNat ≤ 90) := by omega
    generalize c.toLower = d at hnot
    unfold Char.toLower
    simp only [ge_iff_le]
    rw [if_neg hnot]
  · have : c.toLower = c := by
      unfold Char.toLower
      simp only [ge_iff_le]
      rw [if_neg hu]
    rw [this, this]

/-- A string of characters that lower-casing fixes is fixed by lower-casing. -/
theorem JS.toLowerCase_eq_self (s : Str) (h : ∀ c ∈ s, c.toLower = c) : toLowerCase s = s := by
  induction s with
  | nil => rfl
  | cons a s ih =>
    rw [toLowerCase_cons, h a (List.mem_cons_self _ _),
      ih (fun c hc => h c (List.mem_cons_of_mem _ hc))]

/-- The characters of a trimmed string are characters of the string. -/
theorem JS.trim_subset (s : Str) : trim s ⊆ s := by
  intro c hc
  unfold trim at hc
  have h1 := List.mem_reverse.mp hc
  have h2 := (List.dropWhile_sublist isTrimChar).subset h1
  have h3 := List.mem_reverse.mp h2
  exact (List.dropWhile_sublist isTrimChar).subset h3

/-- The characters of `s.split(c)[0]` are characters of `s`. -/
theorem JS.splitFirst_subset (c : Char) (s : Str) : splitFirst c s ⊆ s := by
  rw [splitFirst_eq_takeWhile]
  exact (List.takeWhile_sublist _).subset

/-- The prefix clean-up only removes characters. -/
theorem JS.replaceSchemeWww_subset (s : Str) : replaceSchemeWww s ⊆ s := by
  have h1 : replaceWww (replaceScheme s) ⊆ replaceScheme s := by
    unfold replaceWww
    split
    · exact (List.drop_sublist _ _).subset
    · exact List.Subset.refl _
  have h2 : replaceScheme s ⊆ s := by
    unfold replaceScheme
    split
    · exact (List.drop_sublist _ _).subset
    · split
      · exact (List.drop_sublist _ _).subset
      · exact List.Subset.refl _
  exact List.Subset.trans h1 h2

/-- Removing a trailing slash only removes characters. -/
theorem JS.replaceTrailingSlash_subset (s : Str) : replaceTrailingSlash s ⊆ s := by
  unfold replaceTrailingSlash
  split
  · exact (List.dropLast_sublist _).subset
  · exact List.Subset.refl _

/-- The characters of `normalizeDomain(input)` are characters of the lower-cased
input. -/
theorem FountainScan.normalizeDomain_subset (input : Str) :
    normalizeDomain input ⊆ toLowerCase input := by
  unfold normalizeDomain
  split
  · intro c hc; cases hc
  · simp only []
    exact List.Subset.trans (trim_subset _)
      (List.Subset.trans (splitFirst_subset _ _)
        (List.Subset.trans (splitFirst_subset _ _)
          (List.Subset.trans (splitFirst_subset _ _)
            (List.Subset.trans (splitFirst_subset _ _)
              (List.Subset.trans (replaceTrailingSlash_subset _)
                (replaceSchemeWww_subset _))))))

/-- The result of `normalizeDomain` is lower-case. -/
theorem FountainScan.normalizeDomain_lower (input : Str) :
    toLowerCase (normalizeDomain input) = normalizeDomain input := by
  apply toLowerCase_eq_self
  intro c hc
  have := normalizeDomain_subset input hc
  unfold toLowerCase at this
  obtain ⟨c', _, rfl⟩ := List.mem_map.mp this
  exact Char.toLower_toLower c'

/-- What `addToList` does: nothing, or it appends the normalised input, which is
lower-case, valid and absent (ignoring case) from both lists. -/
theorem FountainScan.addToList_cases (st : Lists) (listType : ListType) (inputValue : Str) :
    addToList st listType inputValue = st ∨
    (toLowerCase (normalizeDomain (trim inputValue)) = normalizeDomain (trim inputValue) ∧
      isValidDomain (normalizeDomain (trim inputValue)) = true ∧
      (∀ d ∈ st.whitelist ++ st.blacklist,
        toLowerCase d ≠ toLowerCase (normalizeDomain (trim inputValue))) ∧
      addToList st listType inputValue =
        match listType with
        | ListType.whitelist =>
          { st with whitelist := st.whitelist ++ [normalizeDomain (trim inputValue)] }
        | ListType.blacklist =>
          { st with blacklist := st.blacklist ++ [normalizeDomain (trim inputValue)] }) := by
  unfold addToList
  simp only []
  split
  · exact Or.inl rfl
  · split
    · exact Or.inl rfl
    · split
      · exact Or.inl rfl
      · next hvalid =>
        split
        · exact Or.inl rfl
        · next hlist =>
          split
          · exact Or.inl rfl
          · next hother =>
            right
            have hv : isValidDomain (normalizeDomain (trim inputValue)) = true := by
              cases h : isValidDomain (normalizeDomain (trim inputValue))
              · rw [h] at hvalid; exact absurd rfl hvalid
              · rfl
            refine ⟨normalizeDomain_lower _, hv, ?_, rfl⟩
            intro d hd hdl
            have hl : ∀ l : List Str, d ∈ l →
                l.any (fun d => decide (toLowerCase d =
                  toLowerCase (normalizeDomain (trim inputValue)))) = true :=
              fun l hdl' => List.any_eq_true.mpr ⟨d, hdl', decide_eq_true hdl⟩
            rcases List.mem_append.mp hd with hd | hd
            · cases listType
              · exact hlist (hl _ hd)
              · exact hother (hl _ hd)
            · cases listType
              · exact hother (hl _ hd)
              · exact hlist (hl _ hd)

/-- Removing the first match leaves a sublist. -/
theorem FountainScan.removeFirst_sublist (p : Str → Bool) (l : List Str) :
    (removeFirst p l).Sublist l := by
  induction l with
  | nil => exact List.Sublist.refl _
  | cons d ds ih =>
    unfold removeFirst
    split
    · exact List.sublist_cons_self d ds
    · exact ih.cons₂ d

/-- Appending an entry that is new ignoring case keeps a list free of
repetitions ignoring case. -/
theorem nodup_lower_append (l : List Str) (d : Str) (hl : (l.map toLowerCase).Nodup)
    (hd : ∀ x ∈ l, toLowerCase x ≠ toLowerCase d) : ((l ++ [d]).map toLowerCase).Nodup := by
  rw [List.map_append, List.nodup_append]
  refine ⟨hl, by simp, ?_⟩
  intro a ha hb
  obtain ⟨x, hx, rfl⟩ := List.mem_map.mp ha
  simp at hb
  exact hd x hx hb

/-- One call keeps the two facts of the list state. -/
theorem FountainScan.run_distinct (st : Lists) (call : ListCall) (h : st.Distinct) :
    (call.run st).Distinct := by
  obtain ⟨hw, hb, hdis⟩ := h
  cases call with
  | add listType inputValue =>
    simp only [ListCall.run]
    rcases addToList_cases st listType inputValue with he | ⟨_, _, hnew, he⟩
    · rw [he]; exact ⟨hw, hb, hdis⟩
    · rw [he]
      cases listType with
      | whitelist =>
        refine ⟨nodup_lower_append _ _ hw (fun x hx => hnew x (List.mem_append_left _ hx)),
          hb, ?_⟩
        intro a ha b hb'
        rcases List.mem_append.mp ha with ha | ha
        · exact hdis a ha b hb'
        · have : a = normalizeDomain (trim inputValue) := by simpa using ha
          subst this
          exact fun e => hnew b (List.mem_append_right _ hb') e.symm
      | blacklist =>
        refine ⟨hw,
          nodup_lower_append _ _ hb (fun x hx => hnew x (List.mem_append_right _ hx)), ?_⟩
        intro a ha b hb'
        rcases List.mem_append.mp hb' with hb' | hb'
        · exact hdis a ha b hb'
        · have : b = normalizeDomain (trim inputValue) := by simpa using hb'
          subst this
          exact hnew a (List.mem_append_left _ ha)
  | remove listType domain confirmed =>
    simp only [ListCall.run, removeFromList]
    cases confirmed with
    | false => exact ⟨hw, hb, hdis⟩
    | true =>
      cases listType with
      | whitelist =>
        have hsub := removeFirst_sublist
          (fun d => decide (toLowerCase d = toLowerCase domain)) st.whitelist
        exact ⟨hw.sublist (hsub.map _), hb, fun a ha b hb' => hdis a (hsub.subset ha) b hb'⟩
      | blacklist =>
        have hsub := removeFirst_sublist
          (fun d => decide (toLowerCase d = toLowerCase domain)) st.blacklist
        exact ⟨hw, hb.sublist (hsub.map _), fun a ha b hb' => hdis a ha b (hsub.subset hb')⟩

/-- One call keeps or removes old entries and adds only normalised ones. -/
theorem FountainScan.run_entries (st : Lists) (call : ListCall) :
    ∀ e ∈ (call.run st).whitelist ++ (call.run st).blacklist,
      e ∈ st.whitelist ++ st.blacklist ∨
      (toLowerCase e = e ∧ isValidDomain e = true ∧
        ∃ inputValue, e = normalizeDomain (trim inputValue)) := by
  intro e he
  cases call with
  | add listType inputValue =>
    simp only [ListCall.run] at he
    rcases addToList_cases st listType inputValue with h | ⟨hlow, hvalid, _, h⟩
    · rw [h] at he; exact Or.inl he
    · rw [h] at he
      cases listType with
      | whitelist =>
        simp only [List.mem_append, List.mem_singleton] at he ⊢
        rcases he with (he | rfl) | he
        · exact Or.inl (Or.inl he)
        · exact Or.inr ⟨hlow, hvalid, inputValue, rfl⟩
        · exact Or.inl (Or.inr he)
      | blacklist =>
        simp only [List.mem_append, List.mem_singleton] at he ⊢
        rcases he with he | he | rfl
        · exact Or.inl (Or.inl he)
        · exact Or.inl (Or.inr he)
        · exact Or.inr ⟨hlow, hvalid, inputValue, rfl⟩
  | remove listType domain confirmed =>
    left
    simp only [ListCall.run, removeFromList] at he
    cases confirmed with
    | false => exact he
    | true =>
      cases listType with
      | whitelist =>
        rcases List.mem_append.mp he with he | he
        · exact List.mem_append_left _ ((removeFirst_sublist _ _).subset he)
        · exact List.mem_append_right _ he
      | blacklist =>
        rcases List.mem_append.mp he with he | he
        · exact List.mem_append_left _ he
        · exact List.mem_append_right _ ((removeFirst_sublist _ _).subset he)

/-- C26 (list-state invariant of the popup).  Starting from lists in which no
two entries of one list are equal ignoring case and no entry occurs (ignoring
case) in both lists, every sequence of `addToList` and `removeFromList` calls
keeps both facts; every entry of the final lists is an entry of the initial
lists or is lower-case, valid for `isValidDomain` and the `normalizeDomain`
form of a trimmed input; and every call of `addToList` either changes nothing
or appends such an entry to its list. -/
theorem list_state_invariant (st : Lists) (calls : List ListCall) (h : st.Distinct) :
    (calls.foldl ListCall.run st).Distinct ∧
    (∀ e ∈ (calls.foldl ListCall.run st).whitelist ++ (calls.foldl ListCall.run st).blacklist,
      e ∈ st.whitelist ++ st.blacklist ∨
      (toLowerCase e = e ∧ isValidDomain e = true ∧
        ∃ inputValue, e = normalizeDomain (trim inputValue))) ∧
    (∀ (st' : Lists) (listType : ListType) (inputValue : Str),
      addToList st' listType inputValue = st' ∨
      (toLowerCase (normalizeDomain (trim inputValue)) = normalizeDomain (trim inputValue) ∧
        isValidDomain (normalizeDomain (trim inputValue)) = true ∧
        addToList st' listType inputValue =
          match listType with
          | ListType.whitelist =>
            { st' with whitelist := st'.whitelist ++ [normalizeDomain (trim inputValue)] }
          | ListType.blacklist =>
            { st' with blacklist := st'.blacklist ++ [normalizeDomain (trim inputValue)] })) := by
  refine ⟨?_, ?_, ?_⟩
  · induction calls generalizing st with
    | nil => exact h
    | cons call calls ih => exact ih (call.run st) (run_distinct st call h)
  · clear h
    induction calls generalizing st with
    | nil => intro e he; exact Or.inl he
    | cons call calls ih =>
      intro e he
      rcases ih (call.run st) e he with h1 | h1
      · exact run_entries st call e h1
      · exact Or.inr h1
  · intro st' listType inputValue
    rcases addToList_cases st' listType inputValue with h1 | ⟨h1, h2, _, h3⟩
    · exact Or.inl h1
    · exact Or.inr ⟨h1, h2, h3⟩

/-- Witness of C26: from empty lists, `Example.COM` is added to the whitelist,
offered to the blacklist, removed and added to the blacklist. -/
theorem list_state_invariant_witness :
    ({ whitelist := [], blacklist := [] } : Lists).Distinct ∧
    [ ListCall.add ListType.whitelist "https://www.Example.COM/".toList,
      ListCall.add ListType.blacklist "EXAMPLE.com".toList,
      ListCall.remove ListType.whitelist "Example.com".toList true,
      ListCall.add ListType.blacklist " example.com:80".toList ].foldl ListCall.run
        { whitelist := [], blacklist := [] } =
      { whitelist := [], blacklist := ["example.com".toList] } ∧
    ([ ListCall.add ListType.whitelist "https://www.Example.COM/".toList,
      ListCall.add ListType.blacklist "EXAMPLE.com".toList,
      ListCall.remove ListType.whitelist "Example.com".toList true,
      ListCall.add ListType.blacklist " example.com:80".toList ].foldl ListCall.run
        { whitelist := [], blacklist := [] }).Distinct :=
  ⟨⟨by simp, by simp, by simp⟩, by decide,
   (list_state_invariant { whitelist := [], blacklist := [] }
      [ ListCall.add ListType.whitelist "https://www.Example.COM/".toList,
        ListCall.add ListType.blacklist "EXAMPLE.com".toList,
        ListCall.remove ListType.whitelist "Example.com".toList true,
        ListCall.add ListType.blacklist " example.com:80".toList ]
      ⟨by simp, by simp, by simp⟩).1⟩

end ListState

section Idempotence
open JS FountainScan

/-- What `dropWhile` leaves is empty or starts with a character failing the test. -/
theorem dropWhile_head (p : Char → Bool) (l : Str) :
    l.dropWhile p = [] ∨ ∃ x t, l.dropWhile p = x :: t ∧ p x = false := by
  induction l with
  | nil => exact Or.inl rfl
  | cons a l ih =>
    cases ha : p a
    · exact Or.inr ⟨a, l, by simp [List.dropWhile_cons, ha], ha⟩
    · simpa [List.dropWhile_cons, ha] using ih

/-- A string that is empty or starts with a character failing the test loses
nothing to `dropWhile`. -/
theorem dropWhile_eq_self (p : Char → Bool) (l : Str)
    (h : l = [] ∨ ∃ x t, l = x :: t ∧ p x = false) : l.dropWhile p = l := by
  rcases h with rfl | ⟨x, t, rfl, hx⟩
  · rfl
  · simp [List.dropWhile_cons, hx]

/-- Dropping from the front keeps a last character that fails the test. -/
theorem dropWhile_append_singleton (p : Char → Bool) (l : Str) (x : Char) (hx : p x = false) :
    ∃ c, (l ++ [x]).dropWhile p = c ++ [x] := by
  induction l with
  | nil => exact ⟨[], by simp [List.dropWhile_cons, hx]⟩
  | cons a l ih =>
    cases ha : p a
    · exact ⟨a :: l, by simp [List.dropWhile_cons, ha]⟩
    · obtain ⟨c, hc⟩ := ih
      exact ⟨c, by simpa [List.dropWhile_cons, ha] using hc⟩

/-- Trimming twice is trimming once. -/
theorem JS.trim_trim (s : Str) : trim (trim s) = trim s := by
  unfold trim
  have hfront : ((s.dropWhile isTrimChar).reverse.dropWhile isTrimChar).reverse.dropWhile
      isTrimChar = ((s.dropWhile isTrimChar).reverse.dropWhile isTrimChar).reverse := by
    rcases dropWhile_head isTrimChar s with h | ⟨x, t, h, hx⟩
    · rw [h]; rfl
    · rw [h, List.reverse_cons]
      obtain ⟨c, hc⟩ := dropWhile_append_singleton isTrimChar t.reverse x hx
      rw [hc, List.reverse_append]
      simp [List.dropWhile_cons, hx]
  rw [hfront, List.reverse_reverse]
  congr 1
  exact dropWhile_eq_self _ _ (dropWhile_head isTrimChar _)

/-- The result of `normalizeDomain` holds none of `/`, `?`, `#` and `:`. -/
theorem FountainScan.normalizeDomain_no_separator (input : Str) :
    ∀ c ∈ normalizeDomain input, c ≠ '/' ∧ c ≠ '?' ∧ c ≠ '#' ∧ c ≠ ':' := by
  intro c hc
  unfold normalizeDomain at hc
  split at hc
  · cases hc
  · simp only [splitFirst_eq_takeWhile] at hc
    have h0 := trim_subset _ hc
    have h4 := List.mem_takeWhile_imp h0
    have h0 := (List.takeWhile_sublist _).subset h0
    have h3 := List.mem_takeWhile_imp h0
    have h0 := (List.takeWhile_sublist _).subset h0
    have h2 := List.mem_takeWhile_imp h0
    have h0 := (List.takeWhile_sublist _).subset h0
    have h1 := List.mem_takeWhile_imp h0
    simp only [decide_eq_true_eq] at h1 h2 h3 h4
    exact ⟨h1, h2, h3, h4⟩

/-- The result of `normalizeDomain` is trimmed. -/
theorem FountainScan.normalizeDomain_trimmed (input : Str) :
    trim (normalizeDomain input) = normalizeDomain input := by
  unfold normalizeDomain
  split
  · rfl
  · exact trim_trim _

/-- On a lower-case string without `/`, `?`, `#` and `:`, `normalizeDomain`
removes one leading `www.` and trims. -/
theorem FountainScan.normalizeDomain_of_clean (y : Str) (hlow : toLowerCase y = y)
    (hsep : ∀ c ∈ y, c ≠ '/' ∧ c ≠ '?' ∧ c ≠ '#' ∧ c ≠ ':') :
    normalizeDomain y = trim (replaceWww y) := by
  unfold normalizeDomain
  split
  · next h => subst h; rfl
  · simp only []
    rw [hlow]
    have hscheme : replaceScheme y = y := by
      unfold replaceScheme startsWith
      have h1 : ("https://".toList).isPrefixOf y = false := by
        cases h : ("https://".toList).isPrefixOf y
        · rfl
        · have := (List.isPrefixOf_iff_prefix.mp h).subset (show ':' ∈ "https://".toList by decide)
          exact absurd rfl (hsep _ this).2.2.2
      have h2 : ("http://".toList).isPrefixOf y = false := by
        cases h : ("http://".toList).isPrefixOf y
        · rfl
        · have := (List.isPrefixOf_iff_prefix.mp h).subset (show ':' ∈ "http://".toList by decide)
          exact absurd rfl (hsep _ this).2.2.2
      rw [h1, h2]; rfl
    have hw : ∀ c ∈ replaceWww y, c ≠ '/' ∧ c ≠ '?' ∧ c ≠ '#' ∧ c ≠ ':' := by
      intro c hc
      apply hsep
      unfold replaceWww at hc
      split at hc
      · exact (List.drop_sublist _ _).subset hc
      · exact hc
    unfold replaceSchemeWww
    rw [hscheme]
    have hslash : replaceTrailingSlash (replaceWww y) = replaceWww y := by
      unfold replaceTrailingSlash endsWith
      cases h : ("/".toList).isSuffixOf (replaceWww y)
      · rfl
      · have := (List.isSuffixOf_iff_suffix.mp h).subset (show '/' ∈ "/".toList by decide)
        exact absurd rfl (hw _ this).1
    rw [hslash]
    simp only [splitFirst_eq_takeWhile]
    have e1 : (replaceWww y).takeWhile (fun x => decide (x ≠ '/')) = replaceWww y :=
      List.takeWhile_eq_self_iff.mpr (fun c hc => by simpa using (hw c hc).1)
    have e2 : (replaceWww y).takeWhile (fun x => decide (x ≠ '?')) = replaceWww y :=
      List.takeWhile_eq_self_iff.mpr (fun c hc => by simpa using (hw c hc).2.1)
    have e3 : (replaceWww y).takeWhile (fun x => decide (x ≠ '#')) = replaceWww y :=
      List.takeWhile_eq_self_iff.mpr (fun c hc => by simpa using (hw c hc).2.2.1)
    have e4 : (replaceWww y).takeWhile (fun x => decide (x ≠ ':')) = replaceWww y :=
      List.takeWhile_eq_self_iff.mpr (fun c hc => by simpa using (hw c hc).2.2.2)
    rw [e1, e2, e3, e4]

/-- Trimming never lengthens a string. -/
theorem JS.length_trim_le (s : Str) : (trim s).length ≤ s.length := by
  unfold trim
  rw [List.length_reverse]
  exact le_trans (List.dropWhile_sublist _).length_le
    (by rw [List.length_reverse]; exact (List.dropWhile_sublist _).length_le)

/-- C27, the input on which a second pass changes the result: the first pass
turns `www.www.example.com` into `www.example.com`, the second pass turns that
into `example.com`. -/
theorem normalizeDomain_not_idempotent :
    normalizeDomain "www.www.example.com".toList = "www.example.com".toList ∧
    normalizeDomain (normalizeDomain "www.www.example.com".toList) = "example.com".toList ∧
    normalizeDomain (normalizeDomain "www.www.example.com".toList) ≠
      normalizeDomain "www.www.example.com".toList := by
  decide

/-- C27 (amended).  A second pass of `normalizeDomain` removes one leading
`www.` of the first result and trims; it changes nothing exactly when the
first result does not start with `www.`. -/
theorem normalizeDomain_idempotent_iff (x : Str) :
    normalizeDomain (normalizeDomain x) = trim (replaceWww (normalizeDomain x)) ∧
    (normalizeDomain (normalizeDomain x) = normalizeDomain x ↔
      startsWith (normalizeDomain x) "www.".toList = false) := by
  have hn := normalizeDomain_of_clean (normalizeDomain x) (normalizeDomain_lower x)
    (normalizeDomain_no_separator x)
  refine ⟨hn, ?_⟩
  rw [hn]
  unfold replaceWww
  cases h : startsWith (normalizeDomain x) "www.".toList
  · simp [normalizeDomain_trimmed]
  · simp only [if_true, reduceCtorEq, iff_false]
    intro he
    have hlen := length_trim_le (List.drop 4 (normalizeDomain x))
    rw [he, List.length_drop] at hlen
    have hpre := (List.isPrefixOf_iff_prefix.mp h).length_le
    simp at hpre
    omega

/-- Witness of C27: a URL with scheme, `www.`, path and port. -/
theorem normalizeDomain_idempotent_iff_witness :
    normalizeDomain (normalizeDomain "HTTPS://www.Example.com:8080/apply?x=1".toList) =
      normalizeDomain "HTTPS://www.Example.com:8080/apply?x=1".toList ∧
    normalizeDomain "HTTPS://www.Example.com:8080/apply?x=1".toList = "example.com".toList :=
  ⟨(normalizeDomain_idempotent_iff "HTTPS://www.Example.com:8080/apply?x=1".toList).2.mpr
    (by decide), by decide⟩

end Idempotence

section PageContent
open JS FountainScanAnalyzer

/-- The test `s.includes(k)` holds exactly when `k` is a contiguous block of `s`. -/
theorem JS.includes_iff_block (s k : Str) : includes s k = true ↔ k <:+: s := by
  unfold includes
  rw [List.any_eq_true, List.infix_iff_prefix_suffix]
  constructor
  · rintro ⟨u, hu, hk⟩
    exact ⟨u, List.isPrefixOf_iff_prefix.mp hk, (List.mem_tails _ _).mp hu⟩
  · rintro ⟨u, hk, hu⟩
    exact ⟨u, (List.mem_tails _ _).mpr hu, List.isPrefixOf_iff_prefix.mpr hk⟩

/-- What a text includes, every text around it includes. -/
theorem JS.includes_mono (t t' k : Str) (h : t <:+: t') (hk : includes t k = true) :
    includes t' k = true :=
  (includes_iff_block t' k).mpr (((includes_iff_block t k).mp hk).trans h)

/-- A weaker test keeps at least the elements of the stronger one, in order. -/
theorem filter_sublist_filter (p q : Str → Bool) (h : ∀ x, p x = true → q x = true)
    (l : List Str) : (l.filter p).Sublist (l.filter q) := by
  induction l with
  | nil => exact List.Sublist.refl _
  | cons x l ih =>
    cases hp : p x
    · cases hq : q x
      · simpa [List.filter_cons, hp, hq] using ih
      · simpa [List.filter_cons, hp, hq] using ih.cons x
    · have hq := h x hp
      simpa [List.filter_cons, hp, hq] using ih.cons₂ x

/-- Running the calls made for the elements passing a guard is the `forEach`
of guarded `addIssue` calls. -/
theorem FountainScanAnalyzer.foldl_calls (p : Str → Bool) (msg : Str → Str) (w : Nat)
    (l : List Str) (a : Analyzer) :
    ((l.filter p).map (fun x => (msg x, w))).foldl (fun a c => addIssue a c.1 c.2) a =
      l.foldl (fun a x => if p x = true then addIssue a (msg x) w else a) a := by
  induction l generalizing a with
  | nil => rfl
  | cons x l ih =>
    cases hp : p x
    · simpa [List.filter_cons, hp] using ih a
    · simpa [List.filter_cons, hp] using ih (addIssue a (msg x) w)

/-- The method `checkPageContent` is the run of the calls of `pageContentCalls`. -/
theorem FountainScanAnalyzer.checkPageContent_eq_calls (a : Analyzer) (pageText : Str) :
    checkPageContent a pageText =
      (pageContentCalls (toLowerCase pageText)).foldl (fun a c => addIssue a c.1 c.2) a := by
  unfold pageContentCalls
  simp only [List.foldl_append, foldl_calls]
  rfl

/-- A run of calls adds the scores to `riskScore` and appends the issues. -/
theorem FountainScanAnalyzer.foldl_calls_run (calls : List (Str × Nat)) (a : Analyzer) :
    calls.foldl (fun a c => addIssue a c.1 c.2) a =
      { riskScore := a.riskScore + (calls.map Prod.snd).sum,
        detectedIssues := a.detectedIssues ++ calls.map Prod.fst } := by
  induction calls generalizing a with
  | nil => simp
  | cons c calls ih =>
    rw [List.foldl_cons, ih]
    simp [addIssue, Nat.add_assoc]

/-- The scores of the calls made for one array add up to weight times hits. -/
theorem calls_part_sum (msg : Str → Str) (w : Nat) (l : List Str) :
    ((l.map (fun x => (msg x, w))).map Prod.snd).sum = w * l.length := by
  induction l with
  | nil => rfl
  | cons x l ih =>
    simp only [List.map_cons, List.sum_cons, List.length_cons, ih, Nat.mul_succ]
    omega

/-- The calls made for one array grow with the text: more hits, no lower
weight. -/
theorem calls_part_mono (p q : Str → Bool) (h : ∀ x, p x = true → q x = true)
    (msg : Str → Str) (w w' : Nat) (hw : w ≤ w') (l : List Str) :
    (((l.filter p).map (fun x => (msg x, w))).map Prod.fst).Sublist
      (((l.filter q).map (fun x => (msg x, w'))).map Prod.fst) ∧
    (((l.filter p).map (fun x => (msg x, w))).map Prod.snd).sum ≤
      (((l.filter q).map (fun x => (msg x, w'))).map Prod.snd).sum ∧
    ∀ c ∈ (l.filter p).map (fun x => (msg x, w)),
      ∃ c' ∈ (l.filter q).map (fun x => (msg x, w')), c'.1 = c.1 ∧ c.2 ≤ c'.2 := by
  have hsub := filter_sublist_filter p q h l
  refine ⟨?_, ?_, ?_⟩
  · simp only [List.map_map]
    exact hsub.map _
  · rw [calls_part_sum, calls_part_sum]
    exact Nat.mul_le_mul hw hsub.length_le
  · intro c hc
    obtain ⟨x, hx, rfl⟩ := List.mem_map.mp hc
    exact ⟨(msg x, w'), List.mem_map.mpr ⟨x, hsub.subset hx, rfl⟩, rfl, hw⟩

/-- A higher score never gets a lower level. -/
theorem FountainScanAnalyzer.getRiskLevel_rank_mono (s t : Nat) (hst : s ≤ t) :
    (getRiskLevel s).rank ≤ (getRiskLevel t).rank := by
  simp only [getRiskLevel, CONFIG.RISK_THRESHOLDS]
  repeat' split
  all_goals simp [RiskLevel.rank]
  all_goals omega

/-- The calls of `checkPageContent` grow with the text. -/
theorem FountainScanAnalyzer.pageContentCalls_mono (t t' : Str) (hsub : t <:+: t') :
    ((pageContentCalls t).map Prod.fst).Sublist ((pageContentCalls t').map Prod.fst) ∧
    ((pageContentCalls t).map Prod.snd).sum ≤ ((pageContentCalls t').map Prod.snd).sum ∧
    ∀ c ∈ pageContentCalls t, ∃ c' ∈ pageContentCalls t', c'.1 = c.1 ∧ c.2 ≤ c'.2 := by
  have hinc : ∀ x, includes t x = true → includes t' x = true :=
    fun x hx => includes_mono t t' x hsub hx
  have hw : (if checkForAdditionalRisks t then 2 else 1) ≤
      (if checkForAdditionalRisks t' then 2 else 1) := by
    by_cases h : checkForAdditionalRisks t = true
    · have h' : checkForAdditionalRisks t' = true := by
        unfold checkForAdditionalRisks at h ⊢
        rw [List.any_eq_true] at h ⊢
        obtain ⟨risk, hr, hi⟩ := h
        exact ⟨risk, hr, hinc risk hi⟩
      rw [h, h']
    · rw [Bool.not_eq_true] at h
      rw [h]
      cases h' : checkForAdditionalRisks t' <;> decide
  have h1 := calls_part_mono (fun keyword => includes t keyword)
    (fun keyword => includes t' keyword) hinc
    (fun keyword => "Scam keyword detected: ".toList ++ quote :: keyword ++ [quote]) 1 1
    (Nat.le_refl _) CONFIG.SCAM_KEYWORDS
  have h2 := calls_part_mono (fun phrase => includes t phrase)
    (fun phrase => includes t' phrase) hinc
    (fun phrase => "Suspicious phrase detected: ".toList ++ quote :: phrase ++ [quote]) 2 2
    (Nat.le_refl _) CONFIG.SUSPICIOUS_PHRASES
  have h3 := calls_part_mono (fun word => includes t word)
    (fun word => includes t' word) hinc
    (fun word => "Urgency pressure detected: ".toList ++ quote :: word ++ [quote]) 1 1
    (Nat.le_refl _) urgencyWords
  have h4 := calls_part_mono (fun request => includes t request)
    (fun request => includes t' request) hinc
    (fun request => "Money request detected: ".toList ++ quote :: request ++ [quote]) 3 3
    (Nat.le_refl _) moneyRequests
  have h5 := calls_part_mono (fun pattern => includes t pattern)
    (fun pattern => includes t' pattern) hinc
    (fun pattern => "Nigerian scholarship pattern: ".toList ++ quote :: pattern ++ [quote])
    _ _ hw nigerianPatterns
  unfold pageContentCalls
  refine ⟨?_, ?_, ?_⟩
  · simp only [List.map_append]
    exact (((h1.1.append h2.1).append h3.1).append h4.1).append h5.1
  · simp only [List.map_append, List.sum_append]
    exact Nat.add_le_add (Nat.add_le_add (Nat.add_le_add (Nat.add_le_add h1.2.1 h2.2.1)
      h3.2.1) h4.2.1) h5.2.1
  · intro c hc
    simp only [List.mem_append] at hc
    rcases hc with (((hc | hc) | hc) | hc) | hc
    · obtain ⟨c', hc', h⟩ := h1.2.2 c hc
      exact ⟨c', by simp only [List.mem_append]; exact Or.inl (Or.inl (Or.inl (Or.inl hc'))), h⟩
    · obtain ⟨c', hc', h⟩ := h2.2.2 c hc
      exact ⟨c', by simp only [List.mem_append]; exact Or.inl (Or.inl (Or.inl (Or.inr hc'))), h⟩
    · obtain ⟨c', hc', h⟩ := h3.2.2 c hc
      exact ⟨c', by simp only [List.mem_append]; exact Or.inl (Or.inl (Or.inr hc')), h⟩
    · obtain ⟨c', hc', h⟩ := h4.2.2 c hc
      exact ⟨c', by simp only [List.mem_append]; exact Or.inl (Or.inr hc'), h⟩
    · obtain ⟨c', hc', h⟩ := h5.2.2 c hc
      exact ⟨c', by simp only [List.mem_append]; exact Or.inr hc', h⟩

/-- C29 (content scoring is monotone in the page text).  For lower-case texts
`t` and `t'` with `t` a contiguous block of `t'`, and any state of the analyzer
before the call: `checkPageContent` is the run of the `addIssue` calls listed by
`pageContentCalls`; every call made for `t` is made for `t'` with the same
issue and a score at least as large; the issues recorded for `t` are, in order,
among the issues recorded for `t'`; the risk score for `t'` is at least the
risk score for `t`, and the level for `t'` is not lower. -/
theorem checkPageContent_monotone (a : Analyzer) (t t' : Str)
    (hlow : toLowerCase t = t) (hlow' : toLowerCase t' = t') (hsub : t <:+: t') :
    checkPageContent a t =
      (pageContentCalls t).foldl (fun a c => addIssue a c.1 c.2) a ∧
    checkPageContent a t' =
      (pageContentCalls t').foldl (fun a c => addIssue a c.1 c.2) a ∧
    (∀ c ∈ pageContentCalls t, ∃ c' ∈ pageContentCalls t', c'.1 = c.1 ∧ c.2 ≤ c'.2) ∧
    (checkPageContent a t).detectedIssues.Sublist (checkPageContent a t').detectedIssues ∧
    (checkPageContent a t).riskScore ≤ (checkPageContent a t').riskScore ∧
    (getRiskLevel (checkPageContent a t).riskScore).rank ≤
      (getRiskLevel (checkPageContent a t').riskScore).rank := by
  have e := checkPageContent_eq_calls a t
  have e' := checkPageContent_eq_calls a t'
  rw [hlow] at e
  rw [hlow'] at e'
  obtain ⟨hiss, hsum, hcalls⟩ := pageContentCalls_mono t t' hsub
  have hscore : (checkPageContent a t).riskScore ≤ (checkPageContent a t').riskScore := by
    rw [e, e', foldl_calls_run, foldl_calls_run]
    exact Nat.add_le_add_left hsum _
  refine ⟨e, e', hcalls, ?_, hscore, getRiskLevel_rank_mono _ _ hscore⟩
  rw [e, e', foldl_calls_run, foldl_calls_run]
  exact (List.Sublist.refl _).append hiss

/-- Witness of C29: the text `tetfund award` inside a text that also asks for a
processing fee; the one issue of the short text is recorded with weight 1 for
it and weight 2 for the long text. -/
theorem checkPageContent_monotone_witness :
    toLowerCase "tetfund award".toList = "tetfund award".toList ∧
    "tetfund award".toList <:+: "the tetfund award has a processing fee".toList ∧
    checkPageContent { riskScore := 0, detectedIssues := [] } "tetfund award".toList =
      { riskScore := 1,
        detectedIssues :=
          ["Nigerian scholarship pattern: ".toList ++ quote :: "tetfund".toList ++ [quote]] } ∧
    checkPageContent { riskScore := 0, detectedIssues := [] }
        "the tetfund award has a processing fee".toList =
      { riskScore := 5,
        detectedIssues :=
          [ "Money request detected: ".toList ++ quote :: "processing fee".toList ++ [quote],
            "Nigerian scholarship pattern: ".toList ++ quote :: "tetfund".toList ++ [quote] ] } ∧
    (checkPageContent { riskScore := 0, detectedIssues := [] } "tetfund award".toList).riskScore ≤
      (checkPageContent { riskScore := 0, detectedIssues := [] }
        "the tetfund award has a processing fee".toList).riskScore :=
  ⟨by decide, ⟨"the ".toList, " has a processing fee".toList, by decide⟩, by decide, by decide,
   (checkPageContent_monotone { riskScore := 0, detectedIssues := [] } "tetfund award".toList
      "the tetfund award has a processing fee".toList (by decide) (by decide)
      ⟨"the ".toList, " has a processing fee".toList, by decide⟩ |>.2.2.2.2.1)⟩

end PageContent

section PageAnalysis
open JS FountainScanAnalyzer

/-- C30, evaluated on the code.  On the page `http://a.tk/`, whose page text
is the empty string, the analyzer the content script creates computes the
score 3 with two issues, level LOW; the property `window.fountainScanAnalyzer`
the listener reads is never written, so the reply to `getPageAnalysis` carries
the fallbacks: score 0, no issue, level SAFE.  That holds on every page, while
a listener handed the instance would report its three values. -/
theorem getPageAnalysis_reports_fallbacks :
    Examples.tkPage.pageText = [] ∧
    (contentScript Examples.tkPage).created =
      { analyzer :=
          { riskScore := 3,
            detectedIssues :=
              [ "No HTTPS encryption".toList,
                "Suspicious domain extension: .tk".toList ] },
        pageAnalyzed := true } ∧
    getRiskLevel (contentScript Examples.tkPage).created.analyzer.riskScore = RiskLevel.LOW ∧
    getPageAnalysis (contentScript Examples.tkPage).windowFountainScanAnalyzer
        Examples.tkPage =
      { url := "http://a.tk/".toList, domain := "a.tk".toList,
        riskScore := 0, issues := [], riskLevel := RiskLevel.SAFE } ∧
    (∀ page : Page,
      getPageAnalysis (contentScript page).windowFountainScanAnalyzer page =
        { url := page.url, domain := page.domain,
          riskScore := 0, issues := [], riskLevel := RiskLevel.SAFE }) ∧
    (∀ (i : Instance) (page : Page),
      (getPageAnalysis (some i) page).riskScore = i.analyzer.riskScore ∧
      (getPageAnalysis (some i) page).issues = i.analyzer.detectedIssues ∧
      (getPageAnalysis (some i) page).riskLevel = getRiskLevel i.analyzer.riskScore) := by
  refine ⟨rfl, by decide, by decide, by decide, fun page => rfl, fun i page => ⟨rfl, rfl, rfl⟩⟩

end PageAnalysis
